import Mathlib

/-!
# DeepCite — verification of the client-side chat core

Shallow embedding of the DeepCite frontend chat subsystem:

* the conversation store (`src/frontend/src/features/chat/stores/chatStore.ts`),
* the PDF byte assembler and citation resolution
  (`src/frontend/src/features/chat/components/ChatPane.vue`),
* the BibTeX parser (`src/docs/src/components/Citation/BibParser.ts`) and
  the BibTeX formatter (`src/docs/src/pages/papers.tsx`).

JavaScript strings are modelled as `List Char`, byte buffers as `List Nat`
(each element < 256), `Date.now()`-based identifiers as values drawn from a
strictly monotone counter (`nextId`), and JS `Map`/`Set`/object values as
association lists with JS insertion-order semantics.  Persistence to
`localStorage` is a side effect outside the state observed by any claim and
is not modelled.  Asynchronous execution is modelled as a small-step system:
`sendMessage` is split into its synchronous prefix (everything up to and
including issuing the network call) and its completion (the `then`/`catch`/
`finally` handling of the settled request), interleaved by an explicit trace
of events.
-/

namespace DeepCite

/-! ## Data model (chatStore.ts) -/

inductive Role where
  | user
  | assistant
deriving DecidableEq

inductive ChatMode where
  | normal
  | workspaces
  | internet
deriving DecidableEq

/-- `ChatMessage` from chatStore.ts, restricted to the fields the claims
observe (`id`, `role`, `content`).  `htmlContent`, `model`, `searchResults`,
`formattedCitations`, `citations` and `contextUsed` ride along on the real
object but are never consulted by the store logic under verification;
search results are modelled separately for the citation claims. -/
structure ChatMessage where
  mid : Nat
  role : Role
  content : String
deriving DecidableEq

/-- `ChatConversation` from chatStore.ts.  Timestamps (`createdAt`,
`updatedAt`) are `new Date()` values; they are modelled by the monotone
counter value current at the time of the assignment. -/
structure ChatConversation where
  id : Nat
  title : String
  messages : List ChatMessage
  modelId : String
  createdAt : Nat
  updatedAt : Nat
  selectedWorkspaces : List String
  selectedDocuments : List (String × List String)
  chatMode : Option ChatMode
  chatModeLocked : Bool
  selectedDomains : List String
  isTemporary : Bool
deriving DecidableEq

/-- The refs of `useChatStore` that the claims observe.  `activeRequests`
models the `Set<string>` of request ids, `requestQueue` the
`Map<string, AbortController>` keyed by conversation id (the value is the
id of the controller object). -/
structure StoreState where
  conversations : List ChatConversation
  currentConversationId : Option Nat
  selectedModelId : String
  isLoading : Bool
  error : Option String
  chatMode : Option ChatMode
  selectedDomains : List String
  activeRequests : List Nat
  requestQueue : List (Nat × Nat)
  nextId : Nat
deriving DecidableEq

def initialStore : StoreState :=
  { conversations := []
    currentConversationId := none
    selectedModelId := "gpt-5"
    isLoading := false
    error := none
    chatMode := some ChatMode.normal
    selectedDomains := []
    activeRequests := []
    requestQueue := []
    nextId := 0 }

/-! ## Association-list operations with JS `Map` semantics -/

def alistGet {β : Type} (m : List (Nat × β)) (k : Nat) : Option β :=
  match m with
  | [] => none
  | (k', v) :: rest => if k' = k then some v else alistGet rest k

def alistSet {β : Type} (m : List (Nat × β)) (k : Nat) (v : β) : List (Nat × β) :=
  match m with
  | [] => [(k, v)]
  | (k', v') :: rest => if k' = k then (k', v) :: rest else (k', v') :: alistSet rest k v

def alistDelete {β : Type} (m : List (Nat × β)) (k : Nat) : List (Nat × β) :=
  match m with
  | [] => []
  | (k', v') :: rest => if k' = k then rest else (k', v') :: alistDelete rest k

/-! ## `createNewConversation` (chatStore.ts lines 215–246)

```
const createNewConversation = (title?, isTemporary = false) => {
  const conversation = { id, title: title || 'New Chat', messages: [], ... }
  if (isTemporary) {
    conversations.value = conversations.value.filter(conv =>
      !conv.isTemporary || conv.messages.length > 0 || conv.id === currentConversationId.value)
  }
  conversations.value.push(conversation)
  currentConversationId.value = id
  ...
}
```
-/

def createNewConversation (s : StoreState) (title : Option String) (isTemporary : Bool) :
    Nat × StoreState :=
  let id := s.nextId
  let conversation : ChatConversation :=
    { id := id
      title := title.getD "New Chat"
      messages := []
      modelId := s.selectedModelId
      createdAt := s.nextId
      updatedAt := s.nextId
      selectedWorkspaces := []
      selectedDocuments := []
      chatMode := none
      chatModeLocked := false
      selectedDomains := s.selectedDomains
      isTemporary := isTemporary }
  let convs :=
    if isTemporary then
      s.conversations.filter (fun conv =>
        decide (conv.isTemporary = false ∨ 0 < conv.messages.length ∨
          some conv.id = s.currentConversationId))
    else s.conversations
  (id, { s with
          conversations := convs ++ [conversation]
          currentConversationId := some id
          nextId := s.nextId + 1 })

/-! ## `deleteConversation` (chatStore.ts lines 261–276)

```
const index = conversations.value.findIndex(c => c.id === id)
if (index !== -1) {
  conversations.value.splice(index, 1)
  if (currentConversationId.value === id) {
    currentConversationId.value =
      conversations.value.length > 0 ? conversations.value[0].id : null
  }
}
```
-/

def deleteConversation (s : StoreState) (id : Nat) : StoreState :=
  match s.conversations.findIdx? (fun c => c.id == id) with
  | none => s
  | some index =>
    let convs := s.conversations.eraseIdx index
    let current :=
      if s.currentConversationId = some id then
        match convs with
        | [] => none
        | c :: _ => some c.id
      else s.currentConversationId
    { s with conversations := convs, currentConversationId := current }

/-- `sortedConversations` (chatStore.ts lines 81–85): conversations sorted by
`updatedAt` descending.  JS `Array.prototype.sort` is stable; modelled as a
stable insertion sort placing an element before the first strictly older
entry. -/
def insertByUpdatedDesc (c : ChatConversation) :
    List ChatConversation → List ChatConversation
  | [] => [c]
  | d :: rest =>
    if d.updatedAt < c.updatedAt then c :: d :: rest
    else d :: insertByUpdatedDesc c rest

def sortedConversations (s : StoreState) : List ChatConversation :=
  s.conversations.foldr insertByUpdatedDesc []

/-! ## The `sendMessage` protocol (chatStore.ts lines 360–503)

`sendMessage` is asynchronous.  Its execution is modelled in two halves:

* `startSend`: the synchronous prefix — ensure a current conversation,
  generate a request id, abort and de-register any controller already queued
  for the conversation, register a fresh controller, record the request id as
  active, push the user message, derive title/mode/temporary on a first
  message, push the placeholder assistant message (sentinel content `"..."`),
  set `isLoading`, clear `error`, and issue the network call.
* `finishSend`: the continuation that runs when that call settles, covering
  the `response.data.success` branch, the `throw` on `success: false`, the
  `catch` clause distinguishing abort-like rejections
  (`e.name === 'AbortError' || e.code === 'ECONNABORTED'`) from genuine
  failures, and the `finally` bookkeeping.

A `PendingSend` records the closure state of one in-flight `sendMessage`
call between the two halves.  `AbortController` objects are modelled in a
side table `controllers` mapping controller id to its aborted flag. -/

structure PendingSend where
  reqId : Nat
  convId : Nat
  controllerId : Nat
  userMsgId : Nat
  placeholderId : Nat
  timeoutMs : Nat
deriving DecidableEq

structure World where
  store : StoreState
  controllers : List (Nat × Bool)
  pendings : List PendingSend
deriving DecidableEq

def initWorld : World :=
  { store := initialStore, controllers := [], pendings := [] }

/-- How the network promise of one request settles.

Modelled from the spec: the REST client (`@/services/api`, not part of this
source set) is an axios-style wrapper — `api.post(url, body, {signal,
timeout})`.  Per the spec, an aborted request's eventual rejection carries
the distinguished abort name/code that the store's catch clause swallows
(`resolvedAbort`), and the fixed 2-minute timeout is enforced client-side by
the wrapper; the rejection it produces carries the connection-aborted code
(`ECONNABORTED`), the code named in the store's own swallow branch
(`timedOut`).  A settled response with `success: false` makes the store
throw an ordinary `Error` (`resolved false`); any other rejection is
`failed`. -/
inductive ReqOutcome where
  | resolved (success : Bool) (content : String) (errMsg : String)
  | resolvedAbort
  | timedOut
  | failed (msg : String)
deriving DecidableEq

def updateConv (convs : List ChatConversation) (c : ChatConversation) :
    List ChatConversation :=
  convs.map (fun d => if d.id == c.id then c else d)

/-- The user message pushed optimistically by `sendMessage` (id generated
from the clock, role `user`). -/
def sendUserMessage (s1 : StoreState) (content : String) : ChatMessage :=
  { mid := s1.nextId + 2, role := Role.user, content := content }

/-- The placeholder assistant message (sentinel content `"..."`). -/
def sendPlaceholder (s1 : StoreState) : ChatMessage :=
  { mid := s1.nextId + 3, role := Role.assistant, content := "..." }

/-- The conversation object after `sendMessage`'s synchronous mutations:
user message appended, `updatedAt` refreshed, title/mode/temporary handling
when it was the first message, placeholder appended. -/
def sendConv3 (s1 : StoreState) (conversation : ChatConversation)
    (content : String) : ChatConversation :=
  let msgs1 := conversation.messages ++ [sendUserMessage s1 content]
  let conv1 := { conversation with messages := msgs1, updatedAt := s1.nextId }
  let conv2 :=
    if msgs1.length = 1 then
      { conv1 with
        title := if 50 < content.length then content.take 50 ++ "..." else content
        chatMode := s1.chatMode
        chatModeLocked := true
        isTemporary := false }
    else conv1
  { conv2 with messages := conv2.messages ++ [sendPlaceholder s1] }

/-- "Cancel any existing request for this conversation": abort the queued
controller (if any) and drop its queue entry. -/
def abortExisting (controllers : List (Nat × Bool)) (queue : List (Nat × Nat))
    (cid : Nat) : (List (Nat × Bool)) × (List (Nat × Nat)) :=
  match alistGet queue cid with
  | some existing => (alistSet controllers existing true, alistDelete queue cid)
  | none => (controllers, queue)

/-- Bookkeeping record for the freshly issued request (request id from the
clock, its own new controller, the two message ids, the fixed 2-minute
timeout passed to the HTTP client). -/
def sendPending (s1 : StoreState) (conversation : ChatConversation) : PendingSend :=
  { reqId := s1.nextId, convId := conversation.id, controllerId := s1.nextId + 1,
    userMsgId := s1.nextId + 2, placeholderId := s1.nextId + 3, timeoutMs := 120000 }

/-- Main path of `startSend` once the current conversation object is in
hand (the body of `sendMessage` after the `if (!conversation) return`
guard, up to and including issuing the network call). -/
def startSendWith (w : World) (s1 : StoreState) (conversation : ChatConversation)
    (content : String) : World :=
  let ab := abortExisting w.controllers s1.requestQueue conversation.id
  { store := { s1 with
      conversations := updateConv s1.conversations (sendConv3 s1 conversation content)
      requestQueue := alistSet ab.2 conversation.id (s1.nextId + 1)
      activeRequests := s1.activeRequests ++ [s1.nextId]
      isLoading := true
      error := none
      nextId := s1.nextId + 4 }
    controllers := alistSet ab.1 (s1.nextId + 1) false
    pendings := w.pendings ++ [sendPending s1 conversation] }

/-- Synchronous prefix of `sendMessage(content)` (lines 360–439):
ensure a current conversation, look it up, then run the main path. -/
def startSend (w : World) (content : String) : World :=
  let s0 := w.store
  let s1 := if s0.currentConversationId = none
            then (createNewConversation s0 none false).2 else s0
  match s1.currentConversationId.bind
      (fun cid => s1.conversations.find? (fun c => c.id == cid)) with
  | none => { w with store := s1 }
  | some conversation => startSendWith w s1 conversation content

/-- `conversation.messages.findIndex(msg => msg.id === placeholderMessage.id)`
followed by `splice(placeholderIndex, 1)` when found. -/
def removeMsgById (msgs : List ChatMessage) (mid : Nat) : List ChatMessage :=
  msgs.eraseP (fun m => m.mid == mid)

/-- Body of the completion handling once the pending record and its
conversation object are in hand. -/
def finishSendWith (w : World) (p : PendingSend) (conversation : ChatConversation)
    (o : ReqOutcome) : World :=
      let pendings := w.pendings.eraseP (fun q => q.reqId == p.reqId)
      let s := w.store
      let afterBody : StoreState :=
        match o with
        | ReqOutcome.resolved success content errMsg =>
          -- Check if this request is still active (not cancelled)
          if (s.activeRequests.contains p.reqId) = false then s
          else if success then
            let msgs := removeMsgById conversation.messages p.placeholderId
            let assistantMessage : ChatMessage :=
              { mid := s.nextId, role := Role.assistant, content := content }
            let conv' := { conversation with
              messages := msgs ++ [assistantMessage], updatedAt := s.nextId }
            { s with conversations := updateConv s.conversations conv', nextId := s.nextId + 1 }
          else
            -- throw new Error(response.data.error): caught below, not abort-like
            let msgs := removeMsgById conversation.messages p.placeholderId
            let conv' := { conversation with messages := msgs }
            { s with conversations := updateConv s.conversations conv'
                     error := some errMsg }
        | ReqOutcome.resolvedAbort =>
          -- e.name === 'AbortError' || e.code === 'ECONNABORTED': swallowed
          let msgs := removeMsgById conversation.messages p.placeholderId
          let conv' := { conversation with messages := msgs }
          { s with conversations := updateConv s.conversations conv' }
        | ReqOutcome.timedOut =>
          -- axios timeout rejection: code 'ECONNABORTED', same branch as abort
          let msgs := removeMsgById conversation.messages p.placeholderId
          let conv' := { conversation with messages := msgs }
          { s with conversations := updateConv s.conversations conv' }
        | ReqOutcome.failed msg =>
          let msgs := removeMsgById conversation.messages p.placeholderId
          let conv' := { conversation with messages := msgs }
          { s with conversations := updateConv s.conversations conv'
                   error := some msg }
      -- finally: clear the bookkeeping (note: the queue entry for this
      -- conversation is deleted whether or not it still holds this
      -- request's own controller)
      let afterFinally := { afterBody with
        activeRequests := afterBody.activeRequests.filter (fun r => r != p.reqId)
        requestQueue := alistDelete afterBody.requestQueue p.convId
        isLoading := false }
      { store := afterFinally, controllers := w.controllers, pendings := pendings }

/-- Completion of one `sendMessage` call (lines 441–493): success handling,
catch clause and `finally` bookkeeping, applied to the store state current
when the promise settles. -/
def finishSend (w : World) (reqId : Nat) (o : ReqOutcome) : World :=
  match w.pendings.find? (fun p => p.reqId == reqId) with
  | none => w
  | some p =>
    match w.store.conversations.find? (fun c => c.id == p.convId) with
    | none => { w with pendings := w.pendings.eraseP (fun q => q.reqId == reqId) }
    | some conversation => finishSendWith w p conversation o

/-- `cancelActiveRequests` (lines 496–503): abort every controller held in
the request queue, then clear the queue, the active-request set and the
loading flag. -/
def cancelActiveRequests (w : World) : World :=
  let s := w.store
  { store := { s with activeRequests := [], requestQueue := [], isLoading := false }
    controllers := w.controllers.map (fun kv =>
      if s.requestQueue.any (fun e => e.2 == kv.1) then (kv.1, true) else kv)
    pendings := w.pendings }

/-! ## Event traces -/

inductive Event where
  | send (content : String)
  | finish (reqId : Nat) (o : ReqOutcome)
  | cancelAll
deriving DecidableEq

def stepWorld (w : World) : Event → World
  | Event.send content => startSend w content
  | Event.finish r o => finishSend w r o
  | Event.cancelAll => cancelActiveRequests w

def runWorld (w : World) : List Event → World
  | [] => w
  | e :: t => runWorld (stepWorld w e) t

/-- An event is admissible in a world: a completion must belong to an
in-flight request; a request whose controller has been aborted can only
settle with the abort rejection (the cooperative-cancellation contract of
the HTTP client); a successfully resolved reply never carries the literal
placeholder sentinel as its content. -/
def validEvent (w : World) : Event → Bool
  | Event.send _ => true
  | Event.cancelAll => true
  | Event.finish r o =>
    w.pendings.any (fun p =>
      p.reqId == r &&
      (match alistGet w.controllers p.controllerId with
       | some true =>
         match o with
         | ReqOutcome.resolvedAbort => true
         | _ => false
       | _ => true) &&
      (match o with
       | ReqOutcome.resolved _ content _ => content != "..."
       | _ => true))

def validFrom (w : World) : List Event → Bool
  | [] => true
  | e :: t => validEvent w e && validFrom (stepWorld w e) t

def noCancelEvents (t : List Event) : Bool :=
  t.all (fun e =>
    match e with
    | Event.cancelAll => false
    | _ => true)

def isPlaceholderMsg (m : ChatMessage) : Bool :=
  (match m.role with | Role.assistant => true | Role.user => false) && m.content == "..."

/-! ## Claim C3: consecutive temporary conversation creation -/

def c3Step1 : StoreState := (createNewConversation initialStore none true).2

def c3Step2 : StoreState := (createNewConversation c3Step1 none true).2

/-- The first temporary conversation created (empty, current when the second
`createNewConversation` call prunes). -/
def c3TempConv : ChatConversation :=
  { id := 0, title := "New Chat", messages := [], modelId := "gpt-5",
    createdAt := 0, updatedAt := 0, selectedWorkspaces := [], selectedDocuments := [],
    chatMode := none, chatModeLocked := false, selectedDomains := [], isTemporary := true }

/-- C3, counterexample.  Two consecutive `createNewConversation(_, true)`
calls with no message added leave TWO temporary conversations in the store,
not exactly one as claimed: the pruning filter spares an empty temporary
conversation that is the current one, and the first call's conversation is
current when the second call prunes. -/
theorem c3_counterexample :
    (c3Step2.conversations.filter (fun c => c.isTemporary)).length = 2 ∧
    ¬ (c3Step2.conversations.filter (fun c => c.isTemporary)).length = 1 := by
  decide

/-- C3, amended.  Two consecutive temporary creations leave exactly two
temporary conversations; in general, after `createNewConversation(_, true)`
every *empty* temporary conversation other than the newly created one was
the current conversation at the time of the call (the prune spares the
current conversation, so at most one empty temporary conversation exists
besides it). -/
theorem c3_amended_prune_spares_current :
    (c3Step2.conversations.filter (fun c => c.isTemporary)).length = 2 ∧
    (∀ (s : StoreState) (title : Option String) (c : ChatConversation),
      c ∈ (createNewConversation s title true).2.conversations →
      c.isTemporary = true → c.messages = [] →
      c.id = (createNewConversation s title true).1 ∨
        some c.id = s.currentConversationId) := by
  refine ⟨by decide, ?_⟩
  intro s title c hc htemp hempty
  have hc' : c ∈ (s.conversations.filter (fun conv =>
      decide (conv.isTemporary = false ∨ 0 < conv.messages.length ∨
        some conv.id = s.currentConversationId))) ++
      [{ id := s.nextId, title := title.getD "New Chat", messages := [],
         modelId := s.selectedModelId, createdAt := s.nextId, updatedAt := s.nextId,
         selectedWorkspaces := [], selectedDocuments := [], chatMode := none,
         chatModeLocked := false, selectedDomains := s.selectedDomains,
         isTemporary := true }] := hc
  rcases List.mem_append.1 hc' with hmem | hmem
  · have hcond := List.of_mem_filter hmem
    rw [decide_eq_true_iff] at hcond
    rcases hcond with h1 | h2 | h3
    · rw [htemp] at h1; cases h1
    · rw [hempty] at h2; cases h2
    · exact Or.inr h3
  · rw [List.mem_singleton] at hmem
    subst hmem
    exact Or.inl rfl

theorem c3_amended_prune_spares_current_witness :
    c3TempConv ∈ (createNewConversation c3Step1 none true).2.conversations ∧
    c3TempConv.isTemporary = true ∧ c3TempConv.messages = [] ∧
    (c3TempConv.id = (createNewConversation c3Step1 none true).1 ∨
      some c3TempConv.id = c3Step1.currentConversationId) :=
  ⟨by decide, by decide, by decide,
    c3_amended_prune_spares_current.2 c3Step1 none c3TempConv (by decide)
      (by decide) (by decide)⟩

/-! ## Claim C7: `deleteConversation` -/

def c7Step1 : StoreState := (createNewConversation initialStore (some "a") false).2

def c7Step2 : StoreState := (createNewConversation c7Step1 (some "b") false).2

def c7Step3 : StoreState := (createNewConversation c7Step2 (some "c") false).2

def c7Deleted : StoreState := deleteConversation c7Step3 2

/-- C7, counterexample.  Three conversations are created in order (ids 0, 1,
2 with strictly increasing `updatedAt`); the current one (id 2) is deleted.
The code picks `conversations[0]` — the *first remaining conversation in
insertion order* (id 0) — while the most-recently-updated remaining
conversation is id 1, so the claimed selection rule is violated. -/
theorem c7_counterexample :
    c7Deleted.currentConversationId = some 0 ∧
    ((sortedConversations c7Deleted).head?.map (fun c => c.id)) = some 1 ∧
    ¬ c7Deleted.currentConversationId =
        ((sortedConversations c7Deleted).head?.map (fun c => c.id)) := by
  decide

theorem findIdx_erase_eq_filter (l : List ChatConversation) (id : Nat)
    (hnd : (l.map (fun c => c.id)).Nodup) :
    (match l.findIdx? (fun c => c.id == id) with
     | none => l
     | some i => l.eraseIdx i) = l.filter (fun c => c.id != id) := by
  induction l with
  | nil => rfl
  | cons c t ih =>
    simp only [List.map_cons, List.nodup_cons, List.mem_map] at hnd
    by_cases hc : c.id = id
    · have h0 : (c :: t).findIdx? (fun c => c.id == id) = some 0 := by
        simp [List.findIdx?_cons, hc]
      rw [h0]
      have ht : t.filter (fun c => c.id != id) = t := by
        apply List.filter_eq_self.2
        intro d hd
        have hne : ¬ d.id = id := by
          intro hdid
          exact hnd.1 ⟨d, hd, by rw [hdid, hc]⟩
        simp [hne]
      show t = (c :: t).filter (fun c => c.id != id)
      rw [List.filter_cons, if_neg (by simp [hc]), ht]
    · have hstep : (c :: t).findIdx? (fun c => c.id == id) =
          (t.findIdx? (fun c => c.id == id)).map (· + 1) := by
        simp [List.findIdx?_cons, hc]
      rw [hstep]
      have ih' := ih hnd.2
      cases hf : t.findIdx? (fun c => c.id == id) with
      | none =>
        rw [hf] at ih'
        show c :: t = (c :: t).filter (fun c => c.id != id)
        rw [List.filter_cons, if_pos (by simp [hc])]
        exact congrArg (List.cons c) ih'
      | some i =>
        rw [hf] at ih'
        show c :: t.eraseIdx i = (c :: t).filter (fun c => c.id != id)
        rw [List.filter_cons, if_pos (by simp [hc])]
        exact congrArg (List.cons c) ih'

/-- C7, amended.  `deleteConversation(id)` removes the conversation with
that id; if it was the current one, the current conversation becomes the
*first remaining conversation in the store's insertion-ordered list* (not
the most-recently-updated one), or none if no conversations remain; a
non-current deletion leaves the current conversation unchanged. -/
theorem c7_amended_delete_picks_first (s : StoreState) (id : Nat)
    (hnd : (s.conversations.map (fun c => c.id)).Nodup) :
    (deleteConversation s id).conversations =
      s.conversations.filter (fun c => c.id != id) ∧
    (s.currentConversationId = some id →
      s.conversations.any (fun c => c.id == id) = true →
      (deleteConversation s id).currentConversationId =
        ((s.conversations.filter (fun c => c.id != id)).head?.map (fun c => c.id))) ∧
    (¬ s.currentConversationId = some id →
      (deleteConversation s id).currentConversationId = s.currentConversationId) := by
  have hkey := findIdx_erase_eq_filter s.conversations id hnd
  cases hfind : s.conversations.findIdx? (fun c => c.id == id) with
  | none =>
    rw [hfind] at hkey
    have hkey' : s.conversations = s.conversations.filter (fun c => c.id != id) := hkey
    have hnone : deleteConversation s id = s := by
      simp [deleteConversation, hfind]
    refine ⟨by rw [hnone]; exact hkey', ?_, ?_⟩
    · intro _ hany
      exfalso
      rcases List.any_eq_true.1 hany with ⟨c, hc, hcid⟩
      have hc' : c ∈ s.conversations.filter (fun c => c.id != id) := by
        rw [← hkey']; exact hc
      have hne := List.of_mem_filter hc'
      rw [bne_iff_ne] at hne
      exact hne (by simpa using hcid)
    · intro _; rw [hnone]
  | some i =>
    rw [hfind] at hkey
    have hkey' : s.conversations.eraseIdx i =
        s.conversations.filter (fun c => c.id != id) := hkey
    have hconvs : (deleteConversation s id).conversations =
        s.conversations.eraseIdx i := by
      simp [deleteConversation, hfind]
    refine ⟨by rw [hconvs]; exact hkey', ?_, ?_⟩
    · intro hcur _
      have hred : (deleteConversation s id).currentConversationId =
          (match s.conversations.eraseIdx i with
           | [] => none
           | c :: _ => some c.id) := by
        simp only [deleteConversation, hfind]
        rw [if_pos hcur]
      rw [hred, hkey']
      cases hl : s.conversations.filter (fun c => c.id != id) with
      | nil => rfl
      | cons c rest => rfl
    · intro hcur
      have hred : (deleteConversation s id).currentConversationId =
          s.currentConversationId := by
        simp only [deleteConversation, hfind]
        rw [if_neg hcur]
      exact hred

theorem c7_amended_delete_picks_first_witness :
    ((deleteConversation c7Step3 2).conversations =
      c7Step3.conversations.filter (fun c => c.id != 2)) ∧
    ((deleteConversation c7Step3 2).currentConversationId =
      ((c7Step3.conversations.filter (fun c => c.id != 2)).head?.map (fun c => c.id))) :=
  ⟨(c7_amended_delete_picks_first c7Step3 2 (by decide)).1,
    (c7_amended_delete_picks_first c7Step3 2 (by decide)).2.1 (by decide) (by decide)⟩

/-! ## Claim C2: one in-flight request per conversation, newest wins -/

def c2TracePrefix : List Event :=
  [Event.send "a", Event.send "b", Event.finish 1 ReqOutcome.resolvedAbort,
   Event.send "c"]

def c2Trace : List Event :=
  c2TracePrefix ++
    [Event.finish 9 (ReqOutcome.resolved true "reply-c" ""),
     Event.finish 5 (ReqOutcome.resolved true "reply-b" "")]

/-- C2, failing run.  Three `sendMessage` calls on one conversation:
the second aborts the first, but when the first's aborted promise settles,
its `finally` clause deletes the conversation's request-queue entry — which
by then holds the *second* request's controller.  The third send therefore
finds no queued controller and does not abort the still-active second
request: after it, two requests (ids 5 and 9) are simultaneously in flight
for the conversation, with both controllers (6 and 10) un-aborted; both
then resolve and both assistant replies are appended, the superseded
request's reply (`reply-b`) landing *after* the newer one (`reply-c`).
This contradicts "at most one request per conversation is ever active" and
"only the newest request's assistant message is ever appended". -/
theorem c2_queue_deletion_races :
    validFrom initWorld c2Trace = true ∧
    ((runWorld initWorld c2TracePrefix).pendings.map (fun p => p.reqId)) = [5, 9] ∧
    alistGet (runWorld initWorld c2TracePrefix).controllers 6 = some false ∧
    alistGet (runWorld initWorld c2TracePrefix).controllers 10 = some false ∧
    ((runWorld initWorld c2Trace).store.conversations.map
      (fun c => c.messages.map (fun m => m.content))) =
      [["a", "b", "c", "reply-c", "reply-b"]] := by
  decide

/-! ## Claim C4: timeout handling vs. cancellation -/

def c4Trace : List Event := [Event.send "hi", Event.finish 1 ReqOutcome.timedOut]

/-- C4, counterexample.  A send whose request times out (the 2-minute
client-side timeout fires) leaves the store-level error slot *unset*: the
timeout rejection carries the connection-aborted code and is swallowed by
the same branch that swallows cancellations, contradicting the claim that a
timeout is surfaced as an error distinguished from pure cancellation. -/
theorem c4_counterexample :
    validFrom initWorld c4Trace = true ∧
    (runWorld initWorld c4Trace).store.error = none ∧
    ((runWorld initWorld c4Trace).store.conversations.map
      (fun c => c.messages.map (fun m => m.content))) = [["hi"]] := by
  decide

theorem pendings_timeout_aux (t : List Event) :
    ∀ (w : World), (∀ p ∈ w.pendings, p.timeoutMs = 120000) →
      ∀ p ∈ (runWorld w t).pendings, p.timeoutMs = 120000 := by
  induction t with
  | nil => intro w hw; exact hw
  | cons e t ih =>
    intro w hw
    refine ih (stepWorld w e) ?_
    intro p hp
    cases e with
    | send content =>
      simp only [stepWorld, startSend] at hp
      cases h1 : (if w.store.currentConversationId = none
            then (createNewConversation w.store none false).2 else w.store).currentConversationId.bind
          (fun cid => (if w.store.currentConversationId = none
            then (createNewConversation w.store none false).2 else w.store).conversations.find?
              (fun c => c.id == cid)) with
      | none => simp only [h1] at hp; exact hw p hp
      | some conv =>
        simp only [h1, startSendWith, List.mem_append, List.mem_singleton] at hp
        rcases hp with hp | hp
        · exact hw p hp
        · subst hp; rfl
    | finish r o =>
      simp only [stepWorld, finishSend] at hp
      cases h1 : w.pendings.find? (fun p => p.reqId == r) with
      | none => simp only [h1] at hp; exact hw p hp
      | some q =>
        simp only [h1] at hp
        cases h2 : w.store.conversations.find? (fun c => c.id == q.convId) with
        | none =>
          simp only [h2] at hp
          exact hw p (List.mem_of_mem_eraseP hp)
        | some conv =>
          simp only [h2] at hp
          exact hw p (List.mem_of_mem_eraseP hp)
    | cancelAll =>
      exact hw p hp

/-- C4, amended.  Every chat request is issued with the fixed client-side
timeout of 120000 ms (2 minutes), but when that timeout fires the outcome
is *not* surfaced as an error: the timeout rejection receives exactly the
same silent handling as a pure cancellation (the placeholder is removed, no
store-level error is set) — the two are not distinguished. -/
theorem c4_amended_timeout_is_silent :
    (∀ (t : List Event), ∀ p ∈ (runWorld initWorld t).pendings, p.timeoutMs = 120000) ∧
    (∀ (w : World) (r : Nat),
      finishSend w r ReqOutcome.timedOut = finishSend w r ReqOutcome.resolvedAbort) ∧
    (∀ (w : World) (r : Nat),
      (finishSend w r ReqOutcome.timedOut).store.error = w.store.error) := by
  refine ⟨?_, ?_, ?_⟩
  · intro t p hp
    exact pendings_timeout_aux t initWorld (by intro q hq; simp [initWorld] at hq) p hp
  · intro w r
    unfold finishSend
    cases h1 : w.pendings.find? (fun p => p.reqId == r) with
    | none => rfl
    | some p =>
      cases h2 : w.store.conversations.find? (fun c => c.id == p.convId) with
      | none => simp only [h2]
      | some conv => simp only [h2]; rfl
  · intro w r
    unfold finishSend
    cases h1 : w.pendings.find? (fun p => p.reqId == r) with
    | none => rfl
    | some p =>
      cases h2 : w.store.conversations.find? (fun c => c.id == p.convId) with
      | none => simp only [h2]
      | some conv => simp only [h2]; rfl

/-! ## Reachable-world invariants (groundwork for C10 and C1) -/

theorem runWorld_append (w : World) (t1 t2 : List Event) :
    runWorld w (t1 ++ t2) = runWorld (runWorld w t1) t2 := by
  induction t1 generalizing w with
  | nil => rfl
  | cons e t ih => simp only [List.cons_append, runWorld]; exact ih (stepWorld w e)

/-- Identifier discipline of every reachable world: ids are drawn from the
monotone clock, the current conversation exists, and a pending placeholder
id can only name the placeholder assistant message itself. -/
structure WFa (w : World) : Prop where
  convNodup : (w.store.conversations.map (fun c => c.id)).Nodup
  convLt : ∀ c ∈ w.store.conversations, c.id < w.store.nextId
  msgLt : ∀ c ∈ w.store.conversations, ∀ m ∈ c.messages, m.mid < w.store.nextId
  msgNodup : ∀ c ∈ w.store.conversations, (c.messages.map (fun m => m.mid)).Nodup
  currentOk : ∀ cid, w.store.currentConversationId = some cid →
    ∃ c, c ∈ w.store.conversations ∧ c.id = cid
  pendPhLt : ∀ p ∈ w.pendings, p.placeholderId < w.store.nextId
  pendReqLt : ∀ p ∈ w.pendings, p.reqId < w.store.nextId
  pendReqNodup : (w.pendings.map (fun p => p.reqId)).Nodup
  pendPhNodup : (w.pendings.map (fun p => p.placeholderId)).Nodup
  pendPh : ∀ p ∈ w.pendings, ∀ c ∈ w.store.conversations, ∀ m ∈ c.messages,
    m.mid = p.placeholderId → m.role = Role.assistant ∧ m.content = "..."

theorem wfa_initWorld : WFa initWorld := by
  constructor <;> simp [initWorld, initialStore]

theorem updateConv_map_id (l : List ChatConversation) (c : ChatConversation) :
    (updateConv l c).map (fun d => d.id) = l.map (fun d => d.id) := by
  unfold updateConv
  rw [List.map_map]
  refine List.map_congr_left ?_
  intro d _
  show (if d.id == c.id then c else d).id = d.id
  split
  · next h => exact (beq_iff_eq.1 h).symm
  · rfl

theorem mem_updateConv {l : List ChatConversation} {c e : ChatConversation}
    (he : e ∈ updateConv l c) : e = c ∨ e ∈ l := by
  unfold updateConv at he
  rcases List.mem_map.1 he with ⟨d, hd, hde⟩
  by_cases h : (d.id == c.id) = true
  · rw [if_pos h] at hde; exact Or.inl hde.symm
  · rw [if_neg h] at hde; exact Or.inr (hde ▸ hd)

theorem updateConv_mem_self {l : List ChatConversation} {c : ChatConversation}
    (d : ChatConversation) (hd : d ∈ l) (hid : d.id = c.id) : c ∈ updateConv l c := by
  unfold updateConv
  refine List.mem_map.2 ⟨d, hd, ?_⟩
  rw [if_pos (by simp [hid])]

theorem updateConv_mem_other {l : List ChatConversation} {c d : ChatConversation}
    (hd : d ∈ l) (hne : ¬ d.id = c.id) : d ∈ updateConv l c := by
  unfold updateConv
  refine List.mem_map.2 ⟨d, hd, ?_⟩
  rw [if_neg (by simp [hne])]

theorem sendConv3_id (s1 : StoreState) (c : ChatConversation) (content : String) :
    (sendConv3 s1 c content).id = c.id := by
  unfold sendConv3
  dsimp only
  split <;> rfl

theorem sendConv3_messages (s1 : StoreState) (c : ChatConversation) (content : String) :
    (sendConv3 s1 c content).messages =
      c.messages ++ [sendUserMessage s1 content, sendPlaceholder s1] := by
  unfold sendConv3
  dsimp only
  split <;> simp

theorem find?_append_of_none {α : Type} {p : α → Bool} (l1 l2 : List α)
    (h : ∀ x ∈ l1, p x = false) : (l1 ++ l2).find? p = l2.find? p := by
  induction l1 with
  | nil => rfl
  | cons a t ih =>
    have ha := h a (List.mem_cons_self a t)
    simp only [List.cons_append, List.find?_cons, ha]
    exact ih (fun x hx => h x (List.mem_cons_of_mem a hx))

theorem exists_find?_of_mem {α : Type} {p : α → Bool} {l : List α} (x : α)
    (hx : x ∈ l) (hpx : p x = true) :
    ∃ y, l.find? p = some y ∧ p y = true ∧ y ∈ l := by
  induction l with
  | nil => cases hx
  | cons a t ih =>
    by_cases ha : p a = true
    · exact ⟨a, by simp [List.find?_cons, ha], ha, List.mem_cons_self a t⟩
    · rcases List.mem_cons.1 hx with rfl | hxt
      · exact absurd hpx ha
      · rcases ih hxt with ⟨y, hy1, hy2, hy3⟩
        refine ⟨y, ?_, hy2, List.mem_cons_of_mem a hy3⟩
        simp only [List.find?_cons, eq_false_of_ne_true ha]
        exact hy1

theorem nodup_id_mem_unique {l : List ChatConversation} {a b : ChatConversation}
    (hnd : (l.map (fun c => c.id)).Nodup) (ha : a ∈ l) (hb : b ∈ l)
    (hid : a.id = b.id) : a = b :=
  List.inj_on_of_nodup_map hnd ha hb hid

/-- `WFa` depends only on the conversation list, the current-conversation
pointer, the clock and the pendings; any step that keeps the first two,
does not decrease the clock and only drops pendings preserves it. -/
theorem wfa_of_fields (w w' : World)
    (hconvs : w'.store.conversations = w.store.conversations)
    (hcur : w'.store.currentConversationId = w.store.currentConversationId)
    (hnext : w.store.nextId ≤ w'.store.nextId)
    (hpend : w'.pendings.Sublist w.pendings)
    (h : WFa w) : WFa w' := by
  constructor
  · rw [hconvs]; exact h.convNodup
  · intro c hc
    rw [hconvs] at hc
    exact Nat.lt_of_lt_of_le (h.convLt c hc) hnext
  · intro c hc m hm
    rw [hconvs] at hc
    exact Nat.lt_of_lt_of_le (h.msgLt c hc m hm) hnext
  · intro c hc
    rw [hconvs] at hc
    exact h.msgNodup c hc
  · intro cid hcid
    rw [hcur] at hcid
    rw [hconvs]
    exact h.currentOk cid hcid
  · intro p hp
    exact Nat.lt_of_lt_of_le (h.pendPhLt p (hpend.subset hp)) hnext
  · intro p hp
    exact Nat.lt_of_lt_of_le (h.pendReqLt p (hpend.subset hp)) hnext
  · exact h.pendReqNodup.sublist (hpend.map (fun p => p.reqId))
  · exact h.pendPhNodup.sublist (hpend.map (fun p => p.placeholderId))
  · intro p hp c hc m hm hmid
    rw [hconvs] at hc
    exact h.pendPh p (hpend.subset hp) c hc m hm hmid

theorem wfa_appendConv (w : World) (h : WFa w) (convs' : List ChatConversation)
    (hsub : convs'.Sublist w.store.conversations) (newc : ChatConversation)
    (hnewid : newc.id = w.store.nextId) (hnewmsgs : newc.messages = []) :
    WFa { store := { w.store with
            conversations := convs' ++ [newc]
            currentConversationId := some w.store.nextId
            nextId := w.store.nextId + 1 }
          controllers := w.controllers, pendings := w.pendings } := by
  constructor
  · show ((convs' ++ [newc]).map (fun c => c.id)).Nodup
    rw [List.map_append]
    rw [List.nodup_append]
    refine ⟨(h.convNodup).sublist (hsub.map (fun c => c.id)), by simp, ?_⟩
    intro a ha hb
    rcases List.mem_map.1 ha with ⟨c, hc, rfl⟩
    have hlt := h.convLt c (hsub.subset hc)
    simp only [List.map_cons, List.map_nil, List.mem_singleton, hnewid] at hb
    omega
  · intro c hc
    show c.id < w.store.nextId + 1
    rcases List.mem_append.1 hc with hc' | hc'
    · exact Nat.lt_succ_of_lt (h.convLt c (hsub.subset hc'))
    · rw [List.mem_singleton] at hc'
      subst hc'
      rw [hnewid]
      exact Nat.lt_succ_self _
  · intro c hc m hm
    show m.mid < w.store.nextId + 1
    rcases List.mem_append.1 hc with hc' | hc'
    · exact Nat.lt_succ_of_lt (h.msgLt c (hsub.subset hc') m hm)
    · rw [List.mem_singleton] at hc'
      subst hc'
      rw [hnewmsgs] at hm
      cases hm
  · intro c hc
    rcases List.mem_append.1 hc with hc' | hc'
    · exact h.msgNodup c (hsub.subset hc')
    · rw [List.mem_singleton] at hc'
      subst hc'
      rw [hnewmsgs]
      exact List.nodup_nil
  · intro cid hcid
    have hc : cid = w.store.nextId := by
      have h2 : some w.store.nextId = some cid := hcid
      exact (Option.some.inj h2).symm
    subst hc
    exact ⟨newc, List.mem_append_right _ (List.mem_singleton.2 rfl), hnewid⟩
  · intro p hp
    exact Nat.lt_succ_of_lt (h.pendPhLt p hp)
  · intro p hp
    exact Nat.lt_succ_of_lt (h.pendReqLt p hp)
  · exact h.pendReqNodup
  · exact h.pendPhNodup
  · intro p hp c hc m hm hmid
    rcases List.mem_append.1 hc with hc' | hc'
    · exact h.pendPh p hp c (hsub.subset hc') m hm hmid
    · rw [List.mem_singleton] at hc'
      subst hc'
      rw [hnewmsgs] at hm
      cases hm

theorem wfa_createNew (w : World) (title : Option String) (temp : Bool) (h : WFa w) :
    WFa { store := (createNewConversation w.store title temp).2,
          controllers := w.controllers, pendings := w.pendings } := by
  have hsub : (if temp then
      w.store.conversations.filter (fun conv =>
        decide (conv.isTemporary = false ∨ 0 < conv.messages.length ∨
          some conv.id = w.store.currentConversationId))
      else w.store.conversations).Sublist w.store.conversations := by
    split
    · exact List.filter_sublist _
    · exact List.Sublist.refl _
  exact wfa_appendConv w h _ hsub _ rfl rfl

theorem wfa_startSendWith (w : World) (s1 : StoreState) (conversation : ChatConversation)
    (content : String)
    (h : WFa { store := s1, controllers := w.controllers, pendings := w.pendings })
    (hconv : conversation ∈ s1.conversations) :
    WFa (startSendWith w s1 conversation content) := by
  have hmsgs := sendConv3_messages s1 conversation content
  have hid := sendConv3_id s1 conversation content
  have hconvLt : ∀ c ∈ s1.conversations, c.id < s1.nextId := h.convLt
  have hmsgLt : ∀ c ∈ s1.conversations, ∀ m ∈ c.messages, m.mid < s1.nextId := h.msgLt
  have hmsgNodup : ∀ c ∈ s1.conversations,
      (c.messages.map (fun m => m.mid)).Nodup := h.msgNodup
  have hcurrentOk : ∀ cid, s1.currentConversationId = some cid →
      ∃ c, c ∈ s1.conversations ∧ c.id = cid := h.currentOk
  have hpendPhLt : ∀ p ∈ w.pendings, p.placeholderId < s1.nextId := h.pendPhLt
  have hpendReqLt : ∀ p ∈ w.pendings, p.reqId < s1.nextId := h.pendReqLt
  have hpendPh : ∀ p ∈ w.pendings, ∀ c ∈ s1.conversations, ∀ m ∈ c.messages,
      m.mid = p.placeholderId → m.role = Role.assistant ∧ m.content = "..." := h.pendPh
  constructor
  · show ((updateConv s1.conversations (sendConv3 s1 conversation content)).map
      (fun c => c.id)).Nodup
    rw [updateConv_map_id]
    exact h.convNodup
  · intro c hc
    show c.id < s1.nextId + 4
    have hc' : c ∈ updateConv s1.conversations (sendConv3 s1 conversation content) := hc
    rcases mem_updateConv hc' with rfl | hcm
    · rw [hid]
      have := hconvLt conversation hconv
      omega
    · have := hconvLt c hcm
      omega
  · intro c hc m hm
    show m.mid < s1.nextId + 4
    have hc' : c ∈ updateConv s1.conversations (sendConv3 s1 conversation content) := hc
    rcases mem_updateConv hc' with rfl | hcm
    · rw [hmsgs] at hm
      rcases List.mem_append.1 hm with hm' | hm'
      · have := hmsgLt conversation hconv m hm'
        omega
      · rcases List.mem_cons.1 hm' with rfl | hm''
        · show s1.nextId + 2 < s1.nextId + 4
          omega
        · rw [List.mem_singleton] at hm''
          subst hm''
          show s1.nextId + 3 < s1.nextId + 4
          omega
    · have := hmsgLt c hcm m hm
      omega
  · intro c hc
    have hc' : c ∈ updateConv s1.conversations (sendConv3 s1 conversation content) := hc
    rcases mem_updateConv hc' with rfl | hcm
    · rw [hmsgs, List.map_append, List.nodup_append]
      refine ⟨hmsgNodup conversation hconv, by simp [sendUserMessage, sendPlaceholder], ?_⟩
      intro a ha hb
      rcases List.mem_map.1 ha with ⟨m, hm, rfl⟩
      rcases List.mem_map.1 hb with ⟨m2, hm2, heq⟩
      have hlt := hmsgLt conversation hconv m hm
      rcases List.mem_cons.1 hm2 with rfl | hm2'
      · simp only [sendUserMessage] at heq
        omega
      · rw [List.mem_singleton] at hm2'
        subst hm2'
        simp only [sendPlaceholder] at heq
        omega
    · exact hmsgNodup c hcm
  · intro cid hcid
    have hcid' : s1.currentConversationId = some cid := hcid
    rcases hcurrentOk cid hcid' with ⟨c0, hc0, hc0id⟩
    by_cases hsame : c0.id = (sendConv3 s1 conversation content).id
    · refine ⟨sendConv3 s1 conversation content, updateConv_mem_self c0 hc0 hsame, ?_⟩
      rw [← hsame, hc0id]
    · exact ⟨c0, updateConv_mem_other hc0 hsame, hc0id⟩
  · intro p hp
    show p.placeholderId < s1.nextId + 4
    have hp' : p ∈ w.pendings ++ [sendPending s1 conversation] := hp
    rcases List.mem_append.1 hp' with hpm | hpm
    · have := hpendPhLt p hpm
      omega
    · rw [List.mem_singleton] at hpm
      subst hpm
      show s1.nextId + 3 < s1.nextId + 4
      omega
  · intro p hp
    show p.reqId < s1.nextId + 4
    have hp' : p ∈ w.pendings ++ [sendPending s1 conversation] := hp
    rcases List.mem_append.1 hp' with hpm | hpm
    · have := hpendReqLt p hpm
      omega
    · rw [List.mem_singleton] at hpm
      subst hpm
      show s1.nextId < s1.nextId + 4
      omega
  · show ((w.pendings ++ [sendPending s1 conversation]).map (fun p => p.reqId)).Nodup
    rw [List.map_append, List.nodup_append]
    refine ⟨h.pendReqNodup, by simp, ?_⟩
    intro a ha hb
    rcases List.mem_map.1 ha with ⟨p, hp, rfl⟩
    rcases List.mem_map.1 hb with ⟨p2, hp2, heq⟩
    have hlt := hpendReqLt p hp
    rw [List.mem_singleton] at hp2
    subst hp2
    simp only [sendPending] at heq
    omega
  · show ((w.pendings ++ [sendPending s1 conversation]).map (fun p => p.placeholderId)).Nodup
    rw [List.map_append, List.nodup_append]
    refine ⟨h.pendPhNodup, by simp, ?_⟩
    intro a ha hb
    rcases List.mem_map.1 ha with ⟨p, hp, rfl⟩
    rcases List.mem_map.1 hb with ⟨p2, hp2, heq⟩
    have hlt := hpendPhLt p hp
    rw [List.mem_singleton] at hp2
    subst hp2
    simp only [sendPending] at heq
    omega
  · intro p hp c hc m hm hmid
    have hp' : p ∈ w.pendings ++ [sendPending s1 conversation] := hp
    have hc' : c ∈ updateConv s1.conversations (sendConv3 s1 conversation content) := hc
    rcases List.mem_append.1 hp' with hpm | hpm
    · have hplt := hpendPhLt p hpm
      rcases mem_updateConv hc' with rfl | hcm
      · rw [hmsgs] at hm
        rcases List.mem_append.1 hm with hm' | hm'
        · exact hpendPh p hpm conversation hconv m hm' hmid
        · rcases List.mem_cons.1 hm' with rfl | hm''
          · exfalso
            simp only [sendUserMessage] at hmid
            omega
          · rw [List.mem_singleton] at hm''
            subst hm''
            exfalso
            simp only [sendPlaceholder] at hmid
            omega
      · exact hpendPh p hpm c hcm m hm hmid
    · rw [List.mem_singleton] at hpm
      subst hpm
      simp only [sendPending] at hmid
      rcases mem_updateConv hc' with rfl | hcm
      · rw [hmsgs] at hm
        rcases List.mem_append.1 hm with hm' | hm'
        · exfalso
          have := hmsgLt conversation hconv m hm'
          omega
        · rcases List.mem_cons.1 hm' with rfl | hm''
          · exfalso
            simp only [sendUserMessage] at hmid
            omega
          · rw [List.mem_singleton] at hm''
            subst hm''
            exact ⟨rfl, rfl⟩
      · exfalso
        have := hmsgLt c hcm m hm
        omega

/-- The conversation object built by `createNewConversation` (same literal,
named for proofs). -/
def freshConversation (s : StoreState) (title : String) (temp : Bool) : ChatConversation :=
  { id := s.nextId
    title := title
    messages := []
    modelId := s.selectedModelId
    createdAt := s.nextId
    updatedAt := s.nextId
    selectedWorkspaces := []
    selectedDocuments := []
    chatMode := none
    chatModeLocked := false
    selectedDomains := s.selectedDomains
    isTemporary := temp }

/-- From a well-formed world, `startSend` always reaches the main path:
either the current conversation exists, or a fresh one is created and then
found.  The lemma names the intermediate store and found conversation. -/
theorem startSend_eq (w : World) (content : String) (h : WFa w) :
    ∃ (s1 : StoreState) (conversation : ChatConversation),
      startSend w content = startSendWith w s1 conversation content ∧
      WFa { store := s1, controllers := w.controllers, pendings := w.pendings } ∧
      conversation ∈ s1.conversations ∧
      (∀ c ∈ w.store.conversations, c ∈ s1.conversations) ∧
      (∀ c ∈ s1.conversations, c ∈ w.store.conversations ∨
        (c.messages = [] ∧ w.store.nextId ≤ c.id)) ∧
      w.store.nextId ≤ s1.nextId ∧
      s1.requestQueue = w.store.requestQueue ∧
      s1.activeRequests = w.store.activeRequests := by
  cases hcur : w.store.currentConversationId with
  | none =>
    refine ⟨(createNewConversation w.store none false).2,
      freshConversation w.store "New Chat" false, ?_, ?_, ?_, ?_, ?_, ?_, ?_, ?_⟩
    · have hfind : ((createNewConversation w.store none false).2.conversations).find?
          (fun c => c.id == w.store.nextId) =
            some (freshConversation w.store "New Chat" false) := by
        show (w.store.conversations ++ [freshConversation w.store "New Chat" false]).find?
          (fun c => c.id == w.store.nextId) = some (freshConversation w.store "New Chat" false)
        rw [find?_append_of_none]
        · exact List.find?_cons_of_pos _ (by simp [freshConversation])
        · intro c hc
          have := h.convLt c hc
          exact beq_eq_false_iff_ne.2 (by omega)
      have hbind : ((createNewConversation w.store none false).2.currentConversationId.bind
          (fun cid => (createNewConversation w.store none false).2.conversations.find?
            (fun c => c.id == cid))) =
          some (freshConversation w.store "New Chat" false) := hfind
      have hs1 : (if w.store.currentConversationId = none
          then (createNewConversation w.store none false).2 else w.store) =
          (createNewConversation w.store none false).2 := if_pos hcur
      unfold startSend
      dsimp only
      rw [hs1, hbind]
    · exact wfa_createNew w none false h
    · exact List.mem_append_right _ (List.mem_singleton.2 rfl)
    · intro c hc
      exact List.mem_append_left _ hc
    · intro c hc
      rcases List.mem_append.1 hc with hc' | hc'
      · exact Or.inl hc'
      · rw [List.mem_singleton] at hc'
        subst hc'
        exact Or.inr ⟨rfl, Nat.le_refl _⟩
    · exact Nat.le_succ _
    · rfl
    · rfl
  | some cid =>
    rcases h.currentOk cid hcur with ⟨c0, hc0, hc0id⟩
    rcases exists_find?_of_mem c0 hc0 (p := fun c => c.id == cid) (by simp [hc0id])
      with ⟨conversation, hfind, hpred, hmem⟩
    refine ⟨w.store, conversation, ?_, h, hmem, fun c hc => hc,
      fun c hc => Or.inl hc, Nat.le_refl _, rfl, rfl⟩
    have hbind : (w.store.currentConversationId.bind
        (fun cid => w.store.conversations.find? (fun c => c.id == cid))) =
        some conversation := by
      rw [hcur]
      exact hfind
    have hs1 : (if w.store.currentConversationId = none
        then (createNewConversation w.store none false).2 else w.store) = w.store :=
      if_neg (by rw [hcur]; simp)
    unfold startSend
    dsimp only
    rw [hs1, hbind]

theorem wfa_startSend (w : World) (content : String) (h : WFa w) :
    WFa (startSend w content) := by
  rcases startSend_eq w content h with ⟨s1, conv, heq, hwf, hconv, _, _, _, _, _⟩
  rw [heq]
  exact wfa_startSendWith w s1 conv content hwf hconv

/-- Completion steps replace the conversation object by one whose messages
are the old ones with the placeholder erased, possibly extended by a fresh
assistant reply; this preserves `WFa`. -/
theorem wfa_finish_update (w : World) (p : PendingSend)
    (conversation conv' : ChatConversation) (h : WFa w) (hp : p ∈ w.pendings)
    (hconv : conversation ∈ w.store.conversations)
    (hcid : conv'.id = conversation.id)
    (tail : List ChatMessage)
    (hmsgs : conv'.messages =
      removeMsgById conversation.messages p.placeholderId ++ tail)
    (n' : Nat) (hn : w.store.nextId ≤ n')
    (htail : ∀ m ∈ tail, w.store.nextId ≤ m.mid ∧ m.mid < n')
    (htailnd : (tail.map (fun m => m.mid)).Nodup)
    (w' : World)
    (hwconvs : w'.store.conversations = updateConv w.store.conversations conv')
    (hwcur : w'.store.currentConversationId = w.store.currentConversationId)
    (hwnext : w'.store.nextId = n')
    (hwpend : w'.pendings = w.pendings.eraseP (fun q => q.reqId == p.reqId)) :
    WFa w' := by
  have herasesub : (removeMsgById conversation.messages p.placeholderId).Sublist
      conversation.messages := List.eraseP_sublist _
  have hpendsub : (w.pendings.eraseP (fun q => q.reqId == p.reqId)).Sublist w.pendings :=
    List.eraseP_sublist _
  constructor
  · rw [hwconvs, updateConv_map_id]
    exact h.convNodup
  · intro c hc
    rw [hwconvs] at hc
    rw [hwnext]
    rcases mem_updateConv hc with rfl | hcm
    · rw [hcid]
      exact Nat.lt_of_lt_of_le (h.convLt conversation hconv) hn
    · exact Nat.lt_of_lt_of_le (h.convLt c hcm) hn
  · intro c hc m hm
    rw [hwconvs] at hc
    rw [hwnext]
    rcases mem_updateConv hc with rfl | hcm
    · rw [hmsgs] at hm
      rcases List.mem_append.1 hm with hm' | hm'
      · exact Nat.lt_of_lt_of_le
          (h.msgLt conversation hconv m (herasesub.subset hm')) hn
      · exact (htail m hm').2
    · exact Nat.lt_of_lt_of_le (h.msgLt c hcm m hm) hn
  · intro c hc
    rw [hwconvs] at hc
    rcases mem_updateConv hc with rfl | hcm
    · rw [hmsgs, List.map_append, List.nodup_append]
      refine ⟨(h.msgNodup conversation hconv).sublist
        (herasesub.map (fun m => m.mid)), htailnd, ?_⟩
      intro a ha hb
      rcases List.mem_map.1 ha with ⟨m, hm, rfl⟩
      rcases List.mem_map.1 hb with ⟨m2, hm2, heq⟩
      have h1 := h.msgLt conversation hconv m (herasesub.subset hm)
      have h2 := (htail m2 hm2).1
      omega
    · exact h.msgNodup c hcm
  · intro cid hcid'
    rw [hwcur] at hcid'
    rcases h.currentOk cid hcid' with ⟨c0, hc0, hc0id⟩
    rw [hwconvs]
    by_cases hsame : c0.id = conv'.id
    · refine ⟨conv', updateConv_mem_self c0 hc0 hsame, ?_⟩
      rw [← hsame, hc0id]
    · exact ⟨c0, updateConv_mem_other hc0 hsame, hc0id⟩
  · intro q hq
    rw [hwpend] at hq
    rw [hwnext]
    exact Nat.lt_of_lt_of_le (h.pendPhLt q (hpendsub.subset hq)) hn
  · intro q hq
    rw [hwpend] at hq
    rw [hwnext]
    exact Nat.lt_of_lt_of_le (h.pendReqLt q (hpendsub.subset hq)) hn
  · rw [hwpend]
    exact h.pendReqNodup.sublist (hpendsub.map (fun q => q.reqId))
  · rw [hwpend]
    exact h.pendPhNodup.sublist (hpendsub.map (fun q => q.placeholderId))
  · intro q hq c hc m hm hmid
    rw [hwpend] at hq
    rw [hwconvs] at hc
    have hq' := hpendsub.subset hq
    rcases mem_updateConv hc with rfl | hcm
    · rw [hmsgs] at hm
      rcases List.mem_append.1 hm with hm' | hm'
      · exact h.pendPh q hq' conversation hconv m (herasesub.subset hm') hmid
      · exfalso
        have h1 := (htail m hm').1
        have h2 := h.pendPhLt q hq'
        omega
    · exact h.pendPh q hq' c hcm m hm hmid

theorem wfa_finishSendWith (w : World) (p : PendingSend)
    (conversation : ChatConversation) (o : ReqOutcome) (h : WFa w)
    (hp : p ∈ w.pendings) (hconv : conversation ∈ w.store.conversations) :
    WFa (finishSendWith w p conversation o) := by
  cases o with
  | resolved success content errMsg =>
    by_cases hact : (w.store.activeRequests.contains p.reqId) = false
    · have heq : finishSendWith w p conversation (ReqOutcome.resolved success content errMsg) =
          { store := { w.store with
              activeRequests := w.store.activeRequests.filter (fun r => r != p.reqId)
              requestQueue := alistDelete w.store.requestQueue p.convId
              isLoading := false }
            controllers := w.controllers
            pendings := w.pendings.eraseP (fun q => q.reqId == p.reqId) } := by
        unfold finishSendWith
        dsimp only
        rw [if_pos hact]
      rw [heq]
      exact wfa_of_fields w _ rfl rfl (Nat.le_refl _) (List.eraseP_sublist _) h
    · cases success with
      | true =>
        have heq : finishSendWith w p conversation (ReqOutcome.resolved true content errMsg) =
            { store := { w.store with
                conversations := updateConv w.store.conversations
                  { conversation with
                    messages := removeMsgById conversation.messages p.placeholderId ++
                      [{ mid := w.store.nextId, role := Role.assistant, content := content }]
                    updatedAt := w.store.nextId }
                nextId := w.store.nextId + 1
                activeRequests := w.store.activeRequests.filter (fun r => r != p.reqId)
                requestQueue := alistDelete w.store.requestQueue p.convId
                isLoading := false }
              controllers := w.controllers
              pendings := w.pendings.eraseP (fun q => q.reqId == p.reqId) } := by
          unfold finishSendWith
          dsimp only
          rw [if_neg hact, if_pos rfl]
        rw [heq]
        refine wfa_finish_update w p conversation
          { conversation with
            messages := removeMsgById conversation.messages p.placeholderId ++
              [{ mid := w.store.nextId, role := Role.assistant, content := content }]
            updatedAt := w.store.nextId }
          h hp hconv rfl
          [{ mid := w.store.nextId, role := Role.assistant, content := content }]
          rfl (w.store.nextId + 1) (Nat.le_succ _) ?_ (by simp) _ rfl rfl rfl rfl
        intro m hm
        rw [List.mem_singleton] at hm
        subst hm
        exact ⟨Nat.le_refl _, Nat.lt_succ_self _⟩
      | false =>
        have heq : finishSendWith w p conversation (ReqOutcome.resolved false content errMsg) =
            { store := { w.store with
                conversations := updateConv w.store.conversations
                  { conversation with
                    messages := removeMsgById conversation.messages p.placeholderId }
                error := some errMsg
                activeRequests := w.store.activeRequests.filter (fun r => r != p.reqId)
                requestQueue := alistDelete w.store.requestQueue p.convId
                isLoading := false }
              controllers := w.controllers
              pendings := w.pendings.eraseP (fun q => q.reqId == p.reqId) } := by
          unfold finishSendWith
          dsimp only
          rw [if_neg hact, if_neg (by simp)]
        rw [heq]
        refine wfa_finish_update w p conversation
          { conversation with
            messages := removeMsgById conversation.messages p.placeholderId }
          h hp hconv rfl [] (by simp) w.store.nextId (Nat.le_refl _)
          (by simp) (by simp) _ rfl rfl rfl rfl
  | resolvedAbort =>
    refine wfa_finish_update w p conversation
      { conversation with
        messages := removeMsgById conversation.messages p.placeholderId }
      h hp hconv rfl [] (by simp) w.store.nextId (Nat.le_refl _)
      (by simp) (by simp) _ rfl rfl rfl rfl
  | timedOut =>
    refine wfa_finish_update w p conversation
      { conversation with
        messages := removeMsgById conversation.messages p.placeholderId }
      h hp hconv rfl [] (by simp) w.store.nextId (Nat.le_refl _)
      (by simp) (by simp) _ rfl rfl rfl rfl
  | failed msg =>
    refine wfa_finish_update w p conversation
      { conversation with
        messages := removeMsgById conversation.messages p.placeholderId }
      h hp hconv rfl [] (by simp) w.store.nextId (Nat.le_refl _)
      (by simp) (by simp) _ rfl rfl rfl rfl

theorem wfa_finishSend (w : World) (r : Nat) (o : ReqOutcome) (h : WFa w) :
    WFa (finishSend w r o) := by
  unfold finishSend
  cases h1 : w.pendings.find? (fun p => p.reqId == r) with
  | none => simp only [h1]; exact h
  | some p =>
    simp only [h1]
    have hp := List.mem_of_find?_eq_some h1
    cases h2 : w.store.conversations.find? (fun c => c.id == p.convId) with
    | none =>
      simp only [h2]
      refine wfa_of_fields w _ rfl rfl (Nat.le_refl _) ?_ h
      exact List.eraseP_sublist _
    | some conversation =>
      simp only [h2]
      have hconv := List.mem_of_find?_eq_some h2
      exact wfa_finishSendWith w p conversation o h hp hconv

theorem wfa_cancel (w : World) (h : WFa w) : WFa (cancelActiveRequests w) :=
  wfa_of_fields w _ rfl rfl (Nat.le_refl _) (List.Sublist.refl _) h

theorem wfa_step (w : World) (e : Event) (h : WFa w) : WFa (stepWorld w e) := by
  cases e with
  | send content => exact wfa_startSend w content h
  | finish r o => exact wfa_finishSend w r o h
  | cancelAll => exact wfa_cancel w h

theorem wfa_run (w : World) (t : List Event) (h : WFa w) : WFa (runWorld w t) := by
  induction t generalizing w with
  | nil => exact h
  | cons e t ih => exact ih (stepWorld w e) (wfa_step w e h)

/-- The conversation list after a completion step is either untouched (the
request was no longer in the active set) or has the conversation replaced
by one whose messages are the old ones with the placeholder removed,
possibly followed by the fresh assistant reply. -/
theorem finishSendWith_convs_cases (w : World) (p : PendingSend)
    (conversation : ChatConversation) (o : ReqOutcome) :
    (finishSendWith w p conversation o).store.conversations = w.store.conversations ∨
    ∃ conv' : ChatConversation, conv'.id = conversation.id ∧
      (∃ tail, conv'.messages =
        removeMsgById conversation.messages p.placeholderId ++ tail) ∧
      (finishSendWith w p conversation o).store.conversations =
        updateConv w.store.conversations conv' := by
  cases o with
  | resolved success content errMsg =>
    by_cases hact : (w.store.activeRequests.contains p.reqId) = false
    · left
      unfold finishSendWith
      dsimp only
      rw [if_pos hact]
    · cases success with
      | true =>
        right
        refine ⟨{ conversation with
            messages := removeMsgById conversation.messages p.placeholderId ++
              [{ mid := w.store.nextId, role := Role.assistant, content := content }]
            updatedAt := w.store.nextId }, rfl, ⟨_, rfl⟩, ?_⟩
        unfold finishSendWith
        dsimp only
        rw [if_neg hact, if_pos rfl]
      | false =>
        right
        refine ⟨{ conversation with
            messages := removeMsgById conversation.messages p.placeholderId },
          rfl, ⟨[], by simp⟩, ?_⟩
        unfold finishSendWith
        dsimp only
        rw [if_neg hact, if_neg (by simp)]
  | resolvedAbort =>
    exact Or.inr ⟨{ conversation with
      messages := removeMsgById conversation.messages p.placeholderId },
      rfl, ⟨[], by simp⟩, rfl⟩
  | timedOut =>
    exact Or.inr ⟨{ conversation with
      messages := removeMsgById conversation.messages p.placeholderId },
      rfl, ⟨[], by simp⟩, rfl⟩
  | failed msg =>
    exact Or.inr ⟨{ conversation with
      messages := removeMsgById conversation.messages p.placeholderId },
      rfl, ⟨[], by simp⟩, rfl⟩

/-- A user-role message survives a completion step: the only message ever
removed is the placeholder, which is an assistant message. -/
theorem user_msg_finishSendWith (w : World) (p : PendingSend)
    (conversation : ChatConversation) (o : ReqOutcome) (hw : WFa w)
    (hp : p ∈ w.pendings) (hconv : conversation ∈ w.store.conversations)
    (c : ChatConversation) (hc : c ∈ w.store.conversations)
    (m : ChatMessage) (hm : m ∈ c.messages) (hrole : m.role = Role.user) :
    ∃ c', c' ∈ (finishSendWith w p conversation o).store.conversations ∧
      c'.id = c.id ∧ m ∈ c'.messages := by
  rcases finishSendWith_convs_cases w p conversation o with hsame | ⟨conv', hid', ⟨tail, hmsgs'⟩, hupd⟩
  · exact ⟨c, by rw [hsame]; exact hc, rfl, hm⟩
  · by_cases hidc : c.id = conversation.id
    · have hceq : c = conversation := nodup_id_mem_unique hw.convNodup hc hconv hidc
      subst hceq
      have hmkeep : m ∈ removeMsgById c.messages p.placeholderId := by
        unfold removeMsgById
        rw [List.mem_eraseP_of_neg]
        · exact hm
        · intro hb
          have hmp := hw.pendPh p hp c hc m hm (by simpa using hb)
          rw [hrole] at hmp
          cases hmp.1
      refine ⟨conv', ?_, by rw [hid'], ?_⟩
      · rw [hupd]
        exact updateConv_mem_self c hc hid'.symm
      · rw [hmsgs']
        exact List.mem_append_left _ hmkeep
    · refine ⟨c, ?_, rfl, hm⟩
      rw [hupd]
      exact updateConv_mem_other hc (by rw [hid']; exact hidc)

/-- A user-role message survives any single event. -/
theorem user_msg_step (w : World) (e : Event) (hw : WFa w) (c : ChatConversation)
    (hc : c ∈ w.store.conversations) (m : ChatMessage) (hm : m ∈ c.messages)
    (hrole : m.role = Role.user) :
    ∃ c', c' ∈ (stepWorld w e).store.conversations ∧ c'.id = c.id ∧ m ∈ c'.messages := by
  cases e with
  | cancelAll => exact ⟨c, hc, rfl, hm⟩
  | send content =>
    rcases startSend_eq w content hw
      with ⟨s1, conversation, heq, hwf1, hconv, hsub, _, _, _, _⟩
    have hstep : stepWorld w (Event.send content) = startSend w content := rfl
    rw [hstep, heq]
    have hc1 : c ∈ s1.conversations := hsub c hc
    have hnd : (s1.conversations.map (fun c => c.id)).Nodup := hwf1.convNodup
    by_cases hid : c.id = (sendConv3 s1 conversation content).id
    · have hcid : c.id = conversation.id := by rw [hid, sendConv3_id]
      have hceq : c = conversation := nodup_id_mem_unique hnd hc1 hconv hcid
      subst hceq
      refine ⟨sendConv3 s1 c content, ?_, ?_, ?_⟩
      · show _ ∈ updateConv s1.conversations (sendConv3 s1 c content)
        exact updateConv_mem_self c hc1 hid
      · rw [sendConv3_id]
      · rw [sendConv3_messages]
        exact List.mem_append_left _ hm
    · refine ⟨c, ?_, rfl, hm⟩
      show c ∈ updateConv s1.conversations (sendConv3 s1 conversation content)
      exact updateConv_mem_other hc1 hid
  | finish r o =>
    have hstep : stepWorld w (Event.finish r o) = finishSend w r o := rfl
    rw [hstep]
    unfold finishSend
    cases h1 : w.pendings.find? (fun p => p.reqId == r) with
    | none => simp only [h1]; exact ⟨c, hc, rfl, hm⟩
    | some p =>
      simp only [h1]
      have hp := List.mem_of_find?_eq_some h1
      cases h2 : w.store.conversations.find? (fun c => c.id == p.convId) with
      | none => simp only [h2]; exact ⟨c, hc, rfl, hm⟩
      | some conversation =>
        simp only [h2]
        have hconv := List.mem_of_find?_eq_some h2
        exact user_msg_finishSendWith w p conversation o hw hp hconv c hc m hm hrole

/-- A user-role message survives any event trace. -/
theorem user_msg_run (w : World) (t : List Event) (hw : WFa w)
    (c : ChatConversation) (hc : c ∈ w.store.conversations)
    (m : ChatMessage) (hm : m ∈ c.messages) (hrole : m.role = Role.user) :
    ∃ c', c' ∈ (runWorld w t).store.conversations ∧ c'.id = c.id ∧ m ∈ c'.messages := by
  induction t generalizing w c with
  | nil => exact ⟨c, hc, rfl, hm⟩
  | cons e t ih =>
    rcases user_msg_step w e hw c hc m hm hrole with ⟨c1, hc1, hid1, hm1⟩
    rcases ih (stepWorld w e) (wfa_step w e hw) c1 hc1 hm1 with ⟨c2, hc2, hid2, hm2⟩
    exact ⟨c2, hc2, by rw [hid2, hid1], hm2⟩

/-- The synchronous prefix of `sendMessage` leaves the pushed user message
in the current conversation. -/
theorem startSend_user_present (w : World) (content : String) (hw : WFa w) :
    ∃ (c : ChatConversation) (uid : Nat),
      c ∈ (startSend w content).store.conversations ∧
      { mid := uid, role := Role.user, content := content } ∈ c.messages := by
  rcases startSend_eq w content hw
    with ⟨s1, conversation, heq, hwf1, hconv, _, _, _, _, _⟩
  rw [heq]
  refine ⟨sendConv3 s1 conversation content, s1.nextId + 2, ?_, ?_⟩
  · show _ ∈ updateConv s1.conversations (sendConv3 s1 conversation content)
    exact updateConv_mem_self conversation hconv (sendConv3_id s1 conversation content).symm
  · rw [sendConv3_messages]
    exact List.mem_append_right _ (List.mem_cons_self _ _)

/-- C10.  The user message appended synchronously at the start of a
`sendMessage` call remains in the conversation under every outcome —
success, network failure, timeout, cancellation: user-role messages are
never removed by any event (only the assistant placeholder is ever
removed), and the message pushed by a send is still present after any
continuation of the trace. -/
theorem c10_user_message_persists :
    (∀ (w : World) (t : List Event) (c : ChatConversation) (m : ChatMessage),
      WFa w → c ∈ w.store.conversations → m ∈ c.messages → m.role = Role.user →
      ∃ c', c' ∈ (runWorld w t).store.conversations ∧ c'.id = c.id ∧ m ∈ c'.messages) ∧
    (∀ (t1 t2 : List Event) (content : String),
      ∃ (c : ChatConversation) (uid : Nat),
        c ∈ (runWorld initWorld (t1 ++ Event.send content :: t2)).store.conversations ∧
        { mid := uid, role := Role.user, content := content } ∈ c.messages) := by
  constructor
  · intro w t c m hw hc hm hrole
    exact user_msg_run w t hw c hc m hm hrole
  · intro t1 t2 content
    rw [runWorld_append]
    have hw1 : WFa (runWorld initWorld t1) := wfa_run initWorld t1 wfa_initWorld
    rcases startSend_user_present (runWorld initWorld t1) content hw1 with ⟨c0, uid, hc0, hm0⟩
    have hrun : runWorld (runWorld initWorld t1) (Event.send content :: t2) =
        runWorld (startSend (runWorld initWorld t1) content) t2 := rfl
    rw [hrun]
    rcases user_msg_run (startSend (runWorld initWorld t1) content) t2
      (wfa_startSend (runWorld initWorld t1) content hw1) c0 hc0
      { mid := uid, role := Role.user, content := content } hm0 rfl
      with ⟨c', hc', _, hm'⟩
    exact ⟨c', uid, hc', hm'⟩

/-- The conversation as it stands right after `send "hi"` from the initial
world. -/
def c10Conv : ChatConversation :=
  { id := 0, title := "hi",
    messages := [{ mid := 3, role := Role.user, content := "hi" },
                 { mid := 4, role := Role.assistant, content := "..." }],
    modelId := "gpt-5", createdAt := 0, updatedAt := 1,
    selectedWorkspaces := [], selectedDocuments := [],
    chatMode := some ChatMode.normal, chatModeLocked := true,
    selectedDomains := [], isTemporary := false }

theorem c10_user_message_persists_witness :
    (∃ c', c' ∈ (runWorld (runWorld initWorld [Event.send "hi"])
        [Event.finish 1 ReqOutcome.resolvedAbort]).store.conversations ∧
      c'.id = c10Conv.id ∧
      { mid := 3, role := Role.user, content := "hi" } ∈ c'.messages) ∧
    (∃ (c : ChatConversation) (uid : Nat),
      c ∈ (runWorld initWorld ([] ++ Event.send "hi" ::
        [Event.finish 1 ReqOutcome.resolvedAbort])).store.conversations ∧
      { mid := uid, role := Role.user, content := "hi" } ∈ c.messages) :=
  ⟨c10_user_message_persists.1 (runWorld initWorld [Event.send "hi"])
      [Event.finish 1 ReqOutcome.resolvedAbort] c10Conv
      { mid := 3, role := Role.user, content := "hi" }
      (wfa_run initWorld [Event.send "hi"] wfa_initWorld) (by decide) (by decide) rfl,
    c10_user_message_persists.2 [] [Event.finish 1 ReqOutcome.resolvedAbort] "hi"⟩

/-! ## Lemmas on `filter`, `eraseP` and `erase` (groundwork for claim C1) -/

theorem filter_eraseP_comm {α : Type} (q r : α → Bool) (l : List α)
    (h : ∀ x ∈ l, r x = true → q x = true) :
    (l.eraseP r).filter q = (l.filter q).eraseP r := by
  induction l with
  | nil => rfl
  | cons a t ih =>
    by_cases hra : r a = true
    · rw [List.eraseP_cons_of_pos hra]
      have hqa := h a (List.mem_cons_self a t) hra
      rw [List.filter_cons, if_pos hqa, List.eraseP_cons_of_pos hra]
    · rw [List.eraseP_cons_of_neg (by simpa using hra)]
      have ih' := ih (fun x hx => h x (List.mem_cons_of_mem a hx))
      rw [List.filter_cons]
      by_cases hqa : q a = true
      · rw [if_pos hqa, List.filter_cons, if_pos hqa,
          List.eraseP_cons_of_neg (by simpa using hra), ih']
      · rw [if_neg hqa, List.filter_cons, if_neg hqa, ih']

theorem filter_eraseP_of_none {α : Type} (q r : α → Bool) (l : List α)
    (h : ∀ x ∈ l, r x = true → q x = false) :
    (l.eraseP r).filter q = l.filter q := by
  induction l with
  | nil => rfl
  | cons a t ih =>
    by_cases hra : r a = true
    · rw [List.eraseP_cons_of_pos hra]
      have hqa := h a (List.mem_cons_self a t) hra
      rw [List.filter_cons, if_neg (by simp [hqa])]
    · rw [List.eraseP_cons_of_neg (by simpa using hra)]
      have ih' := ih (fun x hx => h x (List.mem_cons_of_mem a hx))
      rw [List.filter_cons, List.filter_cons]
      by_cases hqa : q a = true
      · rw [if_pos hqa, if_pos hqa, ih']
      · rw [if_neg hqa, if_neg hqa, ih']

theorem map_eraseP_beq {α : Type} (f : α → Nat) (a : Nat) (l : List α) :
    (l.eraseP (fun x => f x == a)).map f = (l.map f).erase a := by
  induction l with
  | nil => rfl
  | cons x t ih =>
    by_cases hx : (f x == a) = true
    · rw [@List.eraseP_cons_of_pos _ x t (fun y => f y == a) hx, List.map_cons]
      rw [beq_iff_eq.1 hx]
      rw [List.erase_cons_head]
    · rw [@List.eraseP_cons_of_neg _ x t (fun y => f y == a) (by simpa using hx),
        List.map_cons, List.map_cons, List.erase_cons_tail (by simpa using hx), ih]

theorem map_eraseP_unique {α : Type} (f : α → Nat) (pred : α → Bool)
    (l : List α) (x : α) (hpx : pred x = true)
    (huniq : ∀ y ∈ l, pred y = true → y = x)
    (hfuniq : ∀ y ∈ l, f y = f x → y = x) :
    (l.eraseP pred).map f = (l.map f).erase (f x) := by
  induction l with
  | nil => rfl
  | cons a t ih
  => by_cases hpa : pred a = true
     · have hax : a = x := huniq a (List.mem_cons_self a t) hpa
       subst hax
       rw [@List.eraseP_cons_of_pos _ a t pred hpa, List.map_cons, List.erase_cons_head]
     · have hanx : ¬ a = x := fun hax => hpa (hax ▸ hpx)
       have hfa : ¬ f a = f x := fun hfa =>
         hanx (hfuniq a (List.mem_cons_self a t) hfa)
       rw [@List.eraseP_cons_of_neg _ a t pred (by simpa using hpa), List.map_cons,
         List.map_cons, List.erase_cons_tail (by simpa using hfa)]
       rw [ih (fun y hy hply => huniq y (List.mem_cons_of_mem a hy) hply)
         (fun y hy hfy => hfuniq y (List.mem_cons_of_mem a hy) hfy)]

theorem mem_updateConv_strong {l : List ChatConversation} {c e : ChatConversation}
    (he : e ∈ updateConv l c) : e = c ∨ (e ∈ l ∧ ¬ e.id = c.id) := by
  unfold updateConv at he
  rcases List.mem_map.1 he with ⟨d, hd, hde⟩
  by_cases h : (d.id == c.id) = true
  · rw [if_pos h] at hde
    exact Or.inl hde.symm
  · rw [if_neg h] at hde
    subst hde
    exact Or.inr ⟨hd, by simpa using h⟩

/-- Completion while the request is still active: the conversation is
replaced by one with the placeholder erased, plus — on success — exactly
the new assistant reply (its id drawn from the clock). -/
theorem finishSendWith_convs_update (w : World) (p : PendingSend)
    (conversation : ChatConversation) (o : ReqOutcome)
    (hact : w.store.activeRequests.contains p.reqId = true) :
    ∃ (conv' : ChatConversation) (tail : List ChatMessage),
      conv'.id = conversation.id ∧
      conv'.messages = removeMsgById conversation.messages p.placeholderId ++ tail ∧
      (tail = [] ∨ ∃ ct em, o = ReqOutcome.resolved true ct em ∧
        tail = [{ mid := w.store.nextId, role := Role.assistant, content := ct }]) ∧
      (finishSendWith w p conversation o).store.conversations =
        updateConv w.store.conversations conv' ∧
      (finishSendWith w p conversation o).pendings =
        w.pendings.eraseP (fun q => q.reqId == p.reqId) ∧
      (finishSendWith w p conversation o).store.activeRequests =
        w.store.activeRequests.filter (fun r => r != p.reqId) := by
  have hact' : ¬ (w.store.activeRequests.contains p.reqId) = false := by
    rw [hact]; simp
  cases o with
  | resolved success content errMsg =>
    cases success with
    | true =>
      refine ⟨{ conversation with
          messages := removeMsgById conversation.messages p.placeholderId ++
            [{ mid := w.store.nextId, role := Role.assistant, content := content }]
          updatedAt := w.store.nextId },
        [{ mid := w.store.nextId, role := Role.assistant, content := content }],
        rfl, rfl, Or.inr ⟨content, errMsg, rfl, rfl⟩, ?_, rfl, ?_⟩
      · unfold finishSendWith
        dsimp only
        rw [if_neg hact', if_pos rfl]
      · unfold finishSendWith
        dsimp only
        rw [if_neg hact', if_pos rfl]
    | false =>
      refine ⟨{ conversation with
          messages := removeMsgById conversation.messages p.placeholderId },
        [], rfl, by simp, Or.inl rfl, ?_, rfl, ?_⟩
      · unfold finishSendWith
        dsimp only
        rw [if_neg hact', if_neg (by simp)]
      · unfold finishSendWith
        dsimp only
        rw [if_neg hact', if_neg (by simp)]
  | resolvedAbort =>
    exact ⟨{ conversation with
      messages := removeMsgById conversation.messages p.placeholderId },
      [], rfl, by simp, Or.inl rfl, rfl, rfl, rfl⟩
  | timedOut =>
    exact ⟨{ conversation with
      messages := removeMsgById conversation.messages p.placeholderId },
      [], rfl, by simp, Or.inl rfl, rfl, rfl, rfl⟩
  | failed msg =>
    exact ⟨{ conversation with
      messages := removeMsgById conversation.messages p.placeholderId },
      [], rfl, by simp, Or.inl rfl, rfl, rfl, rfl⟩

/-- The placeholder bookkeeping of runs without `cancelActiveRequests`:
each conversation's placeholder messages are exactly (and in order) the
placeholders of its in-flight sends, every pending send's conversation
exists, and every pending send's request id is still in the active set. -/
structure WFb (w : World) : Prop where
  corr : ∀ c ∈ w.store.conversations,
    (c.messages.filter isPlaceholderMsg).map (fun m => m.mid) =
      (w.pendings.filter (fun p => p.convId == c.id)).map (fun p => p.placeholderId)
  pendConv : ∀ p ∈ w.pendings, ∃ c, c ∈ w.store.conversations ∧ c.id = p.convId
  pendActive : ∀ p ∈ w.pendings, p.reqId ∈ w.store.activeRequests

theorem wfb_initWorld : WFb initWorld := by
  constructor <;> simp [initWorld, initialStore]

theorem wfb_startSend (w : World) (content : String) (hwa : WFa w) (hwb : WFb w) :
    WFb (startSend w content) := by
  rcases startSend_eq w content hwa with
    ⟨s1, conversation, heq, hwf1, hconv, hsub, hsup, hle, hq, ha⟩
  rw [heq]
  have hcorr1 : ∀ c ∈ s1.conversations,
      (c.messages.filter isPlaceholderMsg).map (fun m => m.mid) =
        (w.pendings.filter (fun p => p.convId == c.id)).map
          (fun p => p.placeholderId) := by
    intro c hc
    rcases hsup c hc with hold | ⟨hempty, hid⟩
    · exact hwb.corr c hold
    · rw [hempty]
      have hnil : w.pendings.filter (fun p => p.convId == c.id) = [] := by
        rw [List.filter_eq_nil_iff]
        intro p hp
        rcases hwb.pendConv p hp with ⟨c0, hc0, hc0id⟩
        have hlt := hwa.convLt c0 hc0
        simp only [beq_iff_eq]
        omega
      rw [hnil]
      rfl
  constructor
  · intro c hc
    have hc' : c ∈ updateConv s1.conversations (sendConv3 s1 conversation content) := hc
    have hpend' : (startSendWith w s1 conversation content).pendings =
        w.pendings ++ [sendPending s1 conversation] := rfl
    rw [hpend']
    rcases mem_updateConv_strong hc' with rfl | ⟨hcm, hcne⟩
    · simp only [sendConv3_messages, sendConv3_id]
      rw [List.filter_append, List.map_append, List.filter_append, List.map_append]
      have hfl : ([sendUserMessage s1 content, sendPlaceholder s1].filter
          isPlaceholderMsg) = [sendPlaceholder s1] := rfl
      have hfr : ([sendPending s1 conversation].filter
          (fun p => p.convId == conversation.id)) = [sendPending s1 conversation] := by
        simp [sendPending]
      rw [hfl, hfr, hcorr1 conversation hconv]
      rfl
    · have hcne' : ¬ (sendConv3 s1 conversation content).id = c.id :=
        fun hx => hcne hx.symm
      rw [sendConv3_id] at hcne'
      rw [List.filter_append, List.map_append]
      have hfr : ([sendPending s1 conversation].filter
          (fun p => p.convId == c.id)) = [] := by
        simp only [List.filter_cons, List.filter_nil]
        rw [if_neg (by simpa [sendPending] using hcne')]
      rw [hfr, hcorr1 c hcm]
      simp
  · intro p hp
    have hp' : p ∈ w.pendings ++ [sendPending s1 conversation] := hp
    rcases List.mem_append.1 hp' with hpm | hpm
    · rcases hwb.pendConv p hpm with ⟨c0, hc0, hc0id⟩
      have hc1 : c0 ∈ s1.conversations := hsub c0 hc0
      by_cases hsame : c0.id = (sendConv3 s1 conversation content).id
      · refine ⟨sendConv3 s1 conversation content,
          updateConv_mem_self c0 hc1 hsame, ?_⟩
        rw [← hsame, hc0id]
      · exact ⟨c0, updateConv_mem_other hc1 hsame, hc0id⟩
    · rw [List.mem_singleton] at hpm
      subst hpm
      refine ⟨sendConv3 s1 conversation content,
        updateConv_mem_self conversation hconv
          (sendConv3_id s1 conversation content).symm, ?_⟩
      rw [sendConv3_id]
      rfl
  · intro p hp
    have hp' : p ∈ w.pendings ++ [sendPending s1 conversation] := hp
    show p.reqId ∈ s1.activeRequests ++ [s1.nextId]
    rcases List.mem_append.1 hp' with hpm | hpm
    · have hal := hwb.pendActive p hpm
      rw [ha]
      exact List.mem_append_left _ hal
    · rw [List.mem_singleton] at hpm
      subst hpm
      exact List.mem_append_right _ (List.mem_singleton.2 rfl)

theorem wfb_finishSend (w : World) (r : Nat) (o : ReqOutcome) (hwa : WFa w)
    (hwb : WFb w)
    (hsent : ∀ b ct em, o = ReqOutcome.resolved b ct em → ¬ ct = "...") :
    WFb (finishSend w r o) := by
  unfold finishSend
  cases h1 : w.pendings.find? (fun p => p.reqId == r) with
  | none => simp only [h1]; exact hwb
  | some p =>
    simp only [h1]
    have hp := List.mem_of_find?_eq_some h1
    cases h2 : w.store.conversations.find? (fun c => c.id == p.convId) with
    | none =>
      exfalso
      rcases hwb.pendConv p hp with ⟨c0, hc0, hc0id⟩
      rcases exists_find?_of_mem c0 hc0 (p := fun c => c.id == p.convId)
        (by simp [hc0id]) with ⟨y, hy, _, _⟩
      rw [h2] at hy
      cases hy
    | some conversation =>
      simp only [h2]
      have hconv := List.mem_of_find?_eq_some h2
      have hcid : conversation.id = p.convId := by
        have hx := List.find?_some h2
        simpa using hx
      have hact : w.store.activeRequests.contains p.reqId = true :=
        List.elem_eq_true_of_mem (hwb.pendActive p hp)
      rcases finishSendWith_convs_update w p conversation o hact with
        ⟨conv', tail, hcid', hmsgs', htail, hconvs', hpend', hactive'⟩
      have hponly : ∀ q ∈ w.pendings, (q.reqId == p.reqId) = true → q = p := by
        intro q hq hqr
        exact List.inj_on_of_nodup_map hwa.pendReqNodup hq hp (beq_iff_eq.1 hqr)
      constructor
      · intro c hc
        rw [hconvs'] at hc
        rw [hpend']
        rcases mem_updateConv_strong hc with rfl | ⟨hcm, hcne⟩
        · rw [hmsgs', List.filter_append, List.map_append]
          have htailnil : tail.filter isPlaceholderMsg = [] := by
            rcases htail with rfl | ⟨ct, em, ho, rfl⟩
            · rfl
            · have hct : ¬ ct = "..." := hsent true ct em ho
              simp [isPlaceholderMsg, hct]
          rw [htailnil, List.map_nil, List.append_nil]
          unfold removeMsgById
          rw [filter_eraseP_comm isPlaceholderMsg
            (fun m => m.mid == p.placeholderId) conversation.messages ?hallmsg]
          case hallmsg =>
            intro m hm hb
            have hmp := hwa.pendPh p hp conversation hconv m hm (by simpa using hb)
            simp [isPlaceholderMsg, hmp.1, hmp.2]
          rw [@map_eraseP_beq ChatMessage (fun m => m.mid) p.placeholderId
            (conversation.messages.filter isPlaceholderMsg)]
          simp only [hcid', hcid]
          rw [filter_eraseP_comm (fun q => q.convId == p.convId)
            (fun q => q.reqId == p.reqId) w.pendings ?hallpend]
          case hallpend =>
            intro q hq hb
            rw [hponly q hq hb]
            simp
          rw [@map_eraseP_unique PendingSend (fun q => q.placeholderId)
            (fun q => q.reqId == p.reqId)
            (w.pendings.filter (fun q => q.convId == p.convId)) p (by simp) ?huq ?hfq]
          case huq =>
            intro y hy hb
            exact hponly y (List.mem_of_mem_filter hy) hb
          case hfq =>
            intro y hy hb
            exact List.inj_on_of_nodup_map hwa.pendPhNodup
              (List.mem_of_mem_filter hy) hp hb
          have hco := hwb.corr conversation hconv
          simp only [hcid] at hco
          rw [hco]
        · have hcne2 : ¬ p.convId = c.id := by
            intro hx
            exact hcne (by rw [hcid', hcid, hx])
          rw [filter_eraseP_of_none (fun q => q.convId == c.id)
            (fun q => q.reqId == p.reqId) w.pendings ?hnone]
          · exact hwb.corr c hcm
          case hnone =>
            intro q hq hb
            rw [hponly q hq hb]
            simpa using hcne2
      · intro q hq
        rw [hpend'] at hq
        have hqm := List.mem_of_mem_eraseP hq
        rcases hwb.pendConv q hqm with ⟨c0, hc0, hc0id⟩
        rw [hconvs']
        by_cases hsame : c0.id = conv'.id
        · refine ⟨conv', updateConv_mem_self c0 hc0 hsame, ?_⟩
          rw [← hsame, hc0id]
        · exact ⟨c0, updateConv_mem_other hc0 hsame, hc0id⟩
      · intro q hq
        rw [hpend'] at hq
        have hqm := List.mem_of_mem_eraseP hq
        rw [hactive']
        have hqa := hwb.pendActive q hqm
        have hqne : ¬ q.reqId = p.reqId := by
          intro hqe
          have hqp : q = p := List.inj_on_of_nodup_map hwa.pendReqNodup hqm hp hqe
          subst hqp
          have hmapped : (w.pendings.eraseP
              (fun q2 => q2.reqId == q.reqId)).map (fun q2 => q2.reqId) =
              (w.pendings.map (fun q2 => q2.reqId)).erase q.reqId :=
            map_eraseP_beq _ _ _
          have hqin : q.reqId ∈ (w.pendings.eraseP
              (fun q2 => q2.reqId == q.reqId)).map (fun q2 => q2.reqId) :=
            List.mem_map.2 ⟨q, hq, rfl⟩
          rw [hmapped] at hqin
          exact ((hwa.pendReqNodup.mem_erase_iff).1 hqin).1 rfl
        exact List.mem_filter.2 ⟨hqa, by simpa using hqne⟩

theorem validEvent_finish_sentinel (w : World) (r : Nat) (o : ReqOutcome)
    (hv : validEvent w (Event.finish r o) = true) :
    ∀ b ct em, o = ReqOutcome.resolved b ct em → ¬ ct = "..." := by
  intro b ct em ho heq
  subst ho
  subst heq
  unfold validEvent at hv
  rcases List.any_eq_true.1 hv with ⟨p, _, hfp⟩
  rw [Bool.and_eq_true] at hfp
  have h3 := hfp.2
  simp at h3

theorem wfb_step (w : World) (e : Event) (hwa : WFa w) (hwb : WFb w)
    (hv : validEvent w e = true) (hnc : ¬ e = Event.cancelAll) :
    WFb (stepWorld w e) := by
  cases e with
  | send content => exact wfb_startSend w content hwa hwb
  | finish r o =>
    exact wfb_finishSend w r o hwa hwb (validEvent_finish_sentinel w r o hv)
  | cancelAll => exact absurd rfl hnc

theorem wfab_run (w : World) (t : List Event) (hwa : WFa w) (hwb : WFb w)
    (hv : validFrom w t = true) (hnc : noCancelEvents t = true) :
    WFa (runWorld w t) ∧ WFb (runWorld w t) := by
  induction t generalizing w with
  | nil => exact ⟨hwa, hwb⟩
  | cons e t ih =>
    have hv' : (validEvent w e && validFrom (stepWorld w e) t) = true := hv
    rw [Bool.and_eq_true] at hv'
    have hx : noCancelEvents (e :: t) = true := hnc
    unfold noCancelEvents at hx
    rw [List.all_cons, Bool.and_eq_true] at hx
    have hne : ¬ e = Event.cancelAll := by
      intro hy
      subst hy
      simpa using hx.1
    have hnct : noCancelEvents t = true := hx.2
    exact ih (stepWorld w e) (wfa_step w e hwa) (wfb_step w e hwa hwb hv'.1 hne)
      hv'.2 hnct

/-! ## Claim C1: placeholder lifecycle -/

/-- C1, counterexample.  Two overlapping `sendMessage` calls on one
conversation: the second send appends its placeholder before the aborted
first request's catch handler has run, so the conversation transiently
holds TWO placeholder assistant messages (content equal to the ellipsis
sentinel) at once, refuting "at most one placeholder assistant message
exists at any time". -/
theorem c1_counterexample :
    validFrom initWorld [Event.send "a", Event.send "b"] = true ∧
    ((runWorld initWorld [Event.send "a", Event.send "b"]).store.conversations.map
      (fun c => (c.messages.filter isPlaceholderMsg).length)) = [2] ∧
    ¬ (∀ c ∈ (runWorld initWorld [Event.send "a", Event.send "b"]).store.conversations,
        (c.messages.filter isPlaceholderMsg).length ≤ 1) := by
  decide

/-- C1, amended.  In every admissible run of `sendMessage` calls and
request completions (without `cancelActiveRequests`): the placeholder
assistant messages of a conversation are exactly — id for id, in order —
the placeholders of that conversation's still-unsettled sends, so at most
one placeholder exists *per in-flight send* (two may coexist transiently
while a superseded request's abort handler has not yet run); and the
placeholder appended by a send is removed from its conversation by the
time that send's request settles. -/
theorem c1_placeholders_track_inflight (t : List Event)
    (hv : validFrom initWorld t = true) (hnc : noCancelEvents t = true) :
    (∀ c ∈ (runWorld initWorld t).store.conversations,
      (c.messages.filter isPlaceholderMsg).map (fun m => m.mid) =
        (((runWorld initWorld t).pendings.filter
          (fun p => p.convId == c.id)).map (fun p => p.placeholderId))) ∧
    (∀ (r : Nat) (o : ReqOutcome) (p : PendingSend),
      validEvent (runWorld initWorld t) (Event.finish r o) = true →
      p ∈ (runWorld initWorld t).pendings → p.reqId = r →
      ∀ c ∈ (runWorld initWorld (t ++ [Event.finish r o])).store.conversations,
        ∀ m ∈ c.messages, ¬ m.mid = p.placeholderId) := by
  rcases wfab_run initWorld t wfa_initWorld wfb_initWorld hv hnc with ⟨hwa, hwb⟩
  refine ⟨hwb.corr, ?_⟩
  intro r o p hve hpmem hpr c hc m hm hmid
  rw [runWorld_append] at hc
  have hstep : runWorld (runWorld initWorld t) [Event.finish r o] =
      finishSend (runWorld initWorld t) r o := rfl
  rw [hstep] at hc
  -- identify the found pending and conversation
  rcases exists_find?_of_mem p hpmem (p := fun q => q.reqId == r) (by simp [hpr])
    with ⟨y, hy, hpy, hymem⟩
  have hyp : y = p :=
    List.inj_on_of_nodup_map hwa.pendReqNodup hymem hpmem (by
      have h1 := beq_iff_eq.1 hpy
      rw [h1, hpr])
  subst hyp
  rcases hwb.pendConv y hpmem with ⟨c0, hc0, hc0id⟩
  rcases exists_find?_of_mem c0 hc0 (p := fun d => d.id == y.convId) (by simp [hc0id])
    with ⟨conversation, hfc, hfcp, hfcmem⟩
  have hfs : finishSend (runWorld initWorld t) r o =
      finishSendWith (runWorld initWorld t) y conversation o := by
    unfold finishSend
    simp only [hy, hfc]
  rw [hfs] at hc
  have hsent := validEvent_finish_sentinel (runWorld initWorld t) r o hve
  have hact : (runWorld initWorld t).store.activeRequests.contains y.reqId = true :=
    List.elem_eq_true_of_mem (hwb.pendActive y hpmem)
  rcases finishSendWith_convs_update (runWorld initWorld t) y conversation o hact with
    ⟨conv', tail, hcid', hmsgs', htail, hconvs', hpend', hactive'⟩
  -- the placeholder id is no longer among the pending ids
  have hponly : ∀ q ∈ (runWorld initWorld t).pendings,
      (q.reqId == y.reqId) = true → q = y := by
    intro q hq hqr
    exact List.inj_on_of_nodup_map hwa.pendReqNodup hq hpmem (beq_iff_eq.1 hqr)
  have hpids : ((runWorld initWorld t).pendings.eraseP
      (fun q => q.reqId == y.reqId)).map (fun q => q.placeholderId) =
      ((runWorld initWorld t).pendings.map (fun q => q.placeholderId)).erase
        y.placeholderId := by
    refine @map_eraseP_unique PendingSend (fun q => q.placeholderId)
      (fun q => q.reqId == y.reqId) _ y (by simp) hponly ?_
    intro q hq hqph
    exact List.inj_on_of_nodup_map hwa.pendPhNodup hq hpmem hqph
  have hpidout : ¬ y.placeholderId ∈
      ((finishSendWith (runWorld initWorld t) y conversation o).pendings.map
        (fun q => q.placeholderId)) := by
    rw [hpend', hpids]
    intro hin
    exact ((hwa.pendPhNodup.mem_erase_iff).1 hin).1 rfl
  by_cases hph : isPlaceholderMsg m = true
  · -- a placeholder with this id would have to belong to an in-flight send
    have hW'b : WFb (finishSendWith (runWorld initWorld t) y conversation o) := by
      rw [← hfs]
      exact wfb_finishSend (runWorld initWorld t) r o hwa hwb hsent
    have hcorr := hW'b.corr c hc
    have hmemL : m.mid ∈ (c.messages.filter isPlaceholderMsg).map (fun m => m.mid) :=
      List.mem_map.2 ⟨m, List.mem_filter.2 ⟨hm, hph⟩, rfl⟩
    rw [hcorr] at hmemL
    rcases List.mem_map.1 hmemL with ⟨q, hqf, hqe⟩
    have hqin : q.placeholderId ∈
        ((finishSendWith (runWorld initWorld t) y conversation o).pendings.map
          (fun q => q.placeholderId)) :=
      List.mem_map.2 ⟨q, List.mem_of_mem_filter hqf, rfl⟩
    rw [hqe, hmid] at hqin
    exact hpidout hqin
  · -- a non-placeholder message can never carry a pending placeholder id
    rw [hconvs'] at hc
    rcases mem_updateConv_strong hc with rfl | ⟨hcm, _⟩
    · rw [hmsgs'] at hm
      rcases List.mem_append.1 hm with hm' | hm'
      · have hmm := List.mem_of_mem_eraseP hm'
        have hmp := hwa.pendPh y hpmem conversation hfcmem m hmm hmid
        exact hph (by simp [isPlaceholderMsg, hmp.1, hmp.2])
      · rcases htail with rfl | ⟨ct, em, ho, rfl⟩
        · cases hm'
        · rw [List.mem_singleton] at hm'
          subst hm'
          have hlt := hwa.pendPhLt y hpmem
          simp only at hmid
          omega
    · have hmp := hwa.pendPh y hpmem c hcm m hm hmid
      exact hph (by simp [isPlaceholderMsg, hmp.1, hmp.2])

theorem c1_placeholders_track_inflight_witness :
    (∀ c ∈ (runWorld initWorld [Event.send "hi"]).store.conversations,
      (c.messages.filter isPlaceholderMsg).map (fun m => m.mid) =
        (((runWorld initWorld [Event.send "hi"]).pendings.filter
          (fun p => p.convId == c.id)).map (fun p => p.placeholderId))) ∧
    (∀ (r : Nat) (o : ReqOutcome) (p : PendingSend),
      validEvent (runWorld initWorld [Event.send "hi"]) (Event.finish r o) = true →
      p ∈ (runWorld initWorld [Event.send "hi"]).pendings → p.reqId = r →
      ∀ c ∈ (runWorld initWorld ([Event.send "hi"] ++
          [Event.finish r o])).store.conversations,
        ∀ m ∈ c.messages, ¬ m.mid = p.placeholderId) :=
  c1_placeholders_track_inflight [Event.send "hi"] (by decide) (by decide)

/-- The pending request created by a single send, as the model builds it. -/
def c4Pending : PendingSend :=
  { reqId := 1, convId := 0, controllerId := 2, userMsgId := 3, placeholderId := 4,
    timeoutMs := 120000 }

theorem c4_amended_timeout_is_silent_witness :
    c4Pending.timeoutMs = 120000 ∧
    finishSend (runWorld initWorld [Event.send "hi"]) 1 ReqOutcome.timedOut =
      finishSend (runWorld initWorld [Event.send "hi"]) 1 ReqOutcome.resolvedAbort ∧
    (finishSend (runWorld initWorld [Event.send "hi"]) 1 ReqOutcome.timedOut).store.error =
      (runWorld initWorld [Event.send "hi"]).store.error :=
  ⟨c4_amended_timeout_is_silent.1 [Event.send "hi"] c4Pending (by decide),
    c4_amended_timeout_is_silent.2.1 (runWorld initWorld [Event.send "hi"]) 1,
    c4_amended_timeout_is_silent.2.2 (runWorld initWorld [Event.send "hi"]) 1⟩

/-! ## PDF Byte Assembler (ChatPane.vue lines 451–663)

JS strings are `List Char`, byte buffers `List Nat` (entries < 256).
`atob` is modelled by the WHATWG forgiving-base64 decoder: strip up to two
trailing `=` when the length is a multiple of four, then decode 4-character
blocks to 3 bytes, with a trailing 2- or 3-character block yielding 1 or 2
bytes and a trailing single character failing. -/

def isJsSpace (c : Char) : Bool :=
  decide (c = ' ' ∨ c = Char.ofNat 9 ∨ c = Char.ofNat 10 ∨ c = Char.ofNat 11 ∨
    c = Char.ofNat 12 ∨ c = Char.ofNat 13)

def b64Val (c : Char) : Option Nat :=
  if 'A' ≤ c ∧ c ≤ 'Z' then some (c.toNat - 'A'.toNat)
  else if 'a' ≤ c ∧ c ≤ 'z' then some (c.toNat - 'a'.toNat + 26)
  else if '0' ≤ c ∧ c ≤ '9' then some (c.toNat - '0'.toNat + 52)
  else if c = '+' then some 62
  else if c = '/' then some 63
  else none

def isB64Alpha (c : Char) : Bool := (b64Val c).isSome

/-- Block decoding of forgiving base64 (after padding removal). -/
def b64Chunks : List Char → Option (List Nat)
  | [] => some []
  | [_] => none
  | [c0, c1] => do
    let v0 ← b64Val c0
    let v1 ← b64Val c1
    pure [(v0 * 64 + v1) / 16]
  | [c0, c1, c2] => do
    let v0 ← b64Val c0
    let v1 ← b64Val c1
    let v2 ← b64Val c2
    pure [((v0 * 64 + v1) * 64 + v2) / 1024, (((v0 * 64 + v1) * 64 + v2) / 4) % 256]
  | c0 :: c1 :: c2 :: c3 :: rest => do
    let v0 ← b64Val c0
    let v1 ← b64Val c1
    let v2 ← b64Val c2
    let v3 ← b64Val c3
    let tailBytes ← b64Chunks rest
    pure ([(((v0 * 64 + v1) * 64 + v2) * 64 + v3) / 65536,
           ((((v0 * 64 + v1) * 64 + v2) * 64 + v3) / 256) % 256,
           (((v0 * 64 + v1) * 64 + v2) * 64 + v3) % 256] ++ tailBytes)

/-- Remove up to two trailing `=` when the length is a multiple of four
(WHATWG forgiving-base64 step). -/
def stripPad (s : List Char) : List Char :=
  if s.length % 4 = 0 then
    match s.reverse with
    | c1 :: c2 :: rest =>
      if c1 = '=' then (if c2 = '=' then rest.reverse else (c2 :: rest).reverse)
      else s
    | [c1] => if c1 = '=' then [] else s
    | [] => s
  else s

/-- `window.atob` composed with per-character `charCodeAt` collection into a
`Uint8Array` (every decoded code unit is < 256, so `charCodeAt` is the
identity on bytes); `none` models the `InvalidCharacterError` throw. -/
def jsAtob (s : List Char) : Option (List Nat) := b64Chunks (stripPad s)

/-- `str.padEnd(Math.ceil(str.length / 4) * 4, '=')`. -/
def padEndMult4 (s : List Char) : List Char :=
  s ++ List.replicate ((4 - s.length % 4) % 4) '='

/-- `isValidBase64` (ChatPane.vue lines 451–459): the regex
`^[A-Za-z0-9+/]*={0,2}$` together with `length % 4 === 0`. -/
def isValidBase64 (s : List Char) : Bool :=
  (decide ((s.reverse.takeWhile (fun c => c = '=')).length ≤ 2)) &&
    ((s.reverse.dropWhile (fun c => c = '=')).all isB64Alpha) &&
    (s.length % 4 == 0)

/-- The 100000-character slice loop of `base64ToUint8ArrayChunked`; fuel is
the string length (each step consumes at least one character). -/
def chunkSplitAux : Nat → List Char → List (List Char)
  | _, [] => []
  | 0, s => [s]
  | fuel + 1, s => s.take 100000 :: chunkSplitAux fuel (s.drop 100000)

def chunkSplit (s : List Char) : List (List Char) := chunkSplitAux s.length s

/-- The per-chunk body of the loop: each slice is re-padded with `padEnd`
and decoded with `atob`; a throw in any iteration aborts the whole
conversion (`none`). -/
def decodeChunks : List (List Char) → Option (List (List Nat))
  | [] => some []
  | c :: cs => do
    let x ← jsAtob (padEndMult4 c)
    let xs ← decodeChunks cs
    pure (x :: xs)

/-- `base64ToUint8ArrayChunked` (ChatPane.vue lines 496–524): allocate
`Math.floor(length / 4) * 3` bytes, decode 100 KB slices (each re-padded
with `padEnd`) into it at a running offset, and return the whole
allocation — bytes beyond the written region stay zero.  A write past the
allocation (`result.set` RangeError) is modelled as `none`. -/
def base64ToUint8ArrayChunked (s : List Char) : Option (List Nat) := do
  let totalLength := s.length / 4 * 3
  let decoded ← decodeChunks (chunkSplit s)
  let written := decoded.flatten
  if written.length ≤ totalLength then
    pure (written ++ List.replicate (totalLength - written.length) 0)
  else none

/-- UTF-8 encoding of a code point below 0x100 (the `TextEncoder` fallback
encodes the binary string, mangling bytes ≥ 0x80 into two bytes). -/
def utf8Bytes (b : Nat) : List Nat :=
  if b < 128 then [b] else [192 + b / 64, 128 + b % 64]

/-- The catch-branch of `base64ToUint8Array`: `atob` again, then
`TextEncoder().encode` on the binary string. -/
def base64Fallback (padded : List Char) : Option (List Nat) :=
  (jsAtob padded).map (fun bs => (bs.map utf8Bytes).flatten)

/-- `base64ToUint8Array` (ChatPane.vue lines 461–494): strip whitespace,
pad to a multiple of four, then use the chunked conversion for inputs
longer than 1,000,000 characters and a single-pass `atob` otherwise; on a
throw, fall back to `atob` + `TextEncoder`. -/
def base64ToUint8Array (s : List Char) : Option (List Nat) :=
  let cleanBase64 := s.filter (fun c => !(isJsSpace c))
  let paddedBase64 := padEndMult4 cleanBase64
  let primary := if 1000000 < paddedBase64.length
    then base64ToUint8ArrayChunked paddedBase64
    else jsAtob paddedBase64
  match primary with
  | some bytes => some bytes
  | none => base64Fallback paddedBase64

/-- `isPdfHeader` (ChatPane.vue lines 526–533): the first four bytes are
`%PDF` (0x25 0x50 0x44 0x46). -/
def isPdfHeader (bytes : List Nat) : Bool :=
  decide (4 ≤ bytes.length) && (bytes.getD 0 0 == 0x25) && (bytes.getD 1 0 == 0x50) &&
    (bytes.getD 2 0 == 0x44) && (bytes.getD 3 0 == 0x46)

/-! ## Document loading (ChatPane.vue lines 535–663)

The `fetch` responses are inputs: `ViewPayload` is the parsed JSON of a
successful `/view` request (`none` at the call site models a failed fetch
or a non-JSON response, both of which `loadDocumentViaBase64` turns into a
thrown error), and the download path's input is the downloaded byte
buffer (`none` models a failed download fetch).  A thrown `Error` is
`Except.error` carrying the message. -/

/-- `sourceData.document`. -/
structure SRDocument where
  id : List Char
  title : Option (List Char)
  filename : List Char
deriving DecidableEq, Repr

/-- The parsed JSON body of a `/view` response. -/
structure ViewPayload where
  useDownload : Bool
  error : Option (List Char)
  base64 : Option (List Char)
  fileSize : Option Nat
  mimetype : Option (List Char)
deriving DecidableEq, Repr

/-- The object handed to `openPdf`. -/
structure PdfDocument where
  id : List Char
  title : List Char
  filename : List Char
  base64Data : List Nat
  mimetype : List Char
deriving DecidableEq, Repr

/-- JS `a || b` on strings: `b` when `a` is absent or empty. -/
def jsOrStr (a : Option (List Char)) (b : List Char) : List Char :=
  match a with
  | none => b
  | some s => if s.isEmpty then b else s

/-- `s.startsWith(pat)` on character lists. -/
def startsWithSeq : List Char → List Char → Bool
  | _, [] => true
  | [], _ :: _ => false
  | c :: cs, p :: ps => c == p && startsWithSeq cs ps

/-- `s.includes(pat)` on character lists. -/
def containsSeq (pat : List Char) : List Char → Bool
  | [] => startsWithSeq [] pat
  | c :: cs => startsWithSeq (c :: cs) pat || containsSeq pat cs

/-- `loadDocumentViaBase64` (ChatPane.vue lines 555–628) after a
successful JSON fetch.  `fileSizeMB > 1` with
`fileSizeMB = (data.file_size || 0) / (1024 * 1024)` holds exactly when
`file_size > 1048576` (division by a power of two is exact on JS
integers). -/
def loadDocumentViaBase64 (doc : SRDocument) (data : ViewPayload) :
    Except (List Char) PdfDocument :=
  if data.useDownload || (match data.error with
      | none => false
      | some e => containsSeq "too large".toList e) then
    Except.error ("Server: ".toList ++
      jsOrStr data.error "File too large for base64".toList)
  else if (match data.base64 with
      | none => true
      | some b64 => b64.isEmpty) then
    Except.error "Invalid response: missing base64 data".toList
  else match data.base64 with
    | none => Except.error "Invalid response: missing base64 data".toList
    | some b64 =>
      if 1048576 < data.fileSize.getD 0 then
        Except.error "File too large for base64 processing".toList
      else if !(isValidBase64 b64) then
        Except.error "Invalid base64 format received from server".toList
      else match base64ToUint8Array b64 with
        | none => Except.error "Failed to convert base64 to binary data".toList
        | some bytes =>
          if bytes.length < 4 || !(isPdfHeader bytes) then
            Except.error "Received data is not a valid PDF file".toList
          else Except.ok
            { id := doc.id, title := jsOrStr doc.title doc.filename,
              filename := doc.filename, base64Data := bytes,
              mimetype := jsOrStr data.mimetype "application/pdf".toList }

/-- `loadDocumentViaDownload` (ChatPane.vue lines 630–663); the input is
the downloaded byte buffer, `none` for a failed fetch. -/
def loadDocumentViaDownload (doc : SRDocument) (downloaded : Option (List Nat)) :
    Except (List Char) PdfDocument :=
  match downloaded with
  | none => Except.error "Failed to download document".toList
  | some bytes =>
    if bytes.length < 4 || !(isPdfHeader bytes) then
      Except.error "Downloaded file is not a valid PDF".toList
    else Except.ok
      { id := doc.id, title := jsOrStr doc.title doc.filename,
        filename := doc.filename, base64Data := bytes,
        mimetype := "application/pdf".toList }

/-- The outcome of `loadDocumentForSource`: the viewer opened, or the
outer catch fired `alert`. -/
inductive LoadOutcome where
  | opened (doc : PdfDocument)
  | alerted (msg : List Char)
deriving DecidableEq, Repr

/-- `loadDocumentForSource` (ChatPane.vue lines 535–553): try the base64
path, fall back to the download path, alert on failure of both.  A
failed view fetch (`viewResp = none`) is the thrown
`Failed to fetch document` error of the base64 path. -/
def loadDocumentForSource (doc : SRDocument) (viewResp : Option ViewPayload)
    (downloaded : Option (List Nat)) : LoadOutcome :=
  let tryBase64 := match viewResp with
    | none => Except.error "Failed to fetch document".toList
    | some data => loadDocumentViaBase64 doc data
  match tryBase64 with
  | Except.ok p => LoadOutcome.opened p
  | Except.error _ =>
    match loadDocumentViaDownload doc downloaded with
    | Except.ok p => LoadOutcome.opened p
    | Except.error e =>
      LoadOutcome.alerted ("Failed to open document: ".toList ++ e)

/-! ### Base64 decoder lemmas -/

theorem chunkSplitAux_nil (fuel : Nat) : chunkSplitAux fuel [] = [] := by
  cases fuel <;> rfl

theorem stripPad_eq_self (s : List Char) (h1 : s.all isB64Alpha = true) :
    stripPad s = s := by
  unfold stripPad
  by_cases hlen : s.length % 4 = 0
  · rw [if_pos hlen]
    cases hrev : s.reverse with
    | nil => rfl
    | cons c1 t =>
      have hc1 : c1 ∈ s := by
        have hm : c1 ∈ s.reverse := by rw [hrev]; exact List.mem_cons_self _ _
        exact List.mem_reverse.1 hm
      have halpha : isB64Alpha c1 = true := List.all_eq_true.1 h1 c1 hc1
      have hne : ¬ c1 = '=' := by
        intro he; rw [he] at halpha; exact absurd halpha (by decide)
      cases t with
      | nil => simp only [if_neg hne]
      | cons c2 t2 => simp only [if_neg hne]
  · rw [if_neg hlen]

theorem padEndMult4_eq_self (s : List Char) (h2 : s.length % 4 = 0) :
    padEndMult4 s = s := by
  unfold padEndMult4
  rw [h2]
  simp

theorem b64Chunks_append (a b : List Char) (h : a.length % 4 = 0) :
    b64Chunks (a ++ b) =
      (b64Chunks a).bind (fun x => (b64Chunks b).map (fun y => x ++ y)) := by
  induction a using b64Chunks.induct with
  | case1 =>
    simp only [List.nil_append, b64Chunks]
    cases hb : b64Chunks b <;> simp
  | case2 c0 => simp at h
  | case3 c0 c1 => simp at h
  | case4 c0 c1 c2 => simp at h
  | case5 c0 c1 c2 c3 rest ih =>
    have hrest : rest.length % 4 = 0 := by
      simp only [List.length_cons] at h
      omega
    have ih2 := ih hrest
    simp only [List.cons_append, b64Chunks, ih2]
    cases hv0 : b64Val c0 <;> cases hv1 : b64Val c1 <;> cases hv2 : b64Val c2 <;>
      cases hv3 : b64Val c3 <;> cases ht : b64Chunks rest <;>
      cases hb : b64Chunks b <;> simp [ih2, ht, hb]

theorem b64Chunks_alpha (s : List Char) (h1 : s.all isB64Alpha = true)
    (h2 : s.length % 4 = 0) :
    ∃ bs, b64Chunks s = some bs ∧ bs.length = s.length / 4 * 3 := by
  induction s using b64Chunks.induct with
  | case1 => exact ⟨[], rfl, rfl⟩
  | case2 c0 => simp at h2
  | case3 c0 c1 => simp at h2
  | case4 c0 c1 c2 => simp at h2
  | case5 c0 c1 c2 c3 rest ih =>
    simp only [List.all_cons, Bool.and_eq_true] at h1
    obtain ⟨ha0, ha1, ha2, ha3, harest⟩ := h1
    have hrest4 : rest.length % 4 = 0 := by
      simp only [List.length_cons] at h2
      omega
    obtain ⟨bs, hbs, hlen⟩ := ih harest hrest4
    obtain ⟨v0, hv0⟩ := Option.isSome_iff_exists.1 ha0
    obtain ⟨v1, hv1⟩ := Option.isSome_iff_exists.1 ha1
    obtain ⟨v2, hv2⟩ := Option.isSome_iff_exists.1 ha2
    obtain ⟨v3, hv3⟩ := Option.isSome_iff_exists.1 ha3
    refine ⟨_, by simp only [b64Chunks, hv0, hv1, hv2, hv3, hbs]; rfl, ?_⟩
    simp only [List.length_cons, List.length_append, List.length_cons,
      List.length_nil, hlen]
    omega

theorem chunkSplitAux_decode (fuel : Nat) (s : List Char)
    (h1 : s.all isB64Alpha = true) (h2 : s.length % 4 = 0) :
    (decodeChunks (chunkSplitAux fuel s)).map List.flatten = b64Chunks s := by
  induction fuel generalizing s with
  | zero =>
    cases s with
    | nil => rfl
    | cons c cs =>
      have hsp : chunkSplitAux 0 (c :: cs) = [c :: cs] := rfl
      rw [hsp]
      simp only [decodeChunks]
      rw [padEndMult4_eq_self _ h2]
      unfold jsAtob
      rw [stripPad_eq_self _ h1]
      cases hb : b64Chunks (c :: cs) <;> simp [hb]
  | succ n ih =>
    cases s with
    | nil => rfl
    | cons c cs =>
      have hlen : (cs.length + 1) % 4 = 0 := by
        simpa using h2
      have hsp : chunkSplitAux (n + 1) (c :: cs) =
          (c :: cs).take 100000 :: chunkSplitAux n ((c :: cs).drop 100000) := rfl
      have htake : ((c :: cs).take 100000).length % 4 = 0 := by
        rw [List.length_take, List.length_cons]
        omega
      have hdrop : ((c :: cs).drop 100000).length % 4 = 0 := by
        rw [List.length_drop, List.length_cons]
        omega
      have htakeA : ((c :: cs).take 100000).all isB64Alpha = true := by
        refine List.all_eq_true.2 (fun x hx => ?_)
        exact List.all_eq_true.1 h1 x ((List.take_sublist _ _).mem hx)
      have hdropA : ((c :: cs).drop 100000).all isB64Alpha = true := by
        refine List.all_eq_true.2 (fun x hx => ?_)
        exact List.all_eq_true.1 h1 x ((List.drop_sublist _ _).mem hx)
      have ihd := ih ((c :: cs).drop 100000) hdropA hdrop
      rw [hsp]
      simp only [decodeChunks]
      rw [padEndMult4_eq_self _ htake]
      unfold jsAtob
      rw [stripPad_eq_self _ htakeA]
      conv_rhs => rw [← List.take_append_drop 100000 (c :: cs)]
      rw [b64Chunks_append _ _ htake, ← ihd]
      cases hchunk : b64Chunks ((c :: cs).take 100000) <;>
        cases hm : decodeChunks (chunkSplitAux n ((c :: cs).drop 100000)) <;>
        simp [hchunk, hm]


/-- C6 counterexample: `"QQ=="` is accepted by `isValidBase64`, the
single-pass decode yields the one byte `[65]`, but the chunked conversion
allocates `floor(4 / 4) * 3 = 3` bytes and returns `[65, 0, 0]` — the two
strategies disagree on every valid input containing `=` padding. -/
theorem c6_counterexample :
    isValidBase64 "QQ==".toList = true ∧
    jsAtob "QQ==".toList = some [65] ∧
    base64ToUint8ArrayChunked "QQ==".toList = some [65, 0, 0] ∧
    base64ToUint8ArrayChunked "QQ==".toList ≠ jsAtob "QQ==".toList := by
  refine ⟨by decide, by decide, by decide, ?_⟩
  decide

/-- C6 (amended): the chunked conversion agrees with the single-pass
`atob` decode on every input made only of base64 alphabet characters
(no `=` padding) whose length is a multiple of four; with padding the
chunked version returns extra trailing zero bytes. -/
theorem c6_chunked_matches_single_pass (s : List Char)
    (h1 : s.all isB64Alpha = true) (h2 : s.length % 4 = 0) :
    base64ToUint8ArrayChunked s = jsAtob s := by
  obtain ⟨bs, hbs, hblen⟩ := b64Chunks_alpha s h1 h2
  have hdec := chunkSplitAux_decode s.length s h1 h2
  rw [hbs] at hdec
  unfold base64ToUint8ArrayChunked chunkSplit
  cases hm : decodeChunks (chunkSplitAux s.length s) with
  | none => rw [hm] at hdec; simp at hdec
  | some l =>
    rw [hm] at hdec
    simp only [Option.map_some', Option.some.injEq] at hdec
    have hwlen : l.flatten.length = s.length / 4 * 3 := by rw [hdec, hblen]
    show (if l.flatten.length ≤ s.length / 4 * 3 then
        some (l.flatten ++ List.replicate (s.length / 4 * 3 - l.flatten.length) 0)
      else none) = jsAtob s
    rw [if_pos (le_of_eq hwlen), hwlen, hdec]
    simp only [Nat.sub_self, List.replicate_zero, List.append_nil]
    unfold jsAtob
    rw [stripPad_eq_self _ h1, hbs]

theorem c6_chunked_matches_single_pass_witness :
    "JVBE".toList.all isB64Alpha = true ∧ "JVBE".toList.length % 4 = 0 ∧
    base64ToUint8ArrayChunked "JVBE".toList = jsAtob "JVBE".toList :=
  ⟨by decide, by decide,
    c6_chunked_matches_single_pass "JVBE".toList (by decide) (by decide)⟩

/-- C5: on each loading path the PDF magic gates the outcome: when the
base64 path's preliminary checks pass and the decoded buffer starts with
`%PDF`, a `PdfDocument` carrying exactly those bytes is produced and
opened; any other leading four bytes yield the path's format error; the
download path behaves the same on its buffer; and `loadDocumentForSource`
always ends in `opened` or `alerted` — never an uncaught exception. -/
theorem c5_pdf_header_gates_loading (doc : SRDocument) (data : ViewPayload)
    (b64 : List Char) (bytes dl : List Nat)
    (h1 : data.useDownload = false)
    (h2 : ∀ e, data.error = some e → containsSeq "too large".toList e = false)
    (h3 : data.base64 = some b64) (h4 : b64.isEmpty = false)
    (h5 : data.fileSize.getD 0 ≤ 1048576)
    (h6 : isValidBase64 b64 = true)
    (h7 : base64ToUint8Array b64 = some bytes) :
    (isPdfHeader bytes = true →
      loadDocumentViaBase64 doc data = Except.ok
        { id := doc.id, title := jsOrStr doc.title doc.filename,
          filename := doc.filename, base64Data := bytes,
          mimetype := jsOrStr data.mimetype "application/pdf".toList }) ∧
    (isPdfHeader bytes = false →
      loadDocumentViaBase64 doc data =
        Except.error "Received data is not a valid PDF file".toList) ∧
    (isPdfHeader dl = true →
      loadDocumentViaDownload doc (some dl) = Except.ok
        { id := doc.id, title := jsOrStr doc.title doc.filename,
          filename := doc.filename, base64Data := dl,
          mimetype := "application/pdf".toList }) ∧
    (isPdfHeader dl = false →
      loadDocumentViaDownload doc (some dl) =
        Except.error "Downloaded file is not a valid PDF".toList) ∧
    (∀ vr db, (∃ p, loadDocumentForSource doc vr db = LoadOutcome.opened p) ∨
      (∃ m, loadDocumentForSource doc vr db = LoadOutcome.alerted m)) := by
  have hsize : ¬ 1048576 < data.fileSize.getD 0 := not_lt.2 h5
  have hdlHeadLen : ∀ (xs : List Nat), isPdfHeader xs = true → ¬ xs.length < 4 := by
    intro xs hx
    unfold isPdfHeader at hx
    simp only [Bool.and_eq_true, decide_eq_true_eq] at hx
    omega
  refine ⟨?_, ?_, ?_, ?_, ?_⟩
  · intro hpdf
    unfold loadDocumentViaBase64
    rw [h1, h3]
    have herr : (match data.error with
        | none => false
        | some e => containsSeq "too large".toList e) = false := by
      cases he : data.error with
      | none => rfl
      | some e => exact h2 e he
    rw [herr]
    simp only [Bool.or_self, Bool.false_or, if_neg (by simp : ¬ (false = true))]
    rw [if_neg (by rw [h4]; exact Bool.false_ne_true)]
    rw [if_neg hsize, h6]
    simp only [Bool.not_true]
    rw [if_neg (by exact Bool.false_ne_true)]
    rw [h7]
    have h4b : ¬ bytes.length < 4 := hdlHeadLen bytes hpdf
    simp [hpdf, h4b]
  · intro hpdf
    unfold loadDocumentViaBase64
    rw [h1, h3]
    have herr : (match data.error with
        | none => false
        | some e => containsSeq "too large".toList e) = false := by
      cases he : data.error with
      | none => rfl
      | some e => exact h2 e he
    rw [herr]
    simp only [Bool.or_self, Bool.false_or, if_neg (by simp : ¬ (false = true))]
    rw [if_neg (by rw [h4]; exact Bool.false_ne_true)]
    rw [if_neg hsize, h6]
    simp only [Bool.not_true]
    rw [if_neg (by exact Bool.false_ne_true)]
    rw [h7]
    simp [hpdf]
  · intro hpdf
    have h4d : ¬ dl.length < 4 := hdlHeadLen dl hpdf
    simp [loadDocumentViaDownload, hpdf, h4d]
  · intro hpdf
    simp [loadDocumentViaDownload, hpdf]
  · intro vr db
    unfold loadDocumentForSource
    cases hb : (match vr with
        | none => Except.error "Failed to fetch document".toList
        | some d => loadDocumentViaBase64 doc d : Except (List Char) PdfDocument) with
    | ok p => exact Or.inl ⟨p, by simp [hb]⟩
    | error e =>
      cases hd : loadDocumentViaDownload doc db with
      | ok p => exact Or.inl ⟨p, by simp [hb, hd]⟩
      | error e2 =>
        exact Or.inr ⟨"Failed to open document: ".toList ++ e2, by simp [hb, hd]⟩

def c5Doc : SRDocument :=
  { id := "d1".toList, title := none, filename := "a.pdf".toList }

def c5Data : ViewPayload :=
  { useDownload := false, error := none, base64 := some "JVBERg==".toList,
    fileSize := some 6, mimetype := none }

theorem c5_pdf_header_gates_loading_witness :
    isValidBase64 "JVBERg==".toList = true ∧
    base64ToUint8Array "JVBERg==".toList = some [37, 80, 68, 70] ∧
    isPdfHeader [37, 80, 68, 70] = true ∧
    loadDocumentViaBase64 c5Doc c5Data = Except.ok
      { id := c5Doc.id, title := jsOrStr c5Doc.title c5Doc.filename,
        filename := c5Doc.filename, base64Data := [37, 80, 68, 70],
        mimetype := jsOrStr c5Data.mimetype "application/pdf".toList } :=
  ⟨by decide, by decide, by decide,
    (c5_pdf_header_gates_loading c5Doc c5Data "JVBERg==".toList
      [37, 80, 68, 70] [37, 80, 68, 70] rfl (fun e he => nomatch he) rfl
      (by decide) (by decide) (by decide) (by decide)).1 (by decide)⟩

/-! ## Citation-marker resolution (ChatPane.vue lines 713–754)

`handleDocumentLinkClick` looks up the first message carrying search
results and works on that message's `searchResults` array; the array is
the model's input.  The model returns the chosen `sourceData` together
with the `highlightPage` that is set before the PDF is loaded, `none`
when nothing is opened. -/

/-- One entry of `message.searchResults`. -/
structure SearchResult where
  text : Option (List Char)
  page : Option Int
  document : SRDocument
deriving DecidableEq, Repr

/-- `documentMap.get(k)!.push(r)` combined with the
`documentMap.set(k, [])` insertion for a fresh key: JS `Map` updates the
existing key in place and appends fresh keys at the end. -/
def pushGroup : List (List Char × List SearchResult) → List Char → SearchResult →
    List (List Char × List SearchResult)
  | [], k, r => [(k, [r])]
  | (k0, rs) :: rest, k, r =>
    if k0 = k then (k0, rs ++ [r]) :: rest
    else (k0, rs) :: pushGroup rest k r

/-- The grouping loop of `handleDocumentLinkClick` (lines 720–726). -/
def groupByDocId (results : List SearchResult) :
    List (List Char × List SearchResult) :=
  results.foldl (fun m r => pushGroup m r.document.id r) []

/-- `sourceData.page || 1`: JS `||` replaces only falsy values, i.e. an
absent page or page `0` (`NaN` is not modelled). -/
def jsOrPage : Option Int → Int
  | none => 1
  | some p => if p = 0 then 1 else p

/-- `handleDocumentLinkClick` (lines 713–754): group, index 1-based,
take the first result of the group, set `highlightPage` to
`sourceData.page || 1`.  `docIndex = 0` gives `documentGroups[-1]`,
which is `undefined`. -/
def handleDocumentLinkClick (results : List SearchResult) (docIndex : Nat) :
    Option (SearchResult × Int) :=
  let documentGroups := (groupByDocId results).map (fun g => g.2)
  let targetGroup := if docIndex = 0 then none
    else documentGroups.get? (docIndex - 1)
  match targetGroup with
  | none => none
  | some [] => none
  | some (r :: _) => some (r, jsOrPage r.page)

/-- Spec formulation of the groups: the parent document ids in
first-seen order. -/
def firstSeenDocIds (results : List SearchResult) : List (List Char) :=
  results.foldl
    (fun a r => if r.document.id ∈ a then a else a ++ [r.document.id]) []

/-- Spec formulation of one group: the results of that document in
listed order. -/
def docGroup (results : List SearchResult) (k : List Char) : List SearchResult :=
  results.filter (fun r => decide (r.document.id = k))

/-- The claim's resolution function, written from the spec's words:
1-based `docIndex` picks the document id in first-seen order, the first
result of that document is opened, and the page defaults to 1 when it is
absent OR NON-POSITIVE. -/
def resolveDocIndexSpec (results : List SearchResult) (docIndex : Nat) :
    Option (SearchResult × Int) :=
  if docIndex = 0 then none else
  match (firstSeenDocIds results).get? (docIndex - 1) with
  | none => none
  | some docId =>
    match results.find? (fun r => decide (r.document.id = docId)) with
    | none => none
    | some r => some (r,
        match r.page with
        | none => 1
        | some p => if p ≤ 0 then 1 else p)

/-- The amended resolution function: as `resolveDocIndexSpec` but the
page defaults to 1 only when absent or zero (`page || 1`); a negative
page is passed through. -/
def resolveDocIndexAmended (results : List SearchResult) (docIndex : Nat) :
    Option (SearchResult × Int) :=
  if docIndex = 0 then none else
  match (firstSeenDocIds results).get? (docIndex - 1) with
  | none => none
  | some docId =>
    match results.find? (fun r => decide (r.document.id = docId)) with
    | none => none
    | some r => some (r, jsOrPage r.page)

/-! ### Grouping lemmas -/

theorem pushGroup_not_mem (ks : List (List Char))
    (f : List Char → List SearchResult) (key : List Char) (r : SearchResult)
    (h : key ∉ ks) :
    pushGroup (ks.map (fun k => (k, f k))) key r =
      ks.map (fun k => (k, f k)) ++ [(key, [r])] := by
  induction ks with
  | nil => rfl
  | cons k0 kt ih =>
    have hne : ¬ k0 = key := fun he => h (he ▸ List.mem_cons_self _ _)
    simp only [List.map_cons, pushGroup, if_neg hne, List.cons_append,
      List.cons.injEq, true_and]
    exact ih (fun hm => h (List.mem_cons_of_mem _ hm))

theorem pushGroup_mem (ks : List (List Char))
    (f : List Char → List SearchResult) (key : List Char) (r : SearchResult)
    (hnd : ks.Nodup) (h : key ∈ ks) :
    pushGroup (ks.map (fun k => (k, f k))) key r =
      ks.map (fun k => (k, if k = key then f k ++ [r] else f k)) := by
  induction ks with
  | nil => cases h
  | cons k0 kt ih =>
    by_cases he : k0 = key
    · subst he
      have hout : k0 ∉ kt := (List.nodup_cons.1 hnd).1
      simp only [List.map_cons, pushGroup, eq_self_iff_true, if_true,
        List.cons.injEq, true_and]
      refine List.map_congr_left (fun k hk => ?_)
      have hne : ¬ k = k0 := fun hkk => hout (hkk ▸ hk)
      rw [if_neg hne]
    · have hkt : key ∈ kt := by
        cases List.mem_cons.1 h with
        | inl h0 => exact absurd h0.symm he
        | inr h0 => exact h0
      have hndt : kt.Nodup := (List.nodup_cons.1 hnd).2
      simp only [List.map_cons, pushGroup, if_neg he, List.cons.injEq,
        eq_self_iff_true, true_and]
      exact ih hndt hkt

theorem firstSeenDocIds_append (l : List SearchResult) (r : SearchResult) :
    firstSeenDocIds (l ++ [r]) =
      if r.document.id ∈ firstSeenDocIds l then firstSeenDocIds l
      else firstSeenDocIds l ++ [r.document.id] := by
  unfold firstSeenDocIds
  rw [List.foldl_append]
  simp only [List.foldl_cons, List.foldl_nil]

theorem groupByDocId_append (l : List SearchResult) (r : SearchResult) :
    groupByDocId (l ++ [r]) = pushGroup (groupByDocId l) r.document.id r := by
  unfold groupByDocId
  rw [List.foldl_append]
  simp only [List.foldl_cons, List.foldl_nil]

theorem mem_firstSeenDocIds (results : List SearchResult) (x : List Char) :
    x ∈ firstSeenDocIds results ↔ ∃ r ∈ results, r.document.id = x := by
  induction results using List.reverseRecOn with
  | nil => simp [firstSeenDocIds]
  | append_singleton l r ih =>
    rw [firstSeenDocIds_append]
    by_cases hm : r.document.id ∈ firstSeenDocIds l
    · rw [if_pos hm, ih]
      constructor
      · rintro ⟨r0, hr0, hrx⟩
        exact ⟨r0, List.mem_append_left _ hr0, hrx⟩
      · rintro ⟨r0, hr0, hrx⟩
        cases List.mem_append.1 hr0 with
        | inl h0 => exact ⟨r0, h0, hrx⟩
        | inr h0 =>
          have hre : r0 = r := by simpa using h0
          subst hre
          subst hrx
          exact ih.1 hm
    · rw [if_neg hm]
      rw [List.mem_append, List.mem_singleton, ih]
      constructor
      · rintro (⟨r0, hr0, hrx⟩ | hx)
        · exact ⟨r0, List.mem_append_left _ hr0, hrx⟩
        · exact ⟨r, List.mem_append_right _ (List.mem_singleton_self _), hx.symm⟩
      · rintro ⟨r0, hr0, hrx⟩
        cases List.mem_append.1 hr0 with
        | inl h0 => exact Or.inl ⟨r0, h0, hrx⟩
        | inr h0 =>
          have hre : r0 = r := by simpa using h0
          subst hre
          exact Or.inr hrx.symm

theorem nodup_firstSeenDocIds (results : List SearchResult) :
    (firstSeenDocIds results).Nodup := by
  induction results using List.reverseRecOn with
  | nil => simp [firstSeenDocIds]
  | append_singleton l r ih =>
    rw [firstSeenDocIds_append]
    by_cases hm : r.document.id ∈ firstSeenDocIds l
    · rw [if_pos hm]; exact ih
    · rw [if_neg hm]
      simpa [List.nodup_append] using ⟨ih, hm⟩

theorem groupByDocId_eq (results : List SearchResult) :
    groupByDocId results =
      (firstSeenDocIds results).map (fun k => (k, docGroup results k)) := by
  induction results using List.reverseRecOn with
  | nil => rfl
  | append_singleton l r ih =>
    rw [groupByDocId_append, ih, firstSeenDocIds_append]
    by_cases hm : r.document.id ∈ firstSeenDocIds l
    · rw [if_pos hm]
      rw [pushGroup_mem _ _ _ _ (nodup_firstSeenDocIds l) hm]
      refine List.map_congr_left (fun k hk => ?_)
      unfold docGroup
      rw [List.filter_append]
      by_cases hkr : k = r.document.id
      · subst hkr
        simp
      · have hrk : ¬ r.document.id = k := fun he => hkr he.symm
        rw [if_neg hkr]
        simp [hrk]
    · rw [if_neg hm]
      rw [pushGroup_not_mem _ _ _ _ hm]
      rw [List.map_append]
      congr 1
      · refine List.map_congr_left (fun k hk => ?_)
        unfold docGroup
        rw [List.filter_append]
        have hrk : ¬ r.document.id = k := by
          intro he
          exact hm (he ▸ hk)
        simp [hrk]
      · simp only [List.map_cons, List.map_nil, List.cons.injEq, and_true]
        unfold docGroup
        rw [List.filter_append]
        have hflt : l.filter (fun r0 => decide (r0.document.id = r.document.id)) = [] := by
          rw [List.filter_eq_nil_iff]
          intro r0 hr0
          simp only [decide_eq_true_eq]
          intro he
          exact hm ((mem_firstSeenDocIds l r.document.id).2 ⟨r0, hr0, he⟩)
        rw [hflt]
        simp


theorem find?_eq_filter_head {α : Type} (p : α → Bool) (l : List α) :
    l.find? p = (l.filter p).head? := by
  induction l with
  | nil => rfl
  | cons a t ih =>
    by_cases h : p a
    · simp [List.find?_cons, List.filter_cons, h]
    · simp only [List.find?_cons, List.filter_cons, Bool.not_eq_true] at *
      rw [h]
      simpa [h] using ih

/-- C8 counterexample: a search result carrying the negative page `-2` is
opened at page `-2` by the code (`sourceData.page || 1` replaces only the
falsy values `undefined` and `0`), while the claim's resolution defaults
every non-positive page to 1. -/
theorem c8_counterexample :
    handleDocumentLinkClick
        [{ text := none, page := some (-2),
           document := { id := "d".toList, title := none,
                         filename := "f".toList } }] 1 =
      some ({ text := none, page := some (-2),
              document := { id := "d".toList, title := none,
                            filename := "f".toList } }, -2) ∧
    resolveDocIndexSpec
        [{ text := none, page := some (-2),
           document := { id := "d".toList, title := none,
                         filename := "f".toList } }] 1 =
      some ({ text := none, page := some (-2),
              document := { id := "d".toList, title := none,
                            filename := "f".toList } }, 1) ∧
    handleDocumentLinkClick
        [{ text := none, page := some (-2),
           document := { id := "d".toList, title := none,
                         filename := "f".toList } }] 1 ≠
      resolveDocIndexSpec
        [{ text := none, page := some (-2),
           document := { id := "d".toList, title := none,
                         filename := "f".toList } }] 1 := by
  refine ⟨by decide, by decide, ?_⟩
  decide

/-- C8 (amended): `handleDocumentLinkClick` equals the spec's resolution
with the defaulting weakened to `page || 1`: the 1-based `docIndex`
selects the document id in first-seen order, the first search result of
that document is opened, and the page defaults to 1 exactly when it is
absent or zero — a negative page is passed through unchanged. -/
theorem c8_click_resolves_first_seen_group (results : List SearchResult)
    (docIndex : Nat) :
    handleDocumentLinkClick results docIndex =
      resolveDocIndexAmended results docIndex := by
  unfold handleDocumentLinkClick resolveDocIndexAmended
  by_cases hz : docIndex = 0
  · rw [if_pos hz]
    simp [hz]
  · rw [if_neg hz]
    simp only [if_neg hz]
    rw [groupByDocId_eq, List.map_map]
    have hget : ((firstSeenDocIds results).map
        ((fun g => g.2) ∘ (fun k => (k, docGroup results k)))).get?
          (docIndex - 1) =
        ((firstSeenDocIds results).get? (docIndex - 1)).map
          (fun k => docGroup results k) := by
      rw [List.get?_map]
      rfl
    rw [hget]
    cases hk : (firstSeenDocIds results).get? (docIndex - 1) with
    | none => rfl
    | some k =>
      simp only [Option.map_some']
      rw [find?_eq_filter_head]
      have hfold : List.filter (fun r => decide (r.document.id = k)) results =
          docGroup results k := rfl
      rw [hfold]
      cases hg : docGroup results k with
      | nil => rfl
      | cons r rest => rfl

/-! ## BibTeX parser and formatter (BibParser.ts lines 7–32, papers.tsx
lines 29–54)

`parseBibTeX` runs `entryRegex = @(\w+)\s*\x7b\s*([^,]+),([^@]+)\x7d` and,
per entry, `fieldRegex = (\w+)\s*=\s*\x7b([^\x7d]+)\x7d` over the entry
content, each with the `g` flag (leftmost match, resume after the match).
The matchers below resolve the regexes' greedy quantifiers without
search: in both patterns every quantified class excludes the character
that must follow it, except `\s*` before `([^,]+)` (which can give back
exactly one space when the run before the comma is all spaces — JS then
captures that single space) and `([^@]+)` before `\x7d` (which backs off
to the last `\x7d` of the @-free run).  ASCII `\w`/`\s` only. -/

def isWordChar (c : Char) : Bool :=
  decide (('a' ≤ c ∧ c ≤ 'z') ∨ ('A' ≤ c ∧ c ≤ 'Z') ∨ ('0' ≤ c ∧ c ≤ '9') ∨
    c = '_')

/-- `String.prototype.trim` (ASCII whitespace). -/
def trim (s : List Char) : List Char :=
  ((s.dropWhile isJsSpace).reverse.dropWhile isJsSpace).reverse

/-- `String.prototype.toLowerCase` per character (ASCII). -/
def jsToLower (c : Char) : Char :=
  if 'A' ≤ c ∧ c ≤ 'Z' then Char.ofNat (c.toNat + 32) else c

/-- JS object assignment `o[k] = v`: overwrite in place, append fresh
keys. -/
def objSet (o : List (List Char × List Char)) (k v : List Char) :
    List (List Char × List Char) :=
  match o with
  | [] => [(k, v)]
  | (k0, v0) :: rest =>
    if k0 = k then (k0, v) :: rest else (k0, v0) :: objSet rest k v

/-- JS object read `o[k]`. -/
def objGet (o : List (List Char × List Char)) (k : List Char) :
    Option (List Char) :=
  match o with
  | [] => none
  | (k0, v0) :: rest => if k0 = k then some v0 else objGet rest k

/-- One attempt of `fieldRegex` anchored at the current position. -/
def matchFieldHere (s : List Char) :
    Option (List Char × List Char × List Char) :=
  if (s.takeWhile isWordChar).isEmpty then none else
  match (s.dropWhile isWordChar).dropWhile isJsSpace with
  | '=' :: s3 =>
    (match s3.dropWhile isJsSpace with
    | c :: s5 =>
      if c = Char.ofNat 123 then
        if (s5.takeWhile (fun d => !(d == Char.ofNat 125))).isEmpty then none else
        match s5.dropWhile (fun d => !(d == Char.ofNat 125)) with
        | _ :: rest =>
          some (s.takeWhile isWordChar,
            s5.takeWhile (fun d => !(d == Char.ofNat 125)), rest)
        | [] => none
      else none
    | [] => none)
  | _ => none

/-- The inner `while (fieldRegex.exec(content))` loop; fuel is the
content length (every step consumes at least one character). -/
def scanFieldsAux : Nat → List Char → List (List Char × List Char) →
    List (List Char × List Char)
  | 0, _, acc => acc
  | fuel + 1, s, acc =>
    match matchFieldHere s with
    | some (k, v, rest) =>
      scanFieldsAux fuel rest (objSet acc (k.map jsToLower) (trim v))
    | none =>
      match s with
      | [] => acc
      | _ :: t => scanFieldsAux fuel t acc

def parseFields (content : List Char) : List (List Char × List Char) :=
  scanFieldsAux content.length content []

/-- Index of the last `\x7d` in `l`, if any. -/
def lastBraceIdx (l : List Char) : Option Nat :=
  match l.reverse.dropWhile (fun d => !(d == Char.ofNat 125)) with
  | [] => none
  | t => some (t.length - 1)

/-- One attempt of `entryRegex` anchored at the current position. -/
def matchEntryHere (s : List Char) :
    Option (List Char × List Char × List Char × List Char) :=
  match s with
  | a :: s1 =>
    if a = '@' then
      if (s1.takeWhile isWordChar).isEmpty then none else
      (match (s1.dropWhile isWordChar).dropWhile isJsSpace with
      | c :: s3 =>
        if c = Char.ofNat 123 then
          if (s3.takeWhile (fun d => !(d == ','))).isEmpty then none else
          match s3.dropWhile (fun d => !(d == ',')) with
          | b :: s4 =>
            if b = ',' then
              (match lastBraceIdx (s4.takeWhile (fun d => !(d == '@'))) with
              | some j =>
                if 1 ≤ j then
                  some (s1.takeWhile isWordChar,
                    (s3.takeWhile (fun d => !(d == ','))).drop
                      (min ((s3.takeWhile (fun d => !(d == ','))).takeWhile
                          isJsSpace).length
                        ((s3.takeWhile (fun d => !(d == ','))).length - 1)),
                    (s4.takeWhile (fun d => !(d == '@'))).take j,
                    (s4.takeWhile (fun d => !(d == '@'))).drop (j + 1) ++
                      s4.dropWhile (fun d => !(d == '@')))
                else none
              | none => none)
            else none
          | [] => none
        else none
      | [] => none)
    else none
  | [] => none

/-- `entries[id] = ...`: overwrite in place, append fresh ids. -/
def entriesSet (acc : List (List Char × List Char × List (List Char × List Char)))
    (eid ty : List Char) (fields : List (List Char × List Char)) :
    List (List Char × List Char × List (List Char × List Char)) :=
  match acc with
  | [] => [(eid, ty, fields)]
  | (k0, e0) :: rest =>
    if k0 = eid then (k0, ty, fields) :: rest
    else (k0, e0) :: entriesSet rest eid ty fields

/-- The outer `while (entryRegex.exec(bibtex))` loop. -/
def scanEntriesAux : Nat → List Char →
    List (List Char × List Char × List (List Char × List Char)) →
    List (List Char × List Char × List (List Char × List Char))
  | 0, _, acc => acc
  | fuel + 1, s, acc =>
    match matchEntryHere s with
    | some (ty, eid, content, rest) =>
      scanEntriesAux fuel rest
        (entriesSet acc eid (ty.map jsToLower) (parseFields content))
    | none =>
      match s with
      | [] => acc
      | _ :: t => scanEntriesAux fuel t acc

/-- `parseBibTeX` (BibParser.ts lines 7–32): entries keyed by raw id,
later entries with the same id overwriting in place; each entry is
`(id, type.toLowerCase(), fields)` with field keys lowercased and
values trimmed. -/
def parseBibTeX (bibtex : List Char) :
    List (List Char × List Char × List (List Char × List Char)) :=
  scanEntriesAux bibtex.length bibtex []

/-- Index of the first occurrence of `sep` in `s`. -/
def findSeqIdx (sep : List Char) : List Char → Option Nat
  | [] => if startsWithSeq [] sep then some 0 else none
  | c :: cs =>
    if startsWithSeq (c :: cs) sep then some 0
    else (findSeqIdx sep cs).map (· + 1)

/-- `s.split(sep)` for a non-empty string separator; fuel is the string
length. -/
def splitOnSeqAux (sep : List Char) : Nat → List Char → List (List Char)
  | 0, s => [s]
  | fuel + 1, s =>
    match findSeqIdx sep s with
    | none => [s]
    | some i => s.take i :: splitOnSeqAux sep fuel (s.drop (i + sep.length))

def splitOnSeq (sep s : List Char) : List (List Char) :=
  splitOnSeqAux sep s.length s

/-- `parts.join(sep)`. -/
def joinSep (sep : List Char) : List (List Char) → List Char
  | [] => []
  | [x] => x
  | x :: xs => x ++ sep ++ joinSep sep xs

/-- JS `Number`-ish digit accumulation for a year field. -/
def natOfDigits (s : List Char) : Nat :=
  s.foldl (fun n c => n * 10 + (c.toNat - 48)) 0

/-- `Paper` (papers.tsx lines 8–21), the fields `generateBibTeX`
reads. -/
structure Paper where
  id : List Char
  title : List Char
  authors : List Char
  year : Nat
  journal : Option (List Char)
  url : Option (List Char)
  doi : Option (List Char)
  arxiv : Option (List Char)
deriving DecidableEq, Repr

/-- JS truthiness of an optional string field. -/
def truthyStr (o : Option (List Char)) : Bool :=
  match o with
  | none => false
  | some s => !s.isEmpty

/-- `generateBibTeX` (papers.tsx lines 29–54). -/
def generateBibTeX (paper : Paper) : List Char :=
  let authorList := joinSep " and ".toList (splitOnSeq ", ".toList paper.authors)
  let entry := if truthyStr paper.journal then "article".toList else "misc".toList
  "@".toList ++ entry ++ [Char.ofNat 123] ++ paper.id ++ ",\n".toList ++
  "  author = \x7b".toList ++ authorList ++ "\x7d,\n".toList ++
  "  title = \x7b".toList ++ paper.title ++ "\x7d,\n".toList ++
  "  year = \x7b".toList ++ (Nat.repr paper.year).toList ++ "\x7d,\n".toList ++
  (match paper.journal with
   | some j => if j.isEmpty then [] else "  journal = \x7b".toList ++ j ++ "\x7d,\n".toList
   | none => []) ++
  (match paper.doi with
   | some d => if d.isEmpty then [] else "  doi = \x7b".toList ++ d ++ "\x7d,\n".toList
   | none => []) ++
  (match paper.arxiv with
   | some a => if a.isEmpty then [] else
      "  eprint = \x7b".toList ++ a ++ "\x7d,\n".toList ++
        "  archivePrefix = \x7barXiv\x7d,\n".toList
   | none => []) ++
  (match paper.url with
   | some u => if u.isEmpty then [] else "  url = \x7b".toList ++ u ++ "\x7d,\n".toList
   | none => []) ++
  [Char.ofNat 125]

/-- Modelled from the spec: the spec's round trip feeds "the record's
fields" to the formatter, but `generateBibTeX` consumes a `Paper`; this
adapter realises the spec's implicit conversion, mapping the parsed
BibTeX field names onto the `Paper` fields `generateBibTeX` reads
(`author` split on `' and '` and re-joined with `', '` to match
`paper.authors`, `eprint` onto `arxiv`, the year digits onto the numeric
`year`). -/
def paperOfFields (eid : List Char) (fields : List (List Char × List Char)) :
    Paper :=
  { id := eid,
    title := (objGet fields "title".toList).getD [],
    authors := joinSep ", ".toList
      (splitOnSeq " and ".toList ((objGet fields "author".toList).getD [])),
    year := natOfDigits ((objGet fields "year".toList).getD []),
    journal := objGet fields "journal".toList,
    doi := objGet fields "doi".toList,
    arxiv := objGet fields "eprint".toList,
    url := objGet fields "url".toList }

end DeepCite


namespace DeepCite
theorem takeWhile_append_all (p : Char → Bool) (l r : List Char)
    (h : l.all p = true) : (l ++ r).takeWhile p = l ++ r.takeWhile p := by
  induction l with
  | nil => rfl
  | cons a t ih =>
    simp only [List.all_cons, Bool.and_eq_true] at h
    simp [List.takeWhile_cons, h.1, ih h.2]

theorem dropWhile_append_all (p : Char → Bool) (l r : List Char)
    (h : l.all p = true) : (l ++ r).dropWhile p = r.dropWhile p := by
  induction l with
  | nil => rfl
  | cons a t ih =>
    simp only [List.all_cons, Bool.and_eq_true] at h
    simp [List.dropWhile_cons, h.1, ih h.2]

theorem matchFieldHere_nonword (c : Char) (t : List Char)
    (hc : isWordChar c = false) : matchFieldHere (c :: t) = none := by
  unfold matchFieldHere
  rw [List.takeWhile_cons_of_neg (by simp [hc])]
  rfl

theorem matchFieldHere_line (k v rest : List Char)
    (hk : k.isEmpty = false) (hkw : k.all isWordChar = true)
    (hv : v.isEmpty = false) (hvb : v.all (fun c => !(c == Char.ofNat 125)) = true) :
    matchFieldHere (k ++ ' ' :: '=' :: ' ' :: Char.ofNat 123 ::
      (v ++ Char.ofNat 125 :: rest)) = some (k, v, rest) := by
  have h1 : (k ++ ' ' :: '=' :: ' ' :: Char.ofNat 123 ::
      (v ++ Char.ofNat 125 :: rest)).takeWhile isWordChar = k := by
    rw [takeWhile_append_all _ _ _ hkw, List.takeWhile_cons_of_neg (by decide),
      List.append_nil]
  have h2 : ((k ++ ' ' :: '=' :: ' ' :: Char.ofNat 123 ::
      (v ++ Char.ofNat 125 :: rest)).dropWhile isWordChar).dropWhile isJsSpace =
      '=' :: ' ' :: Char.ofNat 123 :: (v ++ Char.ofNat 125 :: rest) := by
    rw [dropWhile_append_all _ _ _ hkw, List.dropWhile_cons_of_neg (by decide),
      List.dropWhile_cons_of_pos (by decide)]
    rw [List.dropWhile_cons_of_neg (by decide)]
  have h3 : (' ' :: Char.ofNat 123 :: (v ++ Char.ofNat 125 :: rest)).dropWhile
      isJsSpace = Char.ofNat 123 :: (v ++ Char.ofNat 125 :: rest) := by
    rw [List.dropWhile_cons_of_pos (by decide), List.dropWhile_cons_of_neg (by decide)]
  have h4 : (v ++ Char.ofNat 125 :: rest).takeWhile
      (fun d => !(d == Char.ofNat 125)) = v := by
    rw [takeWhile_append_all _ _ _ hvb, List.takeWhile_cons_of_neg (by simp),
      List.append_nil]
  have h5 : (v ++ Char.ofNat 125 :: rest).dropWhile
      (fun d => !(d == Char.ofNat 125)) = Char.ofNat 125 :: rest := by
    rw [dropWhile_append_all _ _ _ hvb, List.dropWhile_cons_of_neg (by simp)]
  unfold matchFieldHere
  rw [h1]
  simp only [hk, Bool.false_eq_true, if_false, h2]
  rw [h3]
  simp only [h4, h5, hv, if_pos rfl]
  rfl

theorem scanFieldsAux_nil (f : Nat) (acc : List (List Char × List Char)) :
    scanFieldsAux f [] acc = acc := by
  cases f <;> rfl

theorem dropWhile_length_le (p : Char → Bool) (l : List Char) :
    (l.dropWhile p).length ≤ l.length := by
  induction l with
  | nil => exact Nat.le_refl _
  | cons a t ih =>
    rw [List.dropWhile_cons]
    by_cases h : p a
    · simp only [h, if_true]
      exact Nat.le_trans ih (by simp)
    · simp only [h, Bool.false_eq_true, if_false]
      exact Nat.le_refl _

theorem matchFieldHere_length (s k v rest : List Char)
    (hm : matchFieldHere s = some (k, v, rest)) : rest.length < s.length := by
  unfold matchFieldHere at hm
  split at hm
  · exact Option.noConfusion hm
  · split at hm
    · rename_i s3 heq2
      split at hm
      · rename_i c s5 heq4
        split at hm
        · split at hm
          · exact Option.noConfusion hm
          · split at hm
            · rename_i d rest2 heq5
              simp only [Option.some.injEq, Prod.mk.injEq] at hm
              obtain ⟨hm1, hm2, hm3⟩ := hm
              subst hm3
              have l2 : s3.length + 1 ≤ s.length := by
                have e2 := congrArg List.length heq2
                simp only [List.length_cons] at e2
                have d1 := dropWhile_length_le isJsSpace (s.dropWhile isWordChar)
                have d0 := dropWhile_length_le isWordChar s
                omega
              have l4 : s5.length + 1 ≤ s3.length := by
                have e4 := congrArg List.length heq4
                simp only [List.length_cons] at e4
                have d3 := dropWhile_length_le isJsSpace s3
                omega
              have l5 : rest2.length + 1 ≤ s5.length := by
                have e5 := congrArg List.length heq5
                simp only [List.length_cons] at e5
                have d5 := dropWhile_length_le
                  (fun d => !(d == Char.ofNat 125)) s5
                omega
              omega
            · exact Option.noConfusion hm
        · exact Option.noConfusion hm
      · exact Option.noConfusion hm
    · exact Option.noConfusion hm

theorem scanFieldsAux_fuel : ∀ (n : Nat) (s : List Char), s.length = n →
    ∀ (acc : List (List Char × List Char)) (f : Nat), n ≤ f →
    scanFieldsAux f s acc = scanFieldsAux n s acc := by
  intro n
  induction n using Nat.strong_induction_on with
  | _ n ih =>
    intro s hs acc f hf
    cases s with
    | nil => rw [scanFieldsAux_nil, scanFieldsAux_nil]
    | cons c t =>
      subst hs
      obtain ⟨f1, rfl⟩ : ∃ f1, f = f1 + 1 := by
        refine ⟨f - 1, ?_⟩
        simp only [List.length_cons] at hf
        omega
      simp only [List.length_cons] at ih ⊢
      cases hm : matchFieldHere (c :: t) with
      | none =>
        simp only [scanFieldsAux, hm]
        have h1 := ih t.length (by omega) t rfl acc f1
          (by simp only [List.length_cons] at hf; omega)
        rw [h1]
      | some kvr =>
        obtain ⟨k, v, rest⟩ := kvr
        have hlt : rest.length < t.length + 1 := by
          have := matchFieldHere_length (c :: t) k v rest hm
          simpa using this
        simp only [scanFieldsAux, hm]
        have h1 := ih rest.length (by omega) rest rfl
          (objSet acc (k.map jsToLower) (trim v)) f1
          (by simp only [List.length_cons] at hf; omega)
        have h2 := ih rest.length (by omega) rest rfl
          (objSet acc (k.map jsToLower) (trim v)) t.length (by omega)
        rw [h1, h2]

/-- `scanFieldsAux` with its canonical fuel. -/
def scanFieldsExact (s : List Char) (acc : List (List Char × List Char)) :
    List (List Char × List Char) :=
  scanFieldsAux s.length s acc

theorem parseFields_eq_exact (s : List Char) :
    parseFields s = scanFieldsExact s [] := rfl

theorem scanFieldsExact_skip (c : Char) (t : List Char)
    (acc : List (List Char × List Char))
    (hc : matchFieldHere (c :: t) = none) :
    scanFieldsExact (c :: t) acc = scanFieldsExact t acc := by
  unfold scanFieldsExact
  simp only [List.length_cons, scanFieldsAux, hc]

theorem scanFieldsExact_match (s k v rest : List Char)
    (acc : List (List Char × List Char))
    (hm : matchFieldHere s = some (k, v, rest)) :
    scanFieldsExact s acc =
      scanFieldsExact rest (objSet acc (k.map jsToLower) (trim v)) := by
  have hlt : rest.length < s.length := matchFieldHere_length s k v rest hm
  unfold scanFieldsExact
  obtain ⟨n, hn⟩ : ∃ n, s.length = n + 1 := ⟨s.length - 1, by omega⟩
  rw [hn]
  simp only [scanFieldsAux, hm]
  exact scanFieldsAux_fuel rest.length rest rfl _ n (by omega) |>.symm ▸
    (scanFieldsAux_fuel rest.length rest rfl _ n (by omega)).symm ▸ rfl


/-- The emitted field lines of `generateBibTeX`, as one flat character
list: each piece becomes `"  k = \x7bv\x7d,\n"`. -/
def fieldLines : List (List Char × List Char) → List Char
  | [] => []
  | (k, v) :: ps =>
    ' ' :: ' ' :: (k ++ ' ' :: '=' :: ' ' :: Char.ofNat 123 ::
      (v ++ Char.ofNat 125 :: ',' :: '\n' :: fieldLines ps))

/-- One field piece as the scanner records it. -/
def pieceStep (o : List (List Char × List Char)) (p : List Char × List Char) :
    List (List Char × List Char) :=
  objSet o (p.1.map jsToLower) (trim p.2)

theorem scanFields_lines (pieces : List (List Char × List Char)) :
    ∀ (acc : List (List Char × List Char)),
    (∀ p ∈ pieces, p.1.isEmpty = false ∧ p.1.all isWordChar = true ∧
      p.2.isEmpty = false ∧ p.2.all (fun c => !(c == Char.ofNat 125)) = true) →
    scanFieldsExact ('\n' :: fieldLines pieces) acc =
      pieces.foldl pieceStep acc := by
  induction pieces with
  | nil =>
    intro acc _
    rw [show fieldLines [] = [] from rfl]
    rw [scanFieldsExact_skip '\n' [] acc (matchFieldHere_nonword '\n' [] (by decide))]
    rfl
  | cons p ps ih =>
    obtain ⟨k, v⟩ := p
    intro acc hp
    obtain ⟨hk, hkw, hv, hvb⟩ := hp (k, v) (List.mem_cons_self _ _)
    have hline : fieldLines ((k, v) :: ps) =
        ' ' :: ' ' :: (k ++ ' ' :: '=' :: ' ' :: Char.ofNat 123 ::
          (v ++ Char.ofNat 125 :: ',' :: '\n' :: fieldLines ps)) := rfl
    rw [hline]
    rw [scanFieldsExact_skip _ _ acc (matchFieldHere_nonword _ _ (by decide))]
    rw [scanFieldsExact_skip _ _ acc (matchFieldHere_nonword _ _ (by decide))]
    rw [scanFieldsExact_skip _ _ acc (matchFieldHere_nonword _ _ (by decide))]
    rw [scanFieldsExact_match _ k v (',' :: '\n' :: fieldLines ps) acc
      (matchFieldHere_line k v (',' :: '\n' :: fieldLines ps) hk hkw hv hvb)]
    rw [scanFieldsExact_skip _ _ _ (matchFieldHere_nonword _ _ (by decide))]
    rw [ih _ (fun q hq => hp q (List.mem_cons_of_mem _ hq))]
    rfl


theorem wordHyphen_not_comma (c : Char)
    (hc : (isWordChar c || c == '-') = true) : (c == ',') = false := by
  by_cases he : c = ','
  · subst he
    exact absurd hc (by decide)
  · simp [he]

theorem wordHyphen_not_space (c : Char)
    (hc : (isWordChar c || c == '-') = true) : isJsSpace c = false := by
  by_cases h0 : isWordChar c = true
  · revert h0
    unfold isWordChar isJsSpace
    simp only [decide_eq_true_eq]
    intro h0
    rcases h0 with h | h | h | h <;>
      first
        | (refine decide_eq_false ?_
           rintro (h2 | h2 | h2 | h2 | h2 | h2) <;> subst h2 <;> revert h <;> decide)
  · have hd : c = '-' := by
      simp only [Bool.or_eq_true, beq_iff_eq] at hc
      cases hc with
      | inl h1 => exact absurd h1 h0
      | inr h1 => exact h1
    subst hd
    decide

theorem matchEntryHere_text (ty eid body : List Char)
    (hty : ty.isEmpty = false) (htyw : ty.all isWordChar = true)
    (heid1 : eid.isEmpty = false)
    (heidw : eid.all (fun c => isWordChar c || c == '-') = true)
    (hbody1 : body.isEmpty = false)
    (hbody : body.all (fun c => !(c == '@')) = true) :
    matchEntryHere ('@' :: (ty ++ Char.ofNat 123 ::
      (eid ++ ',' :: (body ++ [Char.ofNat 125])))) = some (ty, eid, body, []) := by
  have heidc : eid.all (fun c => !(c == ',')) = true := by
    refine List.all_eq_true.2 (fun c hc => ?_)
    have hcc := wordHyphen_not_comma c (List.all_eq_true.1 heidw c hc)
    simp [hcc]
  have h1 : (ty ++ Char.ofNat 123 ::
      (eid ++ ',' :: (body ++ [Char.ofNat 125]))).takeWhile isWordChar = ty := by
    rw [takeWhile_append_all _ _ _ htyw, List.takeWhile_cons_of_neg (by decide),
      List.append_nil]
  have h2 : ((ty ++ Char.ofNat 123 ::
      (eid ++ ',' :: (body ++ [Char.ofNat 125]))).dropWhile isWordChar).dropWhile
        isJsSpace =
      Char.ofNat 123 :: (eid ++ ',' :: (body ++ [Char.ofNat 125])) := by
    rw [dropWhile_append_all _ _ _ htyw, List.dropWhile_cons_of_neg (by decide)]
    rw [List.dropWhile_cons_of_neg (by decide)]
  have h3 : (eid ++ ',' :: (body ++ [Char.ofNat 125])).takeWhile
      (fun d => !(d == ',')) = eid := by
    rw [takeWhile_append_all _ _ _ heidc, List.takeWhile_cons_of_neg (by simp),
      List.append_nil]
  have h4 : (eid ++ ',' :: (body ++ [Char.ofNat 125])).dropWhile
      (fun d => !(d == ',')) = ',' :: (body ++ [Char.ofNat 125]) := by
    rw [dropWhile_append_all _ _ _ heidc, List.dropWhile_cons_of_neg (by simp)]
  have h5 : (body ++ [Char.ofNat 125]).takeWhile (fun d => !(d == '@')) =
      body ++ [Char.ofNat 125] := by
    have hall : (body ++ [Char.ofNat 125]).all (fun d => !(d == '@')) = true := by
      rw [List.all_append, hbody]
      decide
    rw [List.takeWhile_eq_self_iff.2 ?_]
    intro a ha
    exact List.all_eq_true.1 hall a ha
  have h6 : (body ++ [Char.ofNat 125]).dropWhile (fun d => !(d == '@')) = [] := by
    rw [List.dropWhile_eq_nil_iff.2 ?_]
    intro a ha
    have hall : (body ++ [Char.ofNat 125]).all (fun d => !(d == '@')) = true := by
      rw [List.all_append, hbody]
      decide
    exact List.all_eq_true.1 hall a ha
  have h7 : lastBraceIdx (body ++ [Char.ofNat 125]) = some body.length := by
    unfold lastBraceIdx
    rw [List.reverse_append]
    rw [show ([Char.ofNat 125].reverse : List Char) = [Char.ofNat 125] from rfl]
    rw [show ([Char.ofNat 125] ++ body.reverse : List Char) =
      Char.ofNat 125 :: body.reverse from rfl]
    rw [List.dropWhile_cons_of_neg (by simp)]
    simp
  have heidsp : (eid.takeWhile isJsSpace).length = 0 := by
    cases heq : eid with
    | nil => rfl
    | cons e0 et =>
      have he0 : isJsSpace e0 = false := by
        refine wordHyphen_not_space e0 ?_
        refine List.all_eq_true.1 heidw e0 ?_
        rw [heq]
        exact List.mem_cons_self _ _
      rw [List.takeWhile_cons_of_neg (by simp [he0])]
      rfl
  simp only [matchEntryHere]
  rw [h1]
  simp only [hty, Bool.false_eq_true, if_false, h2, eq_self_iff_true, if_true, h3,
    heid1, h4, h5, h6, h7, heidsp]
  have hbl : 1 ≤ body.length := by
    cases body with
    | nil => exact absurd hbody1 (by simp)
    | cons b bt => simp
  rw [if_pos hbl]
  have htake : (body ++ [Char.ofNat 125]).take body.length = body := by
    rw [List.take_left]
  have hdrop : (body ++ [Char.ofNat 125]).drop (body.length + 1) = [] := by
    rw [List.drop_eq_nil_iff]
    simp
  simp only [Nat.min_def, Nat.zero_le, if_pos, List.drop_zero, htake, hdrop,
    List.nil_append]

theorem scanEntriesAux_nil (f : Nat)
    (acc : List (List Char × List Char × List (List Char × List Char))) :
    scanEntriesAux f [] acc = acc := by
  cases f <;> rfl

theorem parse_entryText (ty eid body : List Char)
    (hty : ty.isEmpty = false) (htyw : ty.all isWordChar = true)
    (heid1 : eid.isEmpty = false)
    (heidw : eid.all (fun c => isWordChar c || c == '-') = true)
    (hbody1 : body.isEmpty = false)
    (hbody : body.all (fun c => !(c == '@')) = true) :
    parseBibTeX ('@' :: (ty ++ Char.ofNat 123 ::
      (eid ++ ',' :: (body ++ [Char.ofNat 125])))) =
      [(eid, ty.map jsToLower, parseFields body)] := by
  unfold parseBibTeX
  simp only [List.length_cons]
  simp only [scanEntriesAux,
    matchEntryHere_text ty eid body hty htyw heid1 heidw hbody1 hbody]
  rw [scanEntriesAux_nil]
  rfl


theorem objGet_eq_none_iff (o : List (List Char × List Char)) (k : List Char) :
    objGet o k = none ↔ k ∉ o.map Prod.fst := by
  induction o with
  | nil => simp [objGet]
  | cons e rest ih =>
    obtain ⟨k0, v0⟩ := e
    by_cases h : k0 = k
    · subst h
      simp [objGet]
    · simp only [objGet, if_neg h, List.map_cons, List.mem_cons, ih]
      constructor
      · intro hn
        rintro (h1 | h1)
        · exact h h1.symm
        · exact hn h1
      · intro hn h1
        exact hn (Or.inr h1)

theorem mem_objGet (o : List (List Char × List Char)) (k v : List Char)
    (hnd : (o.map Prod.fst).Nodup) :
    (k, v) ∈ o ↔ objGet o k = some v := by
  induction o with
  | nil => simp [objGet]
  | cons e rest ih =>
    obtain ⟨k0, v0⟩ := e
    simp only [List.map_cons, List.nodup_cons] at hnd
    by_cases h : k0 = k
    · subst h
      simp only [objGet, List.mem_cons, Option.some.injEq, Prod.mk.injEq,
        eq_self_iff_true, if_true, true_and]
      constructor
      · rintro (h1 | h1)
        · exact h1.symm
        · exact absurd (List.mem_map_of_mem Prod.fst h1) (by simpa using hnd.1)
      · intro h1
        exact Or.inl h1.symm
    · simp only [objGet, if_neg h, List.mem_cons, ih hnd.2, Prod.mk.injEq]
      constructor
      · rintro (⟨h1, _⟩ | h1)
        · exact absurd h1.symm h
        · exact h1
      · intro h1
        exact Or.inr h1

theorem objSet_fresh (o : List (List Char × List Char)) (k v : List Char)
    (h : objGet o k = none) : objSet o k v = o ++ [(k, v)] := by
  induction o with
  | nil => rfl
  | cons e rest ih =>
    obtain ⟨k0, v0⟩ := e
    by_cases he : k0 = k
    · subst he
      simp [objGet] at h
    · simp only [objGet, if_neg he] at h
      simp only [objSet, if_neg he, List.cons_append, List.cons.injEq, true_and]
      exact ih h

theorem objGet_append (a b : List (List Char × List Char)) (k : List Char) :
    objGet (a ++ b) k =
      match objGet a k with
      | some v => some v
      | none => objGet b k := by
  induction a with
  | nil => rfl
  | cons e rest ih =>
    obtain ⟨k0, v0⟩ := e
    by_cases he : k0 = k
    · subst he
      simp [objGet]
    · simp only [List.cons_append, objGet, if_neg he]
      exact ih

theorem foldl_pieceStep_append (l : List (List Char × List Char)) :
    ∀ (acc : List (List Char × List Char)),
    (l.map (fun p => p.1.map jsToLower)).Nodup →
    (∀ q ∈ l, objGet acc (q.1.map jsToLower) = none) →
    l.foldl pieceStep acc =
      acc ++ l.map (fun p => (p.1.map jsToLower, trim p.2)) := by
  induction l with
  | nil => intro acc _ _; simp
  | cons p ps ih =>
    obtain ⟨k, v⟩ := p
    intro acc hnd hdis
    simp only [List.map_cons, List.nodup_cons] at hnd
    have hfresh : objGet acc (k.map jsToLower) = none :=
      hdis (k, v) (List.mem_cons_self _ _)
    simp only [List.foldl_cons]
    rw [show pieceStep acc (k, v) =
      objSet acc (k.map jsToLower) (trim v) from rfl]
    rw [objSet_fresh _ _ _ hfresh]
    rw [ih _ hnd.2 ?_]
    · simp [List.append_assoc]
    · intro q hq
      rw [objGet_append]
      have h1 : objGet acc (q.1.map jsToLower) = none :=
        hdis q (List.mem_cons_of_mem _ hq)
      rw [h1]
      simp only [objGet]
      have hne : ¬ (k.map jsToLower) = (q.1.map jsToLower) := by
        intro he
        exact hnd.1 (he ▸ List.mem_map_of_mem (fun p => p.1.map jsToLower) hq)
      rw [if_neg hne]


/-- The optional one-field segments of `generateBibTeX`. -/
def optPiece (key : List Char) (o : Option (List Char)) :
    List (List Char × List Char) :=
  match o with
  | some v => if v.isEmpty then [] else [(key, v)]
  | none => []

/-- The `eprint`/`archivePrefix` segment of `generateBibTeX`. -/
def arxivPieces (o : Option (List Char)) : List (List Char × List Char) :=
  match o with
  | some a =>
    if a.isEmpty then []
    else [("eprint".toList, a), ("archivePrefix".toList, "arXiv".toList)]
  | none => []

/-- The field pieces `generateBibTeX` emits, in emission order. -/
def bibPieces (p : Paper) : List (List Char × List Char) :=
  ("author".toList, joinSep " and ".toList (splitOnSeq ", ".toList p.authors)) ::
  ("title".toList, p.title) ::
  ("year".toList, (Nat.repr p.year).toList) ::
  (optPiece "journal".toList p.journal ++
    (optPiece "doi".toList p.doi ++
      (arxivPieces p.arxiv ++ optPiece "url".toList p.url)))

/-- The entry type `generateBibTeX` picks. -/
def entryTy (p : Paper) : List Char :=
  if truthyStr p.journal then "article".toList else "misc".toList

theorem fieldLines_nil : fieldLines [] = [] := rfl

theorem fieldLines_cons (k v : List Char) (ps : List (List Char × List Char)) :
    fieldLines ((k, v) :: ps) =
      ' ' :: ' ' :: (k ++ ' ' :: '=' :: ' ' :: Char.ofNat 123 ::
        (v ++ Char.ofNat 125 :: ',' :: '\n' :: fieldLines ps)) := rfl

theorem fieldLines_append (a b : List (List Char × List Char)) :
    fieldLines (a ++ b) = fieldLines a ++ fieldLines b := by
  induction a with
  | nil => rfl
  | cons p ps ih =>
    obtain ⟨k, v⟩ := p
    simp only [List.cons_append, fieldLines_cons, ih]
    simp [List.append_assoc]

/-- `generateBibTeX` output, reshaped for the entry matcher. -/
theorem gen_eq (p : Paper) :
    generateBibTeX p = '@' :: (entryTy p ++ Char.ofNat 123 :: (p.id ++ ',' ::
      (('\n' :: fieldLines (bibPieces p)) ++ [Char.ofNat 125]))) := by
  unfold generateBibTeX entryTy bibPieces
  cases hj : p.journal <;> cases hd : p.doi <;> cases ha : p.arxiv <;>
    cases hu : p.url <;>
    simp only [optPiece, arxivPieces, truthyStr, fieldLines_nil, fieldLines_cons,
      fieldLines_append, apply_ite fieldLines, List.append_assoc,
      List.cons_append, List.singleton_append,
      List.append_nil, List.nil_append] <;>
    first
      | rfl
      | (rename_i j
         by_cases hje : j.isEmpty <;>
           simp only [hje, Bool.not_true, Bool.not_false, if_true, if_false,
             Bool.true_eq_false, Bool.false_eq_true, fieldLines_nil,
             fieldLines_cons, List.append_assoc, List.cons_append,
             List.singleton_append, List.append_nil,
             List.nil_append] <;> rfl)


/-- A value that survives re-parsing verbatim: non-empty, trim-stable,
free of `\x7d` (which would end the field capture early) and of `@`
(which would end the entry capture early). -/
def cleanValue (v : List Char) : Bool :=
  !v.isEmpty && (trim v == v) &&
    v.all (fun c => !(c == Char.ofNat 125) && !(c == '@'))

def optClean (o : Option (List Char)) : Bool :=
  match o with
  | none => true
  | some v => cleanValue v

/-- The author field is invariant under the formatter's
split-on-`', '` / join-with-`' and '` round trip. -/
def authorRT (a : List Char) : Bool :=
  joinSep " and ".toList (splitOnSeq ", ".toList
    (joinSep ", ".toList (splitOnSeq " and ".toList a))) == a

/-- The year field is the canonical decimal form of the number the
adapter extracts from it. -/
def yearCanon (y : List Char) : Bool :=
  (Nat.repr (natOfDigits y)).toList == y

def saneId (eid : List Char) : Bool :=
  !eid.isEmpty && eid.all (fun c => isWordChar c || c == '-')

def allowedBibKeys : List (List Char) :=
  ["author".toList, "title".toList, "year".toList, "journal".toList,
   "doi".toList, "eprint".toList, "archiveprefix".toList, "url".toList]

/-- The sanity conditions of the amended round-trip claim: keys are the
formatter's eight, unduplicated, with `author`, `title`, `year` present,
`archiveprefix` present exactly alongside `eprint` and equal to `arXiv`,
and every value clean in the senses above. -/
def saneFields (eid : List Char) (fields : List (List Char × List Char)) :
    Bool :=
  saneId eid &&
  decide ((fields.map Prod.fst).Nodup) &&
  (fields.map Prod.fst).all (fun k => decide (k ∈ allowedBibKeys)) &&
  (match objGet fields "author".toList with
   | some a => cleanValue a && authorRT a
   | none => false) &&
  (match objGet fields "title".toList with
   | some t => cleanValue t
   | none => false) &&
  (match objGet fields "year".toList with
   | some y => cleanValue y && yearCanon y
   | none => false) &&
  optClean (objGet fields "journal".toList) &&
  optClean (objGet fields "doi".toList) &&
  optClean (objGet fields "url".toList) &&
  (match objGet fields "eprint".toList, objGet fields "archiveprefix".toList with
   | some e, some ap => cleanValue e && (ap == "arXiv".toList)
   | none, none => true
   | _, _ => false)

theorem fieldLines_all (q : Char → Bool) (pieces : List (List Char × List Char))
    (hq : q ' ' = true ∧ q '=' = true ∧ q (Char.ofNat 123) = true ∧
      q (Char.ofNat 125) = true ∧ q ',' = true ∧ q '\n' = true)
    (hp : ∀ pc ∈ pieces, pc.1.all q = true ∧ pc.2.all q = true) :
    (fieldLines pieces).all q = true := by
  induction pieces with
  | nil => rfl
  | cons pc ps ih =>
    obtain ⟨k, v⟩ := pc
    obtain ⟨hk, hv⟩ := hp (k, v) (List.mem_cons_self _ _)
    rw [fieldLines_cons]
    simp [List.all_cons, List.all_append, hq.1, hq.2.1, hq.2.2.1, hq.2.2.2.1,
      hq.2.2.2.2.1, hq.2.2.2.2.2, hk, hv,
      ih (fun pc2 h2 => hp pc2 (List.mem_cons_of_mem _ h2))]

/-- The lowered-key mapper used by the scanner. -/
def lowerTrim (q : List Char × List Char) : List Char × List Char :=
  (q.1.map jsToLower, trim q.2)

theorem optPiece_keys_sublist (key : List Char) (o : Option (List Char)) :
    ((optPiece key o).map (fun q => q.1.map jsToLower)).Sublist
      [key.map jsToLower] := by
  cases o with
  | none => exact List.nil_sublist _
  | some v =>
    by_cases hv : v.isEmpty
    · simp [optPiece, hv]
    · simp [optPiece, hv]

theorem arxivPieces_keys_sublist (o : Option (List Char)) :
    ((arxivPieces o).map (fun q => q.1.map jsToLower)).Sublist
      ["eprint".toList.map jsToLower, "archivePrefix".toList.map jsToLower] := by
  cases o with
  | none => exact List.nil_sublist _
  | some v =>
    by_cases hv : v.isEmpty
    · simp [arxivPieces, hv]
    · simp [arxivPieces, hv]

theorem objGet_optSegment (key : List Char) (o : Option (List Char))
    (hkey : key.map jsToLower = key)
    (ho : optClean o = true)
    (htrim : ∀ v, o = some v → trim v = v) (k : List Char) :
    objGet ((optPiece key o).map lowerTrim) k =
      if key = k then o else none := by
  cases o with
  | none =>
    rw [show ((optPiece key none).map lowerTrim) = [] from rfl]
    rw [show objGet ([] : List (List Char × List Char)) k = none from rfl,
      ite_self]
  | some v =>
    have hv : v.isEmpty = false := by
      simp only [optClean, cleanValue, Bool.and_eq_true, Bool.not_eq_true'] at ho
      exact ho.1.1
    have h0 : optPiece key (some v) = [(key, v)] := by
      unfold optPiece
      simp only [hv, Bool.false_eq_true, if_false]
    have hmap : (optPiece key (some v)).map lowerTrim =
        [(key, trim v)] := by
      rw [h0]
      rw [show ([(key, v)].map lowerTrim) =
        [(key.map jsToLower, trim v)] from rfl]
      rw [hkey]
    rw [hmap, htrim v rfl]
    show (if key = k then some v else
      objGet ([] : List (List Char × List Char)) k) =
      if key = k then some v else none
    by_cases hk : key = k
    · rw [if_pos hk, if_pos hk]
    · rw [if_neg hk, if_neg hk]
      rfl

theorem objGet_arxivSegment (o : Option (List Char))
    (ho : optClean o = true) (k : List Char) :
    objGet ((arxivPieces o).map lowerTrim) k =
      (if "eprint".toList = k then o
       else if "archiveprefix".toList = k then
         o.map (fun _ => "arXiv".toList)
       else none) := by
  cases o with
  | none =>
    rw [show ((arxivPieces none).map lowerTrim) = [] from rfl]
    rw [show objGet ([] : List (List Char × List Char)) k = none from rfl]
    rw [show ((none : Option (List Char)).map (fun _ => "arXiv".toList)) =
      none from rfl]
    rw [ite_self, ite_self]
  | some v =>
    have hv : v.isEmpty = false := by
      simp only [optClean, cleanValue, Bool.and_eq_true, Bool.not_eq_true'] at ho
      exact ho.1.1
    have htrv : trim v = v := by
      simp only [optClean, cleanValue, Bool.and_eq_true] at ho
      exact beq_iff_eq.1 ho.1.2
    have hlow1 : "eprint".toList.map jsToLower = "eprint".toList := by decide
    have hlow2 : "archivePrefix".toList.map jsToLower =
        "archiveprefix".toList := by decide
    have htr : trim "arXiv".toList = "arXiv".toList := by decide
    have h0 : arxivPieces (some v) =
        [("eprint".toList, v), ("archivePrefix".toList, "arXiv".toList)] := by
      unfold arxivPieces
      simp only [hv, Bool.false_eq_true, if_false]
    have hmap : (arxivPieces (some v)).map lowerTrim =
        [("eprint".toList, trim v), ("archiveprefix".toList, "arXiv".toList)] := by
      rw [h0]
      rw [show ([("eprint".toList, v),
          ("archivePrefix".toList, "arXiv".toList)].map lowerTrim) =
        [("eprint".toList.map jsToLower, trim v),
         ("archivePrefix".toList.map jsToLower, trim "arXiv".toList)] from rfl]
      rw [hlow1, hlow2, htr]
    rw [hmap, htrv]
    show (if "eprint".toList = k then some v else
      (if "archiveprefix".toList = k then some "arXiv".toList else
        objGet ([] : List (List Char × List Char)) k)) = _
    by_cases h1 : "eprint".toList = k
    · rw [if_pos h1, if_pos h1]
    · rw [if_neg h1, if_neg h1]
      by_cases h2 : "archiveprefix".toList = k
      · rw [if_pos h2, if_pos h2]
        rfl
      · rw [if_neg h2, if_neg h2]
        rfl


theorem objGet_cons (k0 v0 : List Char) (rest : List (List Char × List Char))
    (k : List Char) :
    objGet ((k0, v0) :: rest) k = if k0 = k then some v0 else objGet rest k :=
  rfl

theorem cleanValue_nonempty (v : List Char) (h : cleanValue v = true) :
    v.isEmpty = false := by
  simp only [cleanValue, Bool.and_eq_true, Bool.not_eq_true'] at h
  exact h.1.1

theorem cleanValue_trim (v : List Char) (h : cleanValue v = true) :
    trim v = v := by
  simp only [cleanValue, Bool.and_eq_true] at h
  exact beq_iff_eq.1 h.1.2

theorem cleanValue_brace (v : List Char) (h : cleanValue v = true) :
    v.all (fun c => !(c == Char.ofNat 125)) = true := by
  simp only [cleanValue, Bool.and_eq_true] at h
  rw [List.all_eq_true]
  intro c hc
  have h2 := List.all_eq_true.1 h.2 c hc
  simp only [Bool.and_eq_true] at h2
  exact h2.1

theorem cleanValue_at (v : List Char) (h : cleanValue v = true) :
    v.all (fun c => !(c == '@')) = true := by
  simp only [cleanValue, Bool.and_eq_true] at h
  rw [List.all_eq_true]
  intro c hc
  have h2 := List.all_eq_true.1 h.2 c hc
  simp only [Bool.and_eq_true] at h2
  exact h2.2

theorem mem_optPiece (key : List Char) (o : Option (List Char))
    (pc : List Char × List Char) (h : pc ∈ optPiece key o) :
    pc.1 = key ∧ o = some pc.2 := by
  cases o with
  | none => cases h
  | some v =>
    by_cases hv : v.isEmpty
    · simp [optPiece, hv] at h
    · simp only [optPiece, hv, Bool.false_eq_true, if_false,
        List.mem_singleton] at h
      subst h
      exact ⟨rfl, rfl⟩

theorem mem_arxivPieces (o : Option (List Char)) (pc : List Char × List Char)
    (h : pc ∈ arxivPieces o) :
    (pc.1 = "eprint".toList ∧ o = some pc.2) ∨
      pc = ("archivePrefix".toList, "arXiv".toList) := by
  cases o with
  | none => cases h
  | some v =>
    by_cases hv : v.isEmpty
    · simp [arxivPieces, hv] at h
    · simp only [arxivPieces, hv, Bool.false_eq_true, if_false,
        List.mem_cons, List.mem_singleton, List.not_mem_nil, or_false] at h
      cases h with
      | inl h1 => exact Or.inl ⟨by rw [h1], by rw [h1]⟩
      | inr h1 => exact Or.inr h1


theorem wordChar_not_at (c : Char) (h : isWordChar c = true) :
    (!(c == '@')) = true := by
  by_cases he : c = '@'
  · subst he
    exact absurd h (by decide)
  · simp [he]

theorem optClean_trim (o : Option (List Char)) (h : optClean o = true) :
    ∀ v, o = some v → trim v = v := by
  intro v hv
  rw [hv] at h
  exact cleanValue_trim v (by simpa [optClean] using h)

theorem c9_roundtrip_core (eid : List Char)
    (fields : List (List Char × List Char))
    (hs : saneFields eid fields = true) :
    ∃ ty2 fields2,
      parseBibTeX (generateBibTeX (paperOfFields eid fields)) =
        [(eid, ty2, fields2)] ∧ fields2.Perm fields := by
  simp only [saneFields, Bool.and_eq_true] at hs
  obtain ⟨⟨⟨⟨⟨⟨⟨⟨⟨hsid, hnd0⟩, hall⟩, hA0⟩, hT0⟩, hY0⟩, hJ0⟩, hD0⟩, hU0⟩,
    hE0⟩ := hs
  have hnd : (fields.map Prod.fst).Nodup := of_decide_eq_true hnd0
  cases hA : objGet fields "author".toList with
  | none => rw [hA] at hA0; exact absurd hA0 (by simp)
  | some A =>
  rw [hA] at hA0
  obtain ⟨hcA, hrtA⟩ := Bool.and_eq_true _ _ ▸ hA0
  cases hT : objGet fields "title".toList with
  | none => rw [hT] at hT0; exact absurd hT0 (by simp)
  | some T =>
  rw [hT] at hT0
  cases hY : objGet fields "year".toList with
  | none => rw [hY] at hY0; exact absurd hY0 (by simp)
  | some Y =>
  rw [hY] at hY0
  obtain ⟨hcY, hyY⟩ := Bool.and_eq_true _ _ ▸ hY0
  have hEclean : optClean (objGet fields "eprint".toList) = true := by
    cases hE : objGet fields "eprint".toList with
    | none => rfl
    | some E =>
      rw [hE] at hE0
      cases hAP : objGet fields "archiveprefix".toList with
      | none => rw [hAP] at hE0; exact absurd hE0 (by simp)
      | some ap =>
        rw [hAP] at hE0
        obtain ⟨hcE, _⟩ := Bool.and_eq_true _ _ ▸ hE0
        simpa [optClean] using hcE
  have hAPval : objGet fields "archiveprefix".toList =
      (objGet fields "eprint".toList).map (fun _ => "arXiv".toList) := by
    cases hE : objGet fields "eprint".toList with
    | none =>
      rw [hE] at hE0
      cases hAP : objGet fields "archiveprefix".toList with
      | none => rfl
      | some ap => rw [hAP] at hE0; exact absurd hE0 (by simp)
    | some E =>
      rw [hE] at hE0
      cases hAP : objGet fields "archiveprefix".toList with
      | none => rw [hAP] at hE0; exact absurd hE0 (by simp)
      | some ap =>
        rw [hAP] at hE0
        obtain ⟨_, hap⟩ := Bool.and_eq_true _ _ ▸ hE0
        rw [beq_iff_eq.1 hap]
        rfl
  have hsid2 := hsid
  simp only [saneId, Bool.and_eq_true, Bool.not_eq_true'] at hsid2
  obtain ⟨heid1, heidw⟩ := hsid2
  have hptitle : (paperOfFields eid fields).title = T := by
    unfold paperOfFields
    rw [hT]
    rfl
  have hpauthors : (paperOfFields eid fields).authors =
      joinSep ", ".toList (splitOnSeq " and ".toList A) := by
    unfold paperOfFields
    rw [hA]
    rfl
  have hpyear : (paperOfFields eid fields).year = natOfDigits Y := by
    unfold paperOfFields
    rw [hY]
    rfl
  have hAL : joinSep " and ".toList (splitOnSeq ", ".toList
      (paperOfFields eid fields).authors) = A := by
    rw [hpauthors]
    exact beq_iff_eq.1 hrtA
  have hYr : (Nat.repr (paperOfFields eid fields).year).toList = Y := by
    rw [hpyear]
    exact beq_iff_eq.1 hyY
  have hbp : bibPieces (paperOfFields eid fields) =
      ("author".toList, A) :: ("title".toList, T) :: ("year".toList, Y) ::
      (optPiece "journal".toList (objGet fields "journal".toList) ++
        (optPiece "doi".toList (objGet fields "doi".toList) ++
          (arxivPieces (objGet fields "eprint".toList) ++
            optPiece "url".toList (objGet fields "url".toList)))) := by
    unfold bibPieces
    rw [hAL, hptitle, hYr]
    rfl
  have hPall : ∀ pc ∈ ("author".toList, A) :: ("title".toList, T) ::
      ("year".toList, Y) ::
      (optPiece "journal".toList (objGet fields "journal".toList) ++
        (optPiece "doi".toList (objGet fields "doi".toList) ++
          (arxivPieces (objGet fields "eprint".toList) ++
            optPiece "url".toList (objGet fields "url".toList)))),
      pc.1.isEmpty = false ∧ pc.1.all isWordChar = true ∧
        cleanValue pc.2 = true := by
    intro pc hpc
    simp only [List.mem_cons, List.mem_append] at hpc
    rcases hpc with h | h | h | h | h | h | h
    · subst h; exact ⟨rfl, rfl, hcA⟩
    · subst h; exact ⟨rfl, rfl, hT0⟩
    · subst h; exact ⟨rfl, rfl, hcY⟩
    · obtain ⟨hk, hov⟩ := mem_optPiece _ _ _ h
      refine ⟨by rw [hk]; decide, by rw [hk]; decide, ?_⟩
      have := hJ0
      rw [hov] at this
      simpa [optClean] using this
    · obtain ⟨hk, hov⟩ := mem_optPiece _ _ _ h
      refine ⟨by rw [hk]; decide, by rw [hk]; decide, ?_⟩
      have := hD0
      rw [hov] at this
      simpa [optClean] using this
    · rcases mem_arxivPieces _ _ h with ⟨hk, hov⟩ | hpc2
      · refine ⟨by rw [hk]; decide, by rw [hk]; decide, ?_⟩
        have := hEclean
        rw [hov] at this
        simpa [optClean] using this
      · subst hpc2
        exact ⟨by decide, by decide, by decide⟩
    · obtain ⟨hk, hov⟩ := mem_optPiece _ _ _ h
      refine ⟨by rw [hk]; decide, by rw [hk]; decide, ?_⟩
      have := hU0
      rw [hov] at this
      simpa [optClean] using this
  have hcond : ∀ pcc ∈ ("author".toList, A) :: ("title".toList, T) :: ("year".toList, Y) ::
      (optPiece "journal".toList (objGet fields "journal".toList) ++
        (optPiece "doi".toList (objGet fields "doi".toList) ++
          (arxivPieces (objGet fields "eprint".toList) ++
            optPiece "url".toList (objGet fields "url".toList)))),
      pcc.1.isEmpty = false ∧ pcc.1.all isWordChar = true ∧
        pcc.2.isEmpty = false ∧
        pcc.2.all (fun c => !(c == Char.ofNat 125)) = true := by
    intro pcc hq
    obtain ⟨h1, h2, h3⟩ := hPall pcc hq
    exact ⟨h1, h2, cleanValue_nonempty _ h3, cleanValue_brace _ h3⟩
  have hsubJ := optPiece_keys_sublist "journal".toList
    (objGet fields "journal".toList)
  rw [show "journal".toList.map jsToLower = "journal".toList from by decide]
    at hsubJ
  have hsubD := optPiece_keys_sublist "doi".toList (objGet fields "doi".toList)
  rw [show "doi".toList.map jsToLower = "doi".toList from by decide] at hsubD
  have hsubU := optPiece_keys_sublist "url".toList (objGet fields "url".toList)
  rw [show "url".toList.map jsToLower = "url".toList from by decide] at hsubU
  have hsubA := arxivPieces_keys_sublist (objGet fields "eprint".toList)
  rw [show "eprint".toList.map jsToLower = "eprint".toList from by decide,
    show "archivePrefix".toList.map jsToLower = "archiveprefix".toList from
      by decide] at hsubA
  have hsub : ((("author".toList, A) :: ("title".toList, T) :: ("year".toList, Y) ::
      (optPiece "journal".toList (objGet fields "journal".toList) ++
        (optPiece "doi".toList (objGet fields "doi".toList) ++
          (arxivPieces (objGet fields "eprint".toList) ++
            optPiece "url".toList (objGet fields "url".toList))))).map (fun q => q.1.map jsToLower)).Sublist
      ["author".toList, "title".toList, "year".toList, "journal".toList,
       "doi".toList, "eprint".toList, "archiveprefix".toList, "url".toList] := by
    simp only [List.map_cons, List.map_append]
    rw [show "author".toList.map jsToLower = "author".toList from by decide,
      show "title".toList.map jsToLower = "title".toList from by decide,
      show "year".toList.map jsToLower = "year".toList from by decide]
    refine List.Sublist.cons₂ _ (List.Sublist.cons₂ _ (List.Sublist.cons₂ _ ?_))
    show List.Sublist _ (["journal".toList] ++ (["doi".toList] ++
      (["eprint".toList, "archiveprefix".toList] ++ ["url".toList])))
    exact List.Sublist.append hsubJ (List.Sublist.append hsubD
      (List.Sublist.append hsubA hsubU))
  have ndLow : ((("author".toList, A) :: ("title".toList, T) :: ("year".toList, Y) ::
      (optPiece "journal".toList (objGet fields "journal".toList) ++
        (optPiece "doi".toList (objGet fields "doi".toList) ++
          (arxivPieces (objGet fields "eprint".toList) ++
            optPiece "url".toList (objGet fields "url".toList))))).map (fun q => q.1.map jsToLower)).Nodup :=
    List.Nodup.sublist hsub (by decide)
  have hdis : ∀ q ∈ ("author".toList, A) :: ("title".toList, T) :: ("year".toList, Y) ::
      (optPiece "journal".toList (objGet fields "journal".toList) ++
        (optPiece "doi".toList (objGet fields "doi".toList) ++
          (arxivPieces (objGet fields "eprint".toList) ++
            optPiece "url".toList (objGet fields "url".toList)))), objGet [] (q.1.map jsToLower) = none :=
    fun q hq => rfl
  have hpf : parseFields ('\n' :: fieldLines (("author".toList, A) :: ("title".toList, T) :: ("year".toList, Y) ::
      (optPiece "journal".toList (objGet fields "journal".toList) ++
        (optPiece "doi".toList (objGet fields "doi".toList) ++
          (arxivPieces (objGet fields "eprint".toList) ++
            optPiece "url".toList (objGet fields "url".toList)))))) =
      (("author".toList, A) :: ("title".toList, T) :: ("year".toList, Y) ::
      (optPiece "journal".toList (objGet fields "journal".toList) ++
        (optPiece "doi".toList (objGet fields "doi".toList) ++
          (arxivPieces (objGet fields "eprint".toList) ++
            optPiece "url".toList (objGet fields "url".toList))))).map lowerTrim := by
    rw [parseFields_eq_exact, scanFields_lines _ [] hcond,
      foldl_pieceStep_append _ [] ndLow hdis, List.nil_append]
    rfl
  have e1 : lowerTrim ("author".toList, A) = ("author".toList, A) := by
    show ("author".toList.map jsToLower, trim A) = _
    rw [cleanValue_trim A hcA,
      show "author".toList.map jsToLower = "author".toList from by decide]
  have e2 : lowerTrim ("title".toList, T) = ("title".toList, T) := by
    show ("title".toList.map jsToLower, trim T) = _
    rw [cleanValue_trim T hT0,
      show "title".toList.map jsToLower = "title".toList from by decide]
  have e3 : lowerTrim ("year".toList, Y) = ("year".toList, Y) := by
    show ("year".toList.map jsToLower, trim Y) = _
    rw [cleanValue_trim Y hcY,
      show "year".toList.map jsToLower = "year".toList from by decide]
  have hmap2 : (("author".toList, A) :: ("title".toList, T) :: ("year".toList, Y) ::
      (optPiece "journal".toList (objGet fields "journal".toList) ++
        (optPiece "doi".toList (objGet fields "doi".toList) ++
          (arxivPieces (objGet fields "eprint".toList) ++
            optPiece "url".toList (objGet fields "url".toList))))).map lowerTrim =
      ("author".toList, A) :: ("title".toList, T) :: ("year".toList, Y) ::
      ((optPiece "journal".toList (objGet fields "journal".toList)).map
          lowerTrim ++
        ((optPiece "doi".toList (objGet fields "doi".toList)).map lowerTrim ++
          ((arxivPieces (objGet fields "eprint".toList)).map lowerTrim ++
            (optPiece "url".toList (objGet fields "url".toList)).map
              lowerTrim))) := by
    simp only [List.map_cons, List.map_append]
    rw [e1, e2, e3]
  have hkeys2 : ((("author".toList, A) :: ("title".toList, T) :: ("year".toList, Y) ::
      (optPiece "journal".toList (objGet fields "journal".toList) ++
        (optPiece "doi".toList (objGet fields "doi".toList) ++
          (arxivPieces (objGet fields "eprint".toList) ++
            optPiece "url".toList (objGet fields "url".toList))))).map lowerTrim).map Prod.fst =
      (("author".toList, A) :: ("title".toList, T) :: ("year".toList, Y) ::
      (optPiece "journal".toList (objGet fields "journal".toList) ++
        (optPiece "doi".toList (objGet fields "doi".toList) ++
          (arxivPieces (objGet fields "eprint".toList) ++
            optPiece "url".toList (objGet fields "url".toList))))).map (fun q => q.1.map jsToLower) := by
    rw [List.map_map]
    rfl
  have nd2 : (((("author".toList, A) :: ("title".toList, T) :: ("year".toList, Y) ::
      (optPiece "journal".toList (objGet fields "journal".toList) ++
        (optPiece "doi".toList (objGet fields "doi".toList) ++
          (arxivPieces (objGet fields "eprint".toList) ++
            optPiece "url".toList (objGet fields "url".toList))))).map lowerTrim).map Prod.fst).Nodup := by
    rw [hkeys2]
    exact ndLow
  have hext : ∀ k, objGet ((("author".toList, A) :: ("title".toList, T) :: ("year".toList, Y) ::
      (optPiece "journal".toList (objGet fields "journal".toList) ++
        (optPiece "doi".toList (objGet fields "doi".toList) ++
          (arxivPieces (objGet fields "eprint".toList) ++
            optPiece "url".toList (objGet fields "url".toList))))).map lowerTrim) k = objGet fields k := by
    intro k
    rw [hmap2, objGet_cons, objGet_cons, objGet_cons, objGet_append,
      objGet_append, objGet_append,
      objGet_optSegment "journal".toList _ (by decide) hJ0
        (optClean_trim _ hJ0),
      objGet_optSegment "doi".toList _ (by decide) hD0 (optClean_trim _ hD0),
      objGet_optSegment "url".toList _ (by decide) hU0 (optClean_trim _ hU0),
      objGet_arxivSegment _ hEclean]
    by_cases k1 : "author".toList = k
    · subst k1
      rw [if_pos rfl, hA]
    · rw [if_neg k1]
      by_cases k2 : "title".toList = k
      · subst k2
        rw [if_pos rfl, hT]
      · rw [if_neg k2]
        by_cases k3 : "year".toList = k
        · subst k3
          rw [if_pos rfl, hY]
        · rw [if_neg k3]
          by_cases k4 : "journal".toList = k
          · subst k4
            rw [if_pos rfl]
            cases hJc : objGet fields "journal".toList with
            | some j => rfl
            | none =>
              rw [if_neg (by decide), if_neg (by decide), if_neg (by decide),
                if_neg (by decide)]
          · rw [if_neg k4]
            by_cases k5 : "doi".toList = k
            · subst k5
              rw [if_pos rfl]
              cases hDc : objGet fields "doi".toList with
              | some d => rfl
              | none =>
                rw [if_neg (by decide), if_neg (by decide), if_neg (by decide)]
            · rw [if_neg k5]
              by_cases k6 : "eprint".toList = k
              · subst k6
                rw [if_pos rfl]
                cases hEc : objGet fields "eprint".toList with
                | some epv => rfl
                | none =>
                  rw [if_neg (by decide)]
              · rw [if_neg k6]
                by_cases k7 : "archiveprefix".toList = k
                · subst k7
                  rw [if_pos rfl, hAPval]
                  cases hEc : objGet fields "eprint".toList with
                  | some epv => rfl
                  | none =>
                    rw [if_neg (by decide)]
                    rfl
                · rw [if_neg k7]
                  by_cases k8 : "url".toList = k
                  · subst k8
                    rw [if_pos rfl]
                  · rw [if_neg k8]
                    have hout : k ∉ fields.map Prod.fst := by
                      intro hin
                      have := List.all_eq_true.1 hall k hin
                      rw [decide_eq_true_eq] at this
                      simp only [allowedBibKeys, List.mem_cons,
                        List.mem_singleton, List.not_mem_nil, or_false] at this
                      rcases this with h | h | h | h | h | h | h | h <;>
                        first
                          | exact k1 h.symm
                          | exact k2 h.symm
                          | exact k3 h.symm
                          | exact k4 h.symm
                          | exact k5 h.symm
                          | exact k6 h.symm
                          | exact k7 h.symm
                          | exact k8 h.symm
                    rw [(objGet_eq_none_iff fields k).2 hout]
  refine ⟨(entryTy (paperOfFields eid fields)).map jsToLower,
    (("author".toList, A) :: ("title".toList, T) :: ("year".toList, Y) ::
      (optPiece "journal".toList (objGet fields "journal".toList) ++
        (optPiece "doi".toList (objGet fields "doi".toList) ++
          (arxivPieces (objGet fields "eprint".toList) ++
            optPiece "url".toList (objGet fields "url".toList))))).map lowerTrim, ?_, ?_⟩
  · rw [gen_eq, hbp]
    rw [show (paperOfFields eid fields).id = eid from rfl]
    rw [parse_entryText _ eid _ ?_ ?_ heid1 heidw ?_ ?_]
    · rw [hpf]
    · unfold entryTy
      by_cases h : truthyStr (paperOfFields eid fields).journal
      · rw [if_pos h]
        decide
      · rw [if_neg h]
        decide
    · unfold entryTy
      by_cases h : truthyStr (paperOfFields eid fields).journal
      · rw [if_pos h]
        decide
      · rw [if_neg h]
        decide
    · rfl
    · rw [List.all_cons]
      refine Bool.and_eq_true _ _ ▸ ⟨by decide, ?_⟩
      refine fieldLines_all _ _ (by decide) ?_
      intro pc hpc
      obtain ⟨_, hkw, hcv⟩ := hPall pc hpc
      refine ⟨?_, cleanValue_at _ hcv⟩
      exact List.all_eq_true.2
        (fun c hc => wordChar_not_at c (List.all_eq_true.1 hkw c hc))
  · refine (List.perm_ext_iff_of_nodup (List.Nodup.of_map _ nd2)
      (List.Nodup.of_map _ hnd)).2 ?_
    intro a
    obtain ⟨k, v⟩ := a
    rw [mem_objGet _ _ _ nd2, mem_objGet _ _ _ hnd, hext k]


def c9CxRecord2 : List Char :=
  ("@article\x7bq1,author = \x7bAnn Smith\x7d,title = \x7bT\x7d," ++
    "year = \x7b7\x7d,volume = \x7b12\x7d\x7d").toList

def c9CxFields : List (List Char × List Char) :=
  [("author".toList, "Ann Smith".toList), ("title".toList, "T".toList),
   ("year".toList, "7".toList), ("volume".toList, "12".toList)]

/-- C9 counterexample: a record carrying a `volume` field parses to a
field set including `volume`, but the formatter emits only the eight
fields it knows, so the round trip loses `volume` and the field sets
differ even modulo ordering. -/
theorem c9_counterexample :
    parseBibTeX c9CxRecord2 =
      [("q1".toList, "article".toList, c9CxFields)] ∧
    parseBibTeX (generateBibTeX (paperOfFields "q1".toList c9CxFields)) =
      [("q1".toList, "misc".toList,
        [("author".toList, "Ann Smith".toList), ("title".toList, "T".toList),
         ("year".toList, "7".toList)])] ∧
    (("volume".toList, "12".toList) : List Char × List Char) ∈ c9CxFields ∧
    (("volume".toList, "12".toList) : List Char × List Char) ∉
      [(("author".toList : List Char), "Ann Smith".toList),
       ("title".toList, "T".toList), ("year".toList, "7".toList)] ∧
    ¬ List.Perm
      [(("author".toList : List Char), "Ann Smith".toList),
       ("title".toList, "T".toList), ("year".toList, "7".toList)]
      c9CxFields := by
  refine ⟨by decide, by decide, by decide, by decide, ?_⟩
  intro h
  have hmem : (("volume".toList, "12".toList) : List Char × List Char) ∈
      c9CxFields := by decide
  exact absurd (h.symm.subset hmem) (by decide)

def c9Record : List Char :=
  ("@article\x7bp1,author = \x7bAnn Smith and Bob Jones\x7d," ++
    "title = \x7bA Title\x7d,year = \x7b2020\x7d,journal = \x7bNature\x7d\x7d").toList

def c9Fields : List (List Char × List Char) :=
  [("author".toList, "Ann Smith and Bob Jones".toList),
   ("title".toList, "A Title".toList), ("year".toList, "2020".toList),
   ("journal".toList, "Nature".toList)]

/-- C9 (amended): for every record `x` whose parse yields a sane field
set — keys among the formatter's eight with `author`, `title`, `year`
present, `archiveprefix` tied to `eprint`, values clean, the author list
split/join-stable and the year canonical — re-formatting the parsed
fields and parsing again reproduces the same field set modulo ordering;
fields outside the formatter's eight (e.g. `volume`) are dropped. -/
theorem c9_roundtrip_modulo_order (x eid ty : List Char)
    (fields : List (List Char × List Char))
    (hx : parseBibTeX x = [(eid, ty, fields)])
    (hs : saneFields eid fields = true) :
    ∃ ty2 fields2,
      parseBibTeX (generateBibTeX (paperOfFields eid fields)) =
        [(eid, ty2, fields2)] ∧ fields2.Perm fields :=
  c9_roundtrip_core eid fields hs

theorem c9_roundtrip_modulo_order_witness :
    parseBibTeX c9Record = [("p1".toList, "article".toList, c9Fields)] ∧
    saneFields "p1".toList c9Fields = true ∧
    (∃ ty2 fields2,
      parseBibTeX (generateBibTeX (paperOfFields "p1".toList c9Fields)) =
        [("p1".toList, ty2, fields2)] ∧ fields2.Perm c9Fields) :=
  ⟨by decide, by decide,
    c9_roundtrip_modulo_order c9Record "p1".toList "article".toList c9Fields
      (by decide) (by decide)⟩

end DeepCite
